import Mathlib

/-!
# pmdsim: the animation keyframe engine (`src/animation.cpp`, `src/animation.h`)

A shallow embedding of `Animation::interpolate`, `slerp` and the keyframe
insertion of `Animation::load`.

Conventions of the embedding.

* `float` values are elements of a linearly ordered field `α` (exact
  arithmetic); `std::acos` and `std::sin` are passed as parameters `acos` and
  `sin`, so every definition stays executable over `ℚ`, and the theorems that
  need trigonometry instantiate them with `Real.arccos` and `Real.sin`.
* `int` and `long long` values are integers reduced into the 32-bit resp.
  64-bit two's complement range after every arithmetic operation.
* Indexing a `std::vector` outside `0..size-1` is a fault (`Fault.index`).
-/

namespace Pmdsim

/-! ## Data model -/

/-- The array `float pos[3]`. -/
structure Vec3 (α : Type) where
  c0 : α
  c1 : α
  c2 : α
deriving DecidableEq, Repr

/-- The array `float rot[4]`, a quaternion in `(x, y, z, w)` order. -/
structure Quat (α : Type) where
  c0 : α
  c1 : α
  c2 : α
  c3 : α
deriving DecidableEq, Repr

/-- The class `Animation::Keyframe`: time in microseconds, position, rotation. -/
structure Keyframe (α : Type) where
  t : Int
  pos : Vec3 α
  rot : Quat α
deriving DecidableEq, Repr

/-- The class `Animation`: the vector `keyframes`. -/
structure Animation (α : Type) where
  keyframes : List (Keyframe α)
deriving DecidableEq, Repr

/-- What can go wrong while running the embedded code. -/
inductive Fault where
  /-- A vector was indexed at `i`, outside `0..size-1`. -/
  | index (i : Int)
  /-- The iteration bound of the embedding was reached. -/
  | fuel
deriving DecidableEq, Repr

deriving instance DecidableEq for Except

/-! ## Machine integers -/

/-- The value of an `int` expression: reduction into `[-2^31, 2^31)`. -/
def wrap_int (x : Int) : Int :=
  (x + 2147483648) % 4294967296 - 2147483648

/-- The value of a `long long` expression: reduction into `[-2^63, 2^63)`. -/
def wrap_long_long (x : Int) : Int :=
  (x + 9223372036854775808) % 18446744073709551616 - 9223372036854775808

/-- The expression `keyframes[i]` for an `int` index `i`. -/
def index {α : Type} (keyframes : List (Keyframe α)) (i : Int) :
    Except Fault (Keyframe α) :=
  if i < 0 then .error (.index i)
  else
    match keyframes[i.toNat]? with
    | some k => .ok k
    | none => .error (.index i)

/-! ## `slerp` -/

/-- The constant `epsilon = 0.0001f`. -/
def epsilon {α : Type} [LinearOrderedField α] : α := 1 / 10000

/-- The function `copy_keyframe`: the seven components of a keyframe. -/
def copy_keyframe {α : Type} (keyframe : Keyframe α) : Vec3 α × Quat α :=
  (⟨keyframe.pos.c0, keyframe.pos.c1, keyframe.pos.c2⟩,
   ⟨keyframe.rot.c0, keyframe.rot.c1, keyframe.rot.c2, keyframe.rot.c3⟩)

/-- The initial value of `cos_w` in `slerp` (line 44 of `animation.cpp`). -/
def slerp_cos_w {α : Type} [LinearOrderedField α] (qa qb : Quat α) : α :=
  qa.c0 * qb.c0 + qa.c1 * qb.c1 + qa.c2 * qb.c2 + qa.c3 + qb.c3

/-- The sign normalisation of `slerp` (lines 44-51): the final `cos_w` and `qb`. -/
def slerp_sign {α : Type} [LinearOrderedField α] (quat_a quat_b : Quat α) :
    α × Quat α :=
  let cos_w := slerp_cos_w quat_a quat_b
  if cos_w < 0 then
    (-cos_w, ⟨-quat_b.c0, -quat_b.c1, -quat_b.c2, -quat_b.c3⟩)
  else
    (cos_w, quat_b)

/-- The weights `(t_a, t_b)` of `slerp` (lines 52-62). -/
def slerp_weights {α : Type} [LinearOrderedField α] (acos sin : α → α)
    (cos_w alpha : α) : α × α :=
  if 1 - cos_w > epsilon then
    let w := acos cos_w
    let sin_w := sin w
    (sin (alpha * w) / sin_w, sin ((1 - alpha) * w) / sin_w)
  else
    (alpha, 1 - alpha)

/-- The function `slerp`. -/
def slerp {α : Type} [LinearOrderedField α] (acos sin : α → α)
    (quat_a quat_b : Quat α) (alpha : α) : Quat α :=
  let qa := quat_a
  let s := slerp_sign quat_a quat_b
  let qb := s.2
  let tw := slerp_weights acos sin s.1 alpha
  let t_a := tw.1
  let t_b := tw.2
  ⟨t_a * qa.c0 + t_b * qb.c0,
   t_a * qa.c1 + t_b * qb.c1,
   t_a * qa.c2 + t_b * qb.c2,
   t_a * qa.c3 + t_b * qb.c3⟩

/-! ## `Animation::interpolate` -/

/-- How the `while (b >= a)` loop of `Animation::interpolate` ends. -/
inductive Search where
  /-- The branch `exact match` was taken at index `c`. -/
  | exact (c : Int)
  /-- The loop condition failed with these values of `a` and `b`. -/
  | exit (a b : Int)
deriving DecidableEq, Repr

/-- The loop `while (b >= a)` of `Animation::interpolate` (lines 87-98),
run for at most `fuel` evaluations of the loop condition. -/
def search {α : Type} (keyframes : List (Keyframe α)) (t : Int) :
    Nat → Int → Int → Except Fault Search
  | 0, _, _ => .error .fuel
  | fuel + 1, a, b =>
    if b ≥ a then
      let c := Int.tdiv (wrap_int (a + b)) 2
      match index keyframes c with
      | .error e => .error e
      | .ok k =>
        if k.t < t then search keyframes t fuel (wrap_int (c + 1)) b
        else if k.t > t then search keyframes t fuel a (wrap_int (c - 1))
        else .ok (.exact c)
    else .ok (.exit a b)

/-- The value `alpha` computed in line 103. -/
def interpolate_alpha {α : Type} [LinearOrderedField α] (ka kb : Keyframe α) (t : Int) : α :=
  ((wrap_long_long (kb.t - t) : Int) : α) / ((wrap_long_long (kb.t - ka.t) : Int) : α)

/-- The blend of lines 105-111 between the keyframes `ka` and `kb`. -/
def blend {α : Type} [LinearOrderedField α] (acos sin : α → α)
    (ka kb : Keyframe α) (alpha : α) : Vec3 α × Quat α :=
  (⟨alpha * ka.pos.c0 + (1 - alpha) * kb.pos.c0,
    alpha * ka.pos.c1 + (1 - alpha) * kb.pos.c1,
    alpha * ka.pos.c2 + (1 - alpha) * kb.pos.c2⟩,
   slerp acos sin ka.rot kb.rot alpha)

/-- The part of `Animation::interpolate` after the corner cases (lines 82-111). -/
def interpolate_search {α : Type} [LinearOrderedField α] (acos sin : α → α)
    (keyframes : List (Keyframe α)) (t : Int) : Except Fault (Vec3 α × Quat α) :=
  match search keyframes t (keyframes.length + 1) 0 (wrap_int ((keyframes.length : Int) - 1)) with
  | .error e => .error e
  | .ok (.exact c) =>
    match index keyframes c with
    | .error e => .error e
    | .ok k => .ok (copy_keyframe k)
  | .ok (.exit a0 b0) =>
    -- std::swap(a, b)
    let a := b0
    let b := a0
    match index keyframes a, index keyframes b with
    | .ok ka, .ok kb => .ok (blend acos sin ka kb (interpolate_alpha ka kb t))
    | .error e, _ => .error e
    | _, .error e => .error e

/-- The method `Animation::interpolate(t, pos, rot)`; `out` holds the caller's
`pos` and `rot` before the call, the result holds them after it. -/
def Animation.interpolate {α : Type} [LinearOrderedField α] (acos sin : α → α)
    (self : Animation α) (t : Int) (out : Vec3 α × Quat α) :
    Except Fault (Vec3 α × Quat α) :=
  if self.keyframes.length = 0 then .ok out
  else
    match index self.keyframes 0 with
    | .error e => .error e
    | .ok first =>
      if t ≤ first.t then .ok (copy_keyframe first)
      else
        match index self.keyframes (Int.ofNat (self.keyframes.length - 1)) with
        | .error e => .error e
        | .ok last =>
          if t ≥ last.t then .ok (copy_keyframe last)
          else interpolate_search acos sin self.keyframes t

/-- The documented order of `Animation::keyframes`: "sorted by ascending time",
with pairwise distinct times. -/
def ascending {α : Type} (keyframes : List (Keyframe α)) : Prop :=
  keyframes.Pairwise (fun x y => x.t < y.t)

instance {α : Type} (keyframes : List (Keyframe α)) : Decidable (ascending keyframes) := by
  unfold ascending
  infer_instance

/-! ## `Animation::load` -/

/-- The linear search of lines 200-202 and 326-328: the number of leading
keyframes whose time is below `t`, which is the final value of `i`. -/
def insert_index {α : Type} (keyframes : List (Keyframe α)) (t : Int) : Nat :=
  match keyframes with
  | [] => 0
  | k :: rest => if k.t < t then insert_index rest t + 1 else 0

/-- The insertion of lines 198-208 and 324-334: overwrite the keyframe at `i`
when it has the same time, insert before position `i` otherwise. -/
def insert_keyframe {α : Type} (keyframes : List (Keyframe α)) (keyframe : Keyframe α) :
    List (Keyframe α) :=
  let i := insert_index keyframes keyframe.t
  match keyframes[i]? with
  | some k =>
    if k.t = keyframe.t then keyframes.set i keyframe
    else keyframes.insertIdx i keyframe
  | none => keyframes.insertIdx i keyframe

/-- The test `linebuf[0] == '\r' || linebuf[0] == '\n' || linebuf[0] == '#'`. -/
def is_ignored (linebuf : List Char) : Bool :=
  match linebuf with
  | [] => false
  | c :: _ => c == '\r' || c == '\n' || c == '#'

/-- The parts of `Animation::load` that go through `sscanf` and `float`
conversions, taken as parameters.

* `sscanf_d format line` is `some n` when `sscanf(line, format, &n)` returns 1.
* `keyframe_v1 line` is the keyframe of lines 193-197 when the `sscanf` of
  line 193 returns 8, and `none` otherwise.
* `keyframe_v2 line` is the keyframe of lines 222-323 when `valid` holds in
  line 294, and `none` otherwise. -/
structure Scanner (α : Type) where
  sscanf_d : List Char → List Char → Option Int
  keyframe_v1 : List Char → Option (Keyframe α)
  keyframe_v2 : List Char → Option (Keyframe α)

/-- An open file: the characters that can be read from it, and the value of
`ferror(f)` after they are read. -/
structure File where
  content : List Char
  error : Bool
deriving DecidableEq, Repr

/-- The call `fgets(linebuf, n + 1, f)` on the unread characters: the string
stored in `linebuf`, which has at most `n` characters and ends after the first
newline, and the characters left unread. The string is empty when `fgets`
returns `NULL`. -/
def fgets (n : Nat) (unread : List Char) : List Char × List Char :=
  match unread with
  | [] => ([], [])
  | c :: rest =>
    match n with
    | 0 => ([], c :: rest)
    | n + 1 =>
      if c = '\n' then ([c], rest)
      else ((c :: (fgets n rest).1), (fgets n rest).2)

/-- The strings returned by the successive calls `fgets(linebuf, n + 1, f)`
until it returns `NULL`; every call that returns a string reads a character,
and `fuel` bounds the number of calls. -/
def read_lines (n : Nat) (fuel : Nat) (unread : List Char) : List (List Char) :=
  match fuel with
  | 0 => []
  | fuel + 1 =>
    match unread with
    | [] => []
    | c :: rest => (fgets n (c :: rest)).1 :: read_lines n fuel (fgets n (c :: rest)).2

/-- The strings that the calls `fgets(linebuf, linebuf_size, f)` with
`linebuf_size = 512` return for a file, until `fgets` returns `NULL`. -/
def File.lines (f : File) : List (List Char) :=
  read_lines 511 f.content.length f.content

/-- The exceptions thrown by `Animation::load`. -/
inductive LoadError where
  /-- The `std::system_error` "Cannot open". -/
  | cannot_open
  /-- The `std::runtime_error` "not a valid animation description". -/
  | not_valid
  /-- The `std::system_error` "Cannot read". -/
  | cannot_read
deriving DecidableEq, Repr

/-- The header test of lines 177-183: the file format version, or `none` when
the exception is thrown. -/
def read_header (sscanf_d : List Char → List Char → Option Int)
    (lines : List (List Char)) : Option Int :=
  match lines with
  | [] => none
  | linebuf :: _ =>
    let scanned :=
      match sscanf_d "PMDSIM ANIMATION VERSION %d".toList linebuf with
      | some n => some n
      | none => sscanf_d "PMDSIMTAP ANIMATION VERSION %d".toList linebuf
    match scanned with
    | none => none
    | some fileformat_version =>
      if fileformat_version ≠ 1 ∧ fileformat_version ≠ 2 then none
      else some fileformat_version

/-- One iteration of the loops of lines 185-214 and 216-340 on the scratch
track `newanimation.keyframes`. -/
def load_line {α : Type} (keyframe_of : List Char → Option (Keyframe α))
    (newanimation : List (Keyframe α)) (linebuf : List Char) : List (Keyframe α) :=
  if is_ignored linebuf then newanimation
  else
    match keyframe_of linebuf with
    | some keyframe => insert_keyframe newanimation keyframe
    | none => newanimation

/-- The loops of lines 185-214 and 216-340 over the body lines. -/
def load_body {α : Type} (keyframe_of : List Char → Option (Keyframe α))
    (newanimation : List (Keyframe α)) (lines : List (List Char)) : List (Keyframe α) :=
  lines.foldl (load_line keyframe_of) newanimation

/-- The method `Animation::load(filename)`: the thrown exception, if any, and
the state of `*this` after the call. `fopen filename` is `none` when the file
cannot be opened. -/
def Animation.load {α : Type} (scanner : Scanner α) (fopen : String → Option File)
    (self : Animation α) (filename : String) : Except LoadError Unit × Animation α :=
  match fopen filename with
  | none => (.error .cannot_open, self)
  | some f =>
    match read_header scanner.sscanf_d f.lines with
    | none => (.error .not_valid, self)
    | some fileformat_version =>
      let newanimation : List (Keyframe α) :=
        if fileformat_version = 1 then load_body scanner.keyframe_v1 [] f.lines.tail
        else load_body scanner.keyframe_v2 [] f.lines.tail
      if f.error then (.error .cannot_read, self)
      else (.ok (), ⟨newanimation⟩)

/-! ## Definitions used in the statements and in the examples -/

/-- The 4-component dot product `a0*b0 + a1*b1 + a2*b2 + a3*b3` of two
quaternions, as the specification words it. -/
def quat_dot {α : Type} [LinearOrderedField α] (a b : Quat α) : α :=
  a.c0 * b.c0 + a.c1 * b.c1 + a.c2 * b.c2 + a.c3 * b.c3

/-- The squared norm of a quaternion. -/
def quat_norm_sq {α : Type} [LinearOrderedField α] (q : Quat α) : α :=
  quat_dot q q

/-- The keyframes that the body lines of a file define, in file order: the
lines that are neither ignored nor rejected. -/
def valid_keyframes {α : Type} (keyframe_of : List Char → Option (Keyframe α))
    (lines : List (List Char)) : List (Keyframe α) :=
  lines.filterMap (fun linebuf => if is_ignored linebuf then none else keyframe_of linebuf)

/-- The first keyframe of a list with time `t`. -/
def first_with_time {α : Type} (keyframes : List (Keyframe α)) (t : Int) :
    Option (Keyframe α) :=
  keyframes.find? (fun k => decide (k.t = t))

/-- The last keyframe of a list with time `t`. -/
def last_with_time {α : Type} (keyframes : List (Keyframe α)) (t : Int) :
    Option (Keyframe α) :=
  first_with_time keyframes.reverse t

/-- A track of four keyframes with rational poses. -/
def sample_track : Animation ℚ :=
  ⟨[⟨0, ⟨0, 0, 0⟩, ⟨0, 0, 0, 1⟩⟩, ⟨10, ⟨1, 2, 3⟩, ⟨1, 0, 0, 0⟩⟩,
    ⟨20, ⟨5, 0, 1⟩, ⟨0, 1, 0, 0⟩⟩, ⟨40, ⟨7, 7, 7⟩, ⟨0, 0, 1, 0⟩⟩]⟩

/-- The buffers `pos` and `rot` of a caller before the call. -/
def sample_out : Vec3 ℚ × Quat ℚ := (⟨0, 0, 0⟩, ⟨0, 0, 0, 0⟩)

/-- A track of two keyframes whose times are valid `long long` values lying
more than `2^63` microseconds apart. -/
def wide_track : Animation ℚ :=
  ⟨[⟨-9000000000000000000, ⟨1, 0, 0⟩, ⟨0, 0, 0, 1⟩⟩,
    ⟨9000000000000000000, ⟨0, 0, 0⟩, ⟨0, 0, 0, 1⟩⟩]⟩

/-- The track of `n` keyframes at the times `0, 2, 4, ...`, all with the same pose. -/
def ramp (n : Nat) : List (Keyframe ℚ) :=
  (List.range n).map (fun (i : Nat) => ⟨2 * Int.ofNat i, ⟨0, 0, 0⟩, ⟨0, 0, 0, 1⟩⟩)

/-- A scanner that knows one header line and four version-1 keyframe lines,
which it reads as `sscanf` and the conversions of lines 196-197 do. -/
def sample_scanner : Scanner ℚ where
  sscanf_d := fun format linebuf =>
    if format = "PMDSIM ANIMATION VERSION %d".toList
        ∧ linebuf = "PMDSIM ANIMATION VERSION 1\n".toList then some 1
    else none
  keyframe_v1 := fun linebuf =>
    if linebuf = "2 1 0 0 0 0 0 1\n".toList then
      some ⟨2000000, ⟨1, 0, 0⟩, ⟨0, 0, 0, 1⟩⟩
    else if linebuf = "0 0 0 0 0 0 0 1\n".toList then
      some ⟨0, ⟨0, 0, 0⟩, ⟨0, 0, 0, 1⟩⟩
    else if linebuf = "1 0 1 0 0 0 0 1\n".toList then
      some ⟨1000000, ⟨0, 1, 0⟩, ⟨0, 0, 0, 1⟩⟩
    else if linebuf = "1 5 5 5 0 0 0 1\n".toList then
      some ⟨1000000, ⟨5, 5, 5⟩, ⟨0, 0, 0, 1⟩⟩
    else none
  keyframe_v2 := fun _ => none

/-- A version-1 file with a comment, an unreadable line and two lines of
equal time. -/
def sample_file : File where
  content := ("PMDSIM ANIMATION VERSION 1\n# keyframes\n2 1 0 0 0 0 0 1\n"
    ++ "0 0 0 0 0 0 0 1\n1 0 1 0 0 0 0 1\none two\n1 5 5 5 0 0 0 1\n").toList
  error := false

/-- A file without a valid header. -/
def bad_file : File where
  content := "PMDSIM ANIMATION VERSION 3\n0 0 0 0 0 0 0 1\n".toList
  error := false

/-- A file system with two files. -/
def sample_fopen (filename : String) : Option File :=
  if filename = "animation.txt" then some sample_file
  else if filename = "bad.txt" then some bad_file
  else none

/-! ## The keyframe lines of `Animation::load` (`animation.cpp`, lines 114-163 and 186-323) -/

/-- The functions of `<cmath>` and the constant `M_PI` used by `animation.cpp`. -/
structure Libm (α : Type) where
  acos : α → α
  sin : α → α
  cos : α → α
  sqrt : α → α
  pi : α

/-- The parts of the C implementation that are parameters of the model.

* `sscanf_d format s` is `some n` when `sscanf(s, format, &n)` returns 1.
* `sscanf_f format s` lists the values that a call of `sscanf` with `%f`
  conversions converts, in the order of the conversions, so its length is the
  value that `sscanf` returns (no value when it returns `EOF`), and its
  entries are what the call stores.
* `fmul a b` is the `float` product `a * b` of lines 196 and 296, rounded as
  the `float` format has it.
* `undefined_long_long x` is what the conversion of `x` to `long long` yields
  when the truncated value is outside the range of `long long`, where C++
  leaves it undefined. -/
structure Libc (α : Type) where
  sscanf_d : List Char → List Char → Option Int
  sscanf_f : List Char → List Char → List α
  fmul : α → α → α
  undefined_long_long : α → Int

/-- The conversion of a `float` to `long long` of lines 196 and 296:
truncation toward zero when the truncated value is in the range of
`long long`; otherwise, where the conversion is undefined, the value
`libc.undefined_long_long x` reduced to 64 bits. -/
def to_long_long {α : Type} [LinearOrderedField α] [FloorRing α] (libc : Libc α) (x : α) :
    Int :=
  let truncated : Int := if 0 ≤ x then Int.floor x else Int.ceil x
  if -9223372036854775808 ≤ truncated ∧ truncated < 9223372036854775808 then truncated
  else wrap_long_long (libc.undefined_long_long x)

/-- The function `to_rad`. -/
def to_rad {α : Type} [LinearOrderedField α] (m : Libm α) (deg : α) : α :=
  m.pi / 180 * deg

/-- The function `dot`. -/
def dot {α : Type} [LinearOrderedField α] (v w : Vec3 α) : α :=
  v.c0 * w.c0 + v.c1 * w.c1 + v.c2 * w.c2

/-- The function `cross`. -/
def cross {α : Type} [LinearOrderedField α] (v w : Vec3 α) : Vec3 α :=
  ⟨v.c1 * w.c2 - v.c2 * w.c1,
   v.c2 * w.c0 - v.c0 * w.c2,
   v.c0 * w.c1 - v.c1 * w.c0⟩

/-- The function `angle_axis_to_quat`. -/
def angle_axis_to_quat {α : Type} [LinearOrderedField α] (m : Libm α) (angle : α)
    (axis : Vec3 α) : Quat α :=
  let axis_length := m.sqrt (dot axis axis)
  if |angle| ≤ epsilon ∨ axis_length ≤ epsilon then
    ⟨0, 0, 0, 1⟩
  else
    let sin_a := m.sin (angle / 2)
    ⟨axis.c0 / axis_length * sin_a,
     axis.c1 / axis_length * sin_a,
     axis.c2 / axis_length * sin_a,
     m.cos (angle / 2)⟩

/-- The function `oldnew_to_quat`. -/
def oldnew_to_quat {α : Type} [LinearOrderedField α] (m : Libm α) (o n : Vec3 α) : Quat α :=
  let angle := m.acos (dot o n / m.sqrt (dot o o * dot n n))
  let axis := cross o n
  angle_axis_to_quat m angle axis

/-- The function `quat_mult`. -/
def quat_mult {α : Type} [LinearOrderedField α] (a b : Quat α) : Quat α :=
  ⟨a.c3 * b.c0 + a.c0 * b.c3 + a.c1 * b.c2 - a.c2 * b.c1,
   a.c3 * b.c1 + a.c1 * b.c3 + a.c2 * b.c0 - a.c0 * b.c2,
   a.c3 * b.c2 + a.c2 * b.c3 + a.c0 * b.c1 - a.c1 * b.c0,
   a.c3 * b.c3 - a.c0 * b.c0 - a.c1 * b.c1 - a.c2 * b.c2⟩

/-- The statement `tokens[tokens.size() - 1].push_back(c)`. -/
def push_back_last (tokens : List (List Char)) (c : Char) : List (List Char) :=
  match tokens with
  | [] => []
  | [token] => [token ++ [c]]
  | token :: rest => token :: push_back_last rest c

/-- The loop of lines 228-246 from position `i` on, `linebuf` being the
characters from `linebuf[i]` up to the terminating zero. `skipping` holds while
the inner loop of lines 236-237 passes over the spaces and tabs that follow a
space or tab. -/
def tokenize_loop (linebuf : List Char) (tokens : List (List Char)) (in_paren : Bool)
    (skipping : Bool) : List (List Char) :=
  match linebuf with
  | [] => tokens
  | c :: rest =>
    if skipping && (c == ' ' || c == '\t') then
      tokenize_loop rest tokens in_paren true
    else if c == '(' then
      tokenize_loop rest (push_back_last tokens c) true false
    else if c == ')' then
      tokenize_loop rest (push_back_last tokens c) false false
    else if c == ' ' || c == '\t' then
      tokenize_loop rest (if !in_paren then tokens ++ [[]] else tokens) in_paren true
    else if c == '\r' || c == '\n' then
      tokens
    else
      tokenize_loop rest (push_back_last tokens c) in_paren false

/-- The block of lines 223-249: the tokens of a version-2 line. -/
def tokenize (linebuf : List Char) : List (List Char) :=
  let tokens := tokenize_loop linebuf [[]] false false
  match tokens.getLast? with
  | some [] => tokens.dropLast
  | _ => tokens

/-- The position of lines 261-273 and 297-309: the coordinates read from the
token, converted to cartesian coordinates; `none` when `valid` becomes false. -/
def scan_position {α : Type} [LinearOrderedField α] (m : Libm α) (libc : Libc α)
    (token : List Char) : Option (Vec3 α) :=
  match libc.sscanf_f "cart(%f,%f,%f)".toList token with
  | [p0, p1, p2] => some ⟨p0, p1, p2⟩
  | _ =>
    match libc.sscanf_f "cyl(%f,%f,%f)".toList token with
    | [p0, p1, p2] =>
      some ⟨p0 * m.sin (to_rad m (-p1)), p2, -p0 * m.cos (to_rad m (-p1))⟩
    | _ =>
      match libc.sscanf_f "sph(%f,%f,%f)".toList token with
      | [p0, p1, p2] =>
        some ⟨p0 * m.cos (to_rad m p2) * m.sin (to_rad m (-p1)),
              p0 * m.sin (to_rad m p2),
              -p0 * m.cos (to_rad m p2) * m.cos (to_rad m (-p1))⟩
      | _ => none

/-- The rotation mode of lines 274-282: the value of `camrel_rot`; `none` when
`valid` becomes false. -/
def scan_rotation_mode (token : List Char) : Option Bool :=
  if token = "abs_rot".toList then some false
  else if token = "camrel_rot".toList then some true
  else none

/-- The given rotation of lines 283-293 and 310-314; `none` when `valid`
becomes false. -/
def scan_rotation {α : Type} [LinearOrderedField α] (m : Libm α) (libc : Libc α)
    (token : List Char) : Option (Quat α) :=
  match libc.sscanf_f "angle_axis(%f,%f,%f,%f)".toList token with
  | [r0, r1, r2, r3] => some (angle_axis_to_quat m (to_rad m r0) ⟨r1, r2, r3⟩)
  | _ =>
    match libc.sscanf_f "oldnew(%f,%f,%f,%f,%f,%f)".toList token with
    | [r0, r1, r2, r3, r4, r5] => some (oldnew_to_quat m ⟨r0, r1, r2⟩ ⟨r3, r4, r5⟩)
    | _ => none

/-- The rotation stored in the keyframe (lines 310-323): the given rotation,
multiplied from the left by the camera-facing rotation when `camrel_rot`. -/
def stored_rotation {α : Type} [LinearOrderedField α] (m : Libm α) (camrel_rot : Bool)
    (pos : Vec3 α) (given : Quat α) : Quat α :=
  if camrel_rot then
    let o : Vec3 α := ⟨0, 0, -1⟩
    let q := oldnew_to_quat m o pos
    let oq := given
    quat_mult q oq
  else given

/-- A version-2 line that is not ignored (lines 222-323): the keyframe it
defines, or `none` when `valid` is false in line 294. -/
def load_keyframe_v2 {α : Type} [LinearOrderedField α] [FloorRing α] (m : Libm α)
    (libc : Libc α) (linebuf : List Char) : Option (Keyframe α) :=
  match tokenize linebuf with
  | [token0, token1, token2, token3] =>
    match libc.sscanf_f "%f".toList token0 with
    | [tmpt] =>
      match scan_position m libc token1 with
      | none => none
      | some pos =>
        match scan_rotation_mode token2 with
        | none => none
        | some camrel_rot =>
          match scan_rotation m libc token3 with
          | none => none
          | some given =>
            some ⟨to_long_long libc (libc.fmul tmpt 1000000), pos,
              stored_rotation m camrel_rot pos given⟩
    | _ => none
  | _ => none

/-- The quaternion `(x, y, z, w)` as an element of the quaternion algebra, with
real part `w`. -/
def to_quaternion {α : Type} [LinearOrderedField α] (q : Quat α) : Quaternion α :=
  ⟨q.c3, q.c0, q.c1, q.c2⟩

/-- The inverse `q^-1` of a quaternion: the conjugate divided by the squared norm. -/
def quat_inv {α : Type} [LinearOrderedField α] (q : Quat α) : Quat α :=
  ⟨-q.c0 / quat_norm_sq q, -q.c1 / quat_norm_sq q, -q.c2 / quat_norm_sq q,
   q.c3 / quat_norm_sq q⟩

/-- The vector `v` as a quaternion with `w = 0`. -/
def pure_quat {α : Type} [LinearOrderedField α] (v : Vec3 α) : Quat α :=
  ⟨v.c0, v.c1, v.c2, 0⟩

/-- The product `q * v * q^-1`, the vector `v` rotated by the quaternion `q`. -/
def quat_rotate {α : Type} [LinearOrderedField α] (q : Quat α) (v : Vec3 α) : Quat α :=
  quat_mult (quat_mult q (pure_quat v)) (quat_inv q)

/-- The vector `v / len`. -/
def vec_div {α : Type} [LinearOrderedField α] (v : Vec3 α) (len : α) : Vec3 α :=
  ⟨v.c0 / len, v.c1 / len, v.c2 / len⟩

/-- Rational stand-ins for the library functions, exact at the arguments `0`
and `1` that occur in the examples. -/
def sample_libm : Libm ℚ where
  acos := fun x => 1 - x
  sin := fun _ => 0
  cos := fun _ => 1
  sqrt := fun x => x
  pi := 22 / 7

/-- A `sscanf` that knows the header line of `sample_scanner`, the tokens of
some version-2 lines and one version-1 line, with an exact `float` product. -/
def sample_libc : Libc ℚ where
  fmul := fun a b => a * b
  undefined_long_long := fun _ => -9223372036854775808
  sscanf_d := sample_scanner.sscanf_d
  sscanf_f := fun format s =>
    if format = "%f".toList ∧ s = "0.0".toList then [0]
    else if format = "%f".toList ∧ s = "1.5".toList then [3 / 2]
    else if format = "cart(%f,%f,%f)".toList ∧ s = "cart(0,0,-0.2)".toList then
      [0, 0, -(1 / 5)]
    else if format = "cart(%f,%f,%f)".toList ∧ s = "cart(0,0,-1)".toList then
      [0, 0, -1]
    else if format = "angle_axis(%f,%f,%f,%f)".toList ∧ s = "angle_axis(0,0,0,1)".toList then
      [0, 0, 0, 1]
    else if format = "%f".toList ∧ s = "0.0078125".toList then [1 / 128]
    else if format = "%f %f %f %f %f %f %f %f".toList ∧ s = "2 1 0 0 0 0 0 1\n".toList then
      [2, 1, 0, 0, 0, 0, 0, 1]
    else []

/-- The class `LightSourceIntensityTable`. -/
structure LightSourceIntensityTable (α : Type) where
  filename : List Char
  width : Int
  height : Int
  start_x : α
  end_x : α
  start_y : α
  end_y : α
  table : List α
deriving DecidableEq, Repr

/-- The method `LightSourceIntensityTable::reset`. -/
def LightSourceIntensityTable.reset {α : Type} (self : LightSourceIntensityTable α) :
    LightSourceIntensityTable α :=
  { self with filename := [], width := 0, height := 0, table := [] }

/-- The constructor `LightSourceIntensityTable()`, which calls `reset()`;
`raw` stands for the members before the call, of which `start_x`, `end_x`,
`start_y` and `end_y` are left as they are. -/
def LightSourceIntensityTable.new {α : Type} (raw : LightSourceIntensityTable α) :
    LightSourceIntensityTable α :=
  raw.reset

/-- The class `Simulator`: its parameters. -/
structure Simulator (α : Type) where
  aperture_angle : α
  near_plane : α
  far_plane : α
  exposure_time_samples : Int
  rendering_method : Int
  material_model : Int
  material_lambertian_reflectivity : α
  lightsource_model : Int
  lightsource_simple_power : α
  lightsource_simple_aperture_angle : α
  lightsource_measured_intensities : LightSourceIntensityTable α
  lens_aperture_diameter : α
  lens_focal_length : α
  sensor_width : Int
  sensor_height : Int
  pixel_mask_x : α
  pixel_mask_y : α
  pixel_mask_width : α
  pixel_mask_height : α
  pixel_width : Int
  pixel_height : Int
  pixel_pitch : α
  readout_time : Int
  contrast : α
  modulation_frequency : Int
  exposure_time : Int
deriving DecidableEq, Repr

/-- The constructor `Simulator()`: the default values. -/
def Simulator.new {α : Type} [LinearOrderedField α] (raw : LightSourceIntensityTable α) :
    Simulator α where
  aperture_angle := 70
  near_plane := 5 / 100
  far_plane := 2
  exposure_time_samples := 1
  rendering_method := 0
  material_model := 0
  material_lambertian_reflectivity := 7 / 10
  lightsource_model := 0
  lightsource_simple_power := 200
  lightsource_simple_aperture_angle := 90
  lightsource_measured_intensities := LightSourceIntensityTable.new raw
  lens_aperture_diameter := 889 / 100
  lens_focal_length := 16
  sensor_width := 352
  sensor_height := 288
  pixel_mask_x := (13 / 10) / (72 / 10)
  pixel_mask_y := 0
  pixel_mask_width := (46 / 10) / (72 / 10)
  pixel_mask_height := 1 / 2
  pixel_width := 7
  pixel_height := 7
  pixel_pitch := 12
  readout_time := 1 * 1000
  contrast := 75 / 100
  modulation_frequency := 10 * 1000 * 1000
  exposure_time := 1 * 1000

/-- The `float` members of `Simulator` that `Simulator::load` reads with `%f`. -/
inductive FloatKey where
  | aperture_angle
  | near_plane
  | far_plane
  | material_lambertian_reflectivity
  | lightsource_simple_power
  | lightsource_simple_aperture_angle
  | lens_aperture_diameter
  | lens_focal_length
  | pixel_mask_x
  | pixel_mask_y
  | pixel_mask_width
  | pixel_mask_height
  | pixel_pitch
  | contrast
deriving DecidableEq, Repr

/-- The `int` members of `Simulator` that `Simulator::load` reads with `%d`. -/
inductive IntKey where
  | exposure_time_samples
  | rendering_method
  | material_model
  | lightsource_model
  | sensor_width
  | sensor_height
  | pixel_width
  | pixel_height
  | readout_time
  | modulation_frequency
  | exposure_time
deriving DecidableEq, Repr

/-- The member `&newsim.<key>` read. -/
def Simulator.get_float {α : Type} (self : Simulator α) (key : FloatKey) : α :=
  match key with
  | .aperture_angle => self.aperture_angle
  | .near_plane => self.near_plane
  | .far_plane => self.far_plane
  | .material_lambertian_reflectivity => self.material_lambertian_reflectivity
  | .lightsource_simple_power => self.lightsource_simple_power
  | .lightsource_simple_aperture_angle => self.lightsource_simple_aperture_angle
  | .lens_aperture_diameter => self.lens_aperture_diameter
  | .lens_focal_length => self.lens_focal_length
  | .pixel_mask_x => self.pixel_mask_x
  | .pixel_mask_y => self.pixel_mask_y
  | .pixel_mask_width => self.pixel_mask_width
  | .pixel_mask_height => self.pixel_mask_height
  | .pixel_pitch => self.pixel_pitch
  | .contrast => self.contrast

/-- The member `&newsim.<key>` written by a `%f` conversion. -/
def Simulator.set_float {α : Type} (self : Simulator α) (key : FloatKey) (v : α) :
    Simulator α :=
  match key with
  | .aperture_angle => { self with aperture_angle := v }
  | .near_plane => { self with near_plane := v }
  | .far_plane => { self with far_plane := v }
  | .material_lambertian_reflectivity => { self with material_lambertian_reflectivity := v }
  | .lightsource_simple_power => { self with lightsource_simple_power := v }
  | .lightsource_simple_aperture_angle => { self with lightsource_simple_aperture_angle := v }
  | .lens_aperture_diameter => { self with lens_aperture_diameter := v }
  | .lens_focal_length => { self with lens_focal_length := v }
  | .pixel_mask_x => { self with pixel_mask_x := v }
  | .pixel_mask_y => { self with pixel_mask_y := v }
  | .pixel_mask_width => { self with pixel_mask_width := v }
  | .pixel_mask_height => { self with pixel_mask_height := v }
  | .pixel_pitch => { self with pixel_pitch := v }
  | .contrast => { self with contrast := v }

/-- The member `&newsim.<key>` read. -/
def Simulator.get_int {α : Type} (self : Simulator α) (key : IntKey) : Int :=
  match key with
  | .exposure_time_samples => self.exposure_time_samples
  | .rendering_method => self.rendering_method
  | .material_model => self.material_model
  | .lightsource_model => self.lightsource_model
  | .sensor_width => self.sensor_width
  | .sensor_height => self.sensor_height
  | .pixel_width => self.pixel_width
  | .pixel_height => self.pixel_height
  | .readout_time => self.readout_time
  | .modulation_frequency => self.modulation_frequency
  | .exposure_time => self.exposure_time

/-- The member `&newsim.<key>` written by a `%d` conversion. -/
def Simulator.set_int {α : Type} (self : Simulator α) (key : IntKey) (v : Int) :
    Simulator α :=
  match key with
  | .exposure_time_samples => { self with exposure_time_samples := v }
  | .rendering_method => { self with rendering_method := v }
  | .material_model => { self with material_model := v }
  | .lightsource_model => { self with lightsource_model := v }
  | .sensor_width => { self with sensor_width := v }
  | .sensor_height => { self with sensor_height := v }
  | .pixel_width => { self with pixel_width := v }
  | .pixel_height => { self with pixel_height := v }
  | .readout_time => { self with readout_time := v }
  | .modulation_frequency => { self with modulation_frequency := v }
  | .exposure_time => { self with exposure_time := v }

/-- What one body line of a simulator file does (lines 185-250). -/
inductive LineEffect (α : Type) where
  /-- The line is empty or a comment, or no branch reads it. -/
  | nothing
  /-- A `sscanf` with `%f` returned 1 and stored `v` in the member `key`. -/
  | float (key : FloatKey) (v : α)
  /-- A `sscanf` with `%d` returned 1 and stored `v` in the member `key`. -/
  | int (key : IntKey) (v : Int)
  /-- The branch of lines 209-218 is taken, with the characters between the
  first and the last quote. -/
  | table (name : List Char)
deriving DecidableEq, Repr

/-- A branch `else if (sscanf(linebuf, format, &newsim.key) == 1)` with `%f`. -/
def branch_float {α : Type} (libc : Libc α) (linebuf : List Char) (format : String)
    (key : FloatKey) (otherwise : LineEffect α) : LineEffect α :=
  match libc.sscanf_f format.toList linebuf with
  | [v] => .float key v
  | _ => otherwise

/-- A branch `else if (sscanf(linebuf, format, &newsim.key) == 1)` with `%d`. -/
def branch_int {α : Type} (libc : Libc α) (linebuf : List Char) (format : String)
    (key : IntKey) (otherwise : LineEffect α) : LineEffect α :=
  match libc.sscanf_d format.toList linebuf with
  | some v => .int key v
  | none => otherwise

/-- The call `strchr(s, c)`: the index of the first `c` in `s`. -/
def strchr (s : List Char) (c : Char) : Option Nat :=
  if c ∈ s then some (s.indexOf c) else none

/-- The call `strrchr(s, c)`: the index of the last `c` in `s`. -/
def strrchr (s : List Char) (c : Char) : Option Nat :=
  if c ∈ s then some (s.length - 1 - s.reverse.indexOf c) else none

/-- The branch of lines 209-212: the characters between the two quotes when
the condition holds. -/
def branch_table {α : Type} (linebuf : List Char) (otherwise : LineEffect α) :
    LineEffect α :=
  if linebuf.take 30 = "lightsource_measured_intensities".toList.take 30 then
    match strchr (linebuf.drop 30) '\'', strrchr (linebuf.drop 30) '\'' with
    | some p, some q =>
      if q > p then .table (((linebuf.drop 30).drop (p + 1)).take (q - p - 1))
      else otherwise
    | _, _ => otherwise
  else otherwise

/-- The chain of branches of lines 185-250 on one line. -/
def scan_line {α : Type} (libc : Libc α) (linebuf : List Char) : LineEffect α :=
  if is_ignored linebuf then .nothing
  else
    branch_float libc linebuf "aperture_angle %f" .aperture_angle <|
    branch_float libc linebuf "near_plane %f" .near_plane <|
    branch_float libc linebuf "far_plane %f" .far_plane <|
    branch_int libc linebuf "exposure_time_samples %d" .exposure_time_samples <|
    branch_int libc linebuf "rendering_method %d" .rendering_method <|
    branch_int libc linebuf "material_model %d" .material_model <|
    branch_float libc linebuf "material_lambertian_reflectivity %f"
      .material_lambertian_reflectivity <|
    branch_int libc linebuf "lightsource_model %d" .lightsource_model <|
    branch_float libc linebuf "lightsource_simple_power %f" .lightsource_simple_power <|
    branch_float libc linebuf "lightsource_power %f" .lightsource_simple_power <|
    branch_float libc linebuf "lightsource_simple_aperture_angle %f"
      .lightsource_simple_aperture_angle <|
    branch_table linebuf <|
    branch_float libc linebuf "lens_aperture_diameter %f" .lens_aperture_diameter <|
    branch_float libc linebuf "lens_focal_length %f" .lens_focal_length <|
    branch_int libc linebuf "sensor_width %d" .sensor_width <|
    branch_int libc linebuf "sensor_height %d" .sensor_height <|
    branch_float libc linebuf "pixel_mask_x %f" .pixel_mask_x <|
    branch_float libc linebuf "pixel_mask_y %f" .pixel_mask_y <|
    branch_float libc linebuf "pixel_mask_width %f" .pixel_mask_width <|
    branch_float libc linebuf "pixel_mask_height %f" .pixel_mask_height <|
    branch_int libc linebuf "pixel_width %d" .pixel_width <|
    branch_int libc linebuf "pixel_height %d" .pixel_height <|
    branch_float libc linebuf "pixel_pitch %f" .pixel_pitch <|
    branch_int libc linebuf "readout_time %d" .readout_time <|
    branch_float libc linebuf "contrast %f" .contrast <|
    branch_int libc linebuf "modulation_frequency %d" .modulation_frequency <|
    branch_int libc linebuf "exposure_time %d" .exposure_time <|
    .nothing

/-- The exceptions thrown by `Simulator::load`. -/
inductive SimulatorError where
  /-- The `std::system_error` "Cannot open". -/
  | cannot_open
  /-- The `std::runtime_error` "not a valid simulator description". -/
  | not_valid
  /-- The exception of `LightSourceIntensityTable::load`. -/
  | table
  /-- The `std::system_error` "Cannot read". -/
  | cannot_read
deriving DecidableEq, Repr

/-- One iteration of the loop of lines 182-251 on `newsim`; `load_table name`
is the table that `LightSourceIntensityTable::load(name)` leaves, or `none`
when it throws. -/
def simulator_line {α : Type} (libc : Libc α)
    (load_table : List Char → Option (LightSourceIntensityTable α))
    (newsim : Simulator α) (linebuf : List Char) : Except SimulatorError (Simulator α) :=
  match scan_line libc linebuf with
  | .nothing => .ok newsim
  | .float key v => .ok (newsim.set_float key v)
  | .int key v => .ok (newsim.set_int key v)
  | .table name =>
    if name.length > 0 then
      match load_table name with
      | some table => .ok { newsim with lightsource_measured_intensities := table }
      | none => .error .table
    else .ok newsim

/-- The loop of lines 182-251 over the body lines. -/
def simulator_body {α : Type} (libc : Libc α)
    (load_table : List Char → Option (LightSourceIntensityTable α))
    (newsim : Simulator α) (lines : List (List Char)) : Except SimulatorError (Simulator α) :=
  match lines with
  | [] => .ok newsim
  | linebuf :: rest =>
    match simulator_line libc load_table newsim linebuf with
    | .error e => .error e
    | .ok newsim1 => simulator_body libc load_table newsim1 rest

/-- The header test of lines 175-181. -/
def simulator_header (sscanf_d : List Char → List Char → Option Int)
    (lines : List (List Char)) : Option Int :=
  match lines with
  | [] => none
  | linebuf :: _ =>
    let scanned :=
      match sscanf_d "PMDSIM SIMULATOR VERSION %d".toList linebuf with
      | some n => some n
      | none => sscanf_d "PMDSIMTAP SIMULATOR VERSION %d".toList linebuf
    match scanned with
    | none => none
    | some fileformat_version =>
      if fileformat_version ≠ 1 then none
      else some fileformat_version

/-- The method `Simulator::load(filename)`: the thrown exception, if any, and
the state of `*this` after the call. `raw` stands for the members of the
local `newsim` before its constructor runs. -/
def Simulator.load {α : Type} [LinearOrderedField α] (libc : Libc α)
    (load_table : List Char → Option (LightSourceIntensityTable α))
    (fopen : String → Option File) (raw : LightSourceIntensityTable α)
    (self : Simulator α) (filename : String) : Except SimulatorError Unit × Simulator α :=
  let newsim : Simulator α := Simulator.new raw
  match fopen filename with
  | none => (.error .cannot_open, self)
  | some f =>
    match simulator_header libc.sscanf_d f.lines with
    | none => (.error .not_valid, self)
    | some _ =>
      match simulator_body libc load_table newsim f.lines.tail with
      | .error e => (.error e, self)
      | .ok newsim1 =>
        if f.error then (.error .cannot_read, self)
        else (.ok (), newsim1)

/-- The method `OddSpinBox::validate` (`mainwindow.cpp`); `input` is the
result of `input.toInt(&number_valid)`, `none` when the text is no number.
The result is `true` for `QValidator::Acceptable`. -/
def OddSpinBox.validate (minimum maximum : Int) (input : Option Int) : Bool :=
  match input with
  | some number => decide (number ≥ minimum ∧ number ≤ maximum ∧ Int.tmod number 2 = 1)
  | none => false

/-- The last value that the lines store in the `float` member `key`. -/
def last_float {α : Type} (libc : Libc α) (key : FloatKey) (lines : List (List Char)) :
    Option α :=
  lines.reverse.findSome? (fun linebuf =>
    match scan_line libc linebuf with
    | .float key1 v => if key1 = key then some v else none
    | _ => none)

/-- The last value that the lines store in the `int` member `key`. -/
def last_int {α : Type} (libc : Libc α) (key : IntKey) (lines : List (List Char)) :
    Option Int :=
  lines.reverse.findSome? (fun linebuf =>
    match (scan_line libc linebuf : LineEffect α) with
    | .int key1 v => if key1 = key then some v else none
    | _ => none)

/-- A `sscanf` that knows the header line of a simulator file and three
parameter lines. -/
def sample_sim_libc : Libc ℚ where
  fmul := fun a b => a * b
  undefined_long_long := fun _ => -9223372036854775808
  sscanf_d := fun format s =>
    if format = "PMDSIM SIMULATOR VERSION %d".toList
        ∧ s = "PMDSIM SIMULATOR VERSION 1\n".toList then some 1
    else if format = "pixel_width %d".toList ∧ s = "pixel_width 4\n".toList then some 4
    else if format = "exposure_time %d".toList ∧ s = "exposure_time 2000\n".toList then
      some 2000
    else none
  sscanf_f := fun format s =>
    if format = "contrast %f".toList ∧ s = "contrast 0.5\n".toList then [1 / 2]
    else []

/-- A simulator file that sets an even pixel width. -/
def even_sim_file : File where
  content := ("PMDSIM SIMULATOR VERSION 1\n# sensor\npixel_width 4\ncontrast 0.5\n"
    ++ "colour 3\nexposure_time 2000\n").toList
  error := false

/-- A simulator file that names an intensity table. -/
def table_sim_file : File where
  content := ("PMDSIM SIMULATOR VERSION 1\npixel_width 4\n"
    ++ "lightsource_measured_intensities 'table.gta'\n").toList
  error := false

/-- A file system with two simulator files. -/
def sim_fopen (filename : String) : Option File :=
  if filename = "simulator.txt" then some even_sim_file
  else if filename = "table.txt" then some table_sim_file
  else none

/-- A table, standing for the members of a simulator's table. -/
def sample_table : LightSourceIntensityTable ℚ :=
  ⟨[], 0, 0, 0, 0, 0, 0, []⟩

/-! ## The pixel map and the phase images (`simwidget.cpp`) -/

/-- The body of the loops of lines 266-277 of `SimWidget::render_map` for the
subpixel `(x, y)`: the value stored in `pixel_map[y * _pixel_map_w + x]`. The
factor `_pixel_map_w * _pixel_map_h` is an `int` product. -/
def pixel_map_entry {α : Type} [LinearOrderedField α] (pixel_map_w pixel_map_h : Int)
    (pixel_mask_x pixel_mask_y pixel_mask_w pixel_mask_h : α) (x y : Int) : α :=
  let subpixel_w : α := 1 / (pixel_map_w : α)
  let subpixel_h : α := 1 / (pixel_map_h : α)
  let subpixel_x : α := (x : α) * subpixel_w
  let subpixel_y : α := (y : α) * subpixel_h
  let sx := max subpixel_x pixel_mask_x
  let sy := max subpixel_y pixel_mask_y
  let sw := min (subpixel_x + subpixel_w) (pixel_mask_x + pixel_mask_w) - sx
  let sh := min (subpixel_y + subpixel_h) (pixel_mask_y + pixel_mask_h) - sy
  let subarea : α := if sw > 0 ∧ sh > 0 then sw * sh else 0
  subarea * ((wrap_int (pixel_map_w * pixel_map_h) : Int) : α)

/-- The array `pixel_map` after the loops of lines 266-277: the entries for
`y = 0 .. _pixel_map_h - 1` and, within each `y`, `x = 0 .. _pixel_map_w - 1`,
in the order in which the loops store them. -/
def pixel_map {α : Type} [LinearOrderedField α] (pixel_map_w pixel_map_h : Int)
    (pixel_mask_x pixel_mask_y pixel_mask_w pixel_mask_h : α) : List α :=
  (List.range pixel_map_h.toNat).flatMap (fun y =>
    (List.range pixel_map_w.toNat).map (fun x =>
      pixel_map_entry pixel_map_w pixel_map_h pixel_mask_x pixel_mask_y pixel_mask_w
        pixel_mask_h (Int.ofNat x) (Int.ofNat y)))

/-- Following the spec's words: the area of the overlap of the rectangle
`[x0, x1] × [y0, y1]` with the rectangle `[u0, u1] × [v0, v1]`. -/
def overlap_area {α : Type} [LinearOrderedField α] (x0 y0 x1 y1 u0 v0 u1 v1 : α) : α :=
  max 0 (min x1 u1 - max x0 u0) * max 0 (min y1 v1 - max y0 v0)

/-- Following the spec's words: the overlap area of the cell of the subpixel
`(x, y)` with the mask rectangle, divided by the area of the cell. -/
def normalized_overlap {α : Type} [LinearOrderedField α] (pixel_width pixel_height : Int)
    (mask_x mask_y mask_w mask_h : α) (x y : Int) : α :=
  overlap_area ((x : α) / pixel_width) ((y : α) / pixel_height)
      (((x : α) + 1) / pixel_width) (((y : α) + 1) / pixel_height)
      mask_x mask_y (mask_x + mask_w) (mask_y + mask_h)
    / ((1 / (pixel_width : α)) * (1 / (pixel_height : α)))

/-- How a call of a `SimWidget` method ends early. -/
inductive SimWidgetFault where
  /-- An `assert` fails. -/
  | assertion
  /-- An array is indexed at `i`, outside its bounds. -/
  | index (i : Int)
deriving DecidableEq, Repr

/-- The members of `SimWidget` that `simulate_phase_img` uses. A texture is
represented by its content, of type `T`. -/
structure SimWidget (T : Type) where
  /-- The member `_simulator.sensor_width`. -/
  sensor_width : Int
  /-- The member `_simulator.sensor_height`. -/
  sensor_height : Int
  /-- The content of the texture `_map_tex`. -/
  map_tex : T
  phase_w : Int
  phase_h : Int
  /-- The content of the texture `_phase_texs[i][j]`. -/
  phase_texs : Int → Int → T
  phase_texs_index : Int → Int

/-- The constructor `SimWidget()`, for a simulator with the given sensor
size; `blank` is the content of a texture that was not rendered to. -/
def SimWidget.new {T : Type} (blank : T) (sensor_width sensor_height : Int) : SimWidget T where
  sensor_width := sensor_width
  sensor_height := sensor_height
  map_tex := blank
  phase_w := 0
  phase_h := 0
  phase_texs := fun _ _ => blank
  phase_texs_index := fun _ => -1

/-- The local `pp_prv` of `simulate_phase_img` (line 343). -/
def pp_prv {T : Type} (self : SimWidget T) (phase_index exposure_time_sample_index : Int) :
    Int :=
  if exposure_time_sample_index = 0 then 1 else self.phase_texs_index phase_index

/-- The local `pp_cur` of `simulate_phase_img` (line 344). -/
def pp_cur (pp_prv : Int) : Int :=
  if pp_prv = 1 then 0 else 1

/-- The value given to the uniform `have_phase_tex_0` (lines 355-356). -/
def have_phase_tex_0 (exposure_time_sample_index : Int) : Int :=
  if exposure_time_sample_index = 0 then 0 else 1

/-- Modelled from the spec: the fragment shader `simphaseadd.fs.glsl`, which
the sources include but do not contain. With `have_phase_tex_0` unset the
output is the map in `phase_tex_1`, a fresh accumulation; with it set the
output adds the prior sum in `phase_tex_0`. -/
def phase_add {T : Type} [Add T] (have_phase_tex_0 : Int) (phase_tex_0 phase_tex_1 : T) : T :=
  if have_phase_tex_0 = 0 then phase_tex_1 else phase_tex_0 + phase_tex_1

/-- The method `SimWidget::simulate_phase_img` (lines 317-361). The textures
created in lines 327-334 have the content `blank`. -/
def simulate_phase_img {T : Type} [Add T] (blank : T) (self : SimWidget T)
    (phase_index exposure_time_sample_index : Int) : Except SimWidgetFault (SimWidget T) :=
  if ¬ (phase_index ≥ 0 ∧ phase_index < 4) then .error .assertion
  else if ¬ (exposure_time_sample_index ≥ 0) then .error .assertion
  else
    let self1 : SimWidget T :=
      if self.phase_w ≠ self.sensor_width ∨ self.phase_h ≠ self.sensor_height then
        { self with
          phase_w := self.sensor_width
          phase_h := self.sensor_height
          phase_texs := fun _ _ => blank }
      else self
    let prv := pp_prv self1 phase_index exposure_time_sample_index
    let cur := pp_cur prv
    if ¬ (0 ≤ prv ∧ prv < 2) then .error (.index prv)
    else
      let rendered := phase_add (have_phase_tex_0 exposure_time_sample_index)
        (self1.phase_texs phase_index prv) self1.map_tex
      .ok { self1 with
        phase_texs := fun i j =>
          if i = phase_index ∧ j = cur then rendered else self1.phase_texs i j
        phase_texs_index := fun i =>
          if i = phase_index then cur else self1.phase_texs_index i }

/-- The inner loop of `MainWindow` (`mainwindow.cpp`, lines 406-423) for the
phase `i`, from the sample `j` on: each iteration renders a reduced map into
`_map_tex` with `render_map` and calls `simulate_phase_img(i, j)`; `maps` are
the reduced maps of the iterations. -/
def simulate_phase {T : Type} [Add T] (blank : T) (self : SimWidget T) (i : Int)
    (maps : List T) (j : Int) : Except SimWidgetFault (SimWidget T) :=
  match maps with
  | [] => .ok self
  | map :: rest =>
    match simulate_phase_img blank { self with map_tex := map } i j with
    | .error e => .error e
    | .ok self1 => simulate_phase blank self1 i rest (j + 1)

/-- The method `SimWidget::get_phase`, as the content of the texture. The
second assertion reads `_phase_texs_index[index]`, an array of four. -/
def get_phase {T : Type} (self : SimWidget T) (index : Int) : Except SimWidgetFault T :=
  if ¬ (index ≥ 0 ∧ index ≤ 4) then .error .assertion
  else if ¬ (index < 4) then .error (.index index)
  else if ¬ (self.phase_texs_index index ≥ 0 ∧ self.phase_texs_index index ≤ 1) then
    .error .assertion
  else .ok (self.phase_texs index (self.phase_texs_index index))

/-! ## The frame step (`mainwindow.cpp`) -/

/-- The type `AnimWidget::state_t`. -/
inductive state_t where
  | state_disabled
  | state_stopped
  | state_active
  | state_paused
deriving DecidableEq, Repr

/-- The method `Animation::is_valid`. -/
def Animation.is_valid {α : Type} (self : Animation α) : Bool :=
  decide (self.keyframes.length > 0)

/-- The method `Animation::start_time`: the time of `keyframes.front()`;
`none` when the assertion `is_valid()` fails. -/
def Animation.start_time {α : Type} (self : Animation α) : Option Int :=
  match self.keyframes.head? with
  | some keyframe => some keyframe.t
  | none => none

/-- The method `Animation::end_time`: the time of `keyframes.back()`; `none`
when the assertion `is_valid()` fails. -/
def Animation.end_time {α : Type} (self : Animation α) : Option Int :=
  match self.keyframes.getLast? with
  | some keyframe => some keyframe.t
  | none => none

/-- The members of `MainWindow` that hold the frame time. -/
structure MainWindow where
  last_anim_time : Int
  anim_time_requested : Bool
  anim_time_request : Int
deriving DecidableEq, Repr

/-- The local `total_frame_duration` of `simulation_step` (line 381): an
`int` expression, converted to `long long`. -/
def total_frame_duration (exposure_time readout_time : Int) : Int :=
  wrap_int (4 * wrap_int (exposure_time + readout_time))

/-- The quotient `a / b` of two `long long` values; `none` for a zero divisor. -/
def div_long_long (a b : Int) : Option Int :=
  if b = 0 then none else some (wrap_long_long (Int.tdiv a b))

/-- The expression `((t - start_time) / total_frame_duration) *
total_frame_duration + start_time` of lines 383-384 and 395-396. -/
def align_to_frame (t start_time total_frame_duration : Int) : Option Int :=
  match div_long_long (wrap_long_long (t - start_time)) total_frame_duration with
  | none => none
  | some quotient =>
    some (wrap_long_long (wrap_long_long (quotient * total_frame_duration) + start_time))

/-- Lines 375-402 of `MainWindow::simulation_step`: the frame time `anim_time`
and the members after the step; `loop` is `_anim_widget->loop()`. The result
is `none` when an assertion fails or a divisor is zero. -/
def simulation_step_time {α : Type} (animation : Animation α)
    (exposure_time readout_time : Int) (anim_state : state_t) (loop : Bool)
    (self : MainWindow) : Option (Int × MainWindow) :=
  match anim_state with
  | .state_stopped =>
    match animation.start_time with
    | none => none
    | some start_time => some (start_time, self)
  | .state_disabled => some (0, self)
  | _ =>
    let duration := total_frame_duration exposure_time readout_time
    let first : Option (Int × MainWindow) :=
      if self.anim_time_requested then
        match animation.start_time with
        | none => none
        | some start_time =>
          match align_to_frame self.anim_time_request start_time duration with
          | none => none
          | some anim_time => some (anim_time, { self with anim_time_requested := false })
      else if anim_state ≠ .state_paused then
        some (wrap_long_long (self.last_anim_time + duration), self)
      else
        some (self.last_anim_time, self)
    match first with
    | none => none
    | some (anim_time, self1) =>
      match animation.end_time with
      | none => none
      | some end_time =>
        if anim_time > end_time then
          match animation.start_time with
          | none => none
          | some start_time =>
            if loop then some (start_time, { self1 with last_anim_time := start_time })
            else
              match align_to_frame end_time start_time duration with
              | none => none
              | some anim_time1 => some (anim_time1, { self1 with last_anim_time := anim_time1 })
        else some (anim_time, { self1 with last_anim_time := anim_time })

/-- The local `phase_start_time` (line 405); the product is an `int`
expression. -/
def phase_start_time (anim_time i exposure_time readout_time : Int) : Int :=
  wrap_long_long (anim_time + wrap_int (i * wrap_int (exposure_time + readout_time)))

/-- The local `phase_step_time` (line 407): `j * exposure_time /
exposure_time_samples` is the `int` quotient of the `int` product. The loop
runs it for `0 <= j < exposure_time_samples` only. -/
def phase_step_time (phase_start_time j exposure_time exposure_time_samples : Int) : Int :=
  wrap_long_long (phase_start_time + Int.tdiv (wrap_int (j * exposure_time)) exposure_time_samples)

/-- The times `phase_step_time` of the two loops of lines 404-437, for
`i = 0 .. 3` and, within each `i`, `j = 0 .. exposure_time_samples - 1`. -/
def phase_step_times (anim_time exposure_time readout_time exposure_time_samples : Int) :
    List (List Int) :=
  (List.range 4).map (fun i =>
    (List.range exposure_time_samples.toNat).map (fun j =>
      phase_step_time (phase_start_time anim_time (Int.ofNat i) exposure_time readout_time)
        (Int.ofNat j) exposure_time exposure_time_samples))

/-- The value `_simulator.exposure_time / _simulator.exposure_time_samples`
that `render_oversampled_map` gives to the uniform `exposure_time`
(`simwidget.cpp`, lines 165-166), before its conversion to `float`. -/
def exposure_time_uniform (exposure_time exposure_time_samples : Int) : Int :=
  Int.tdiv exposure_time exposure_time_samples

/-- The local `max_energy` of `simulation_step` (line 371). -/
def max_energy {α : Type} [LinearOrderedField α] (lightsource_simple_power : α) : α :=
  lightsource_simple_power * 10000

/-- The local `max_pmd_amp` of `simulation_step` (line 372); `M_PI` and
`M_SQRT1_2` are the constants of `math.h`. -/
def max_pmd_amp {α : Type} [LinearOrderedField α] (M_PI M_SQRT1_2 : α)
    (lightsource_simple_power : α) : α :=
  max_energy lightsource_simple_power * M_PI / M_SQRT1_2

/-- The local `max_pmd_intensity` of `simulation_step` (line 373). -/
def max_pmd_intensity {α : Type} [LinearOrderedField α] (lightsource_simple_power : α) : α :=
  2 * max_energy lightsource_simple_power

/-! ## The cache of the pixel map (`simwidget.cpp`) -/

/-- The members of `SimWidget` that hold the pixel map and its key; the
texture `_pixel_map_tex` is represented by its content. -/
structure PixelMapCache (α : Type) where
  pixel_mask_x : α
  pixel_mask_y : α
  pixel_mask_w : α
  pixel_mask_h : α
  pixel_map_w : Int
  pixel_map_h : Int
  pixel_map_tex : List α
deriving DecidableEq, Repr

/-- The constructor `SimWidget()` on these members: it leaves the four mask
members unset, for which `raw` stands. -/
def PixelMapCache.new {α : Type} (raw : PixelMapCache α) : PixelMapCache α :=
  { raw with pixel_map_w := 0, pixel_map_h := 0, pixel_map_tex := [] }

/-- Lines 247-283 of `SimWidget::render_map`: whether the pixel map is
created again, and the members after the call. -/
def render_map_pixel_map {α : Type} [LinearOrderedField α] (self : PixelMapCache α)
    (simulator : Simulator α) : Bool × PixelMapCache α :=
  if self.pixel_map_w ≠ simulator.pixel_width ∨ self.pixel_map_h ≠ simulator.pixel_height
      ∨ self.pixel_mask_x < simulator.pixel_mask_x ∨ self.pixel_mask_x > simulator.pixel_mask_x
      ∨ self.pixel_mask_y < simulator.pixel_mask_y ∨ self.pixel_mask_y > simulator.pixel_mask_y
      ∨ self.pixel_mask_w < simulator.pixel_mask_width
      ∨ self.pixel_mask_w > simulator.pixel_mask_width
      ∨ self.pixel_mask_h < simulator.pixel_mask_height
      ∨ self.pixel_mask_h > simulator.pixel_mask_height then
    (true,
      { pixel_map_w := simulator.pixel_width
        pixel_map_h := simulator.pixel_height
        pixel_mask_x := simulator.pixel_mask_x
        pixel_mask_y := simulator.pixel_mask_y
        pixel_mask_w := simulator.pixel_mask_width
        pixel_mask_h := simulator.pixel_mask_height
        pixel_map_tex := pixel_map simulator.pixel_width simulator.pixel_height
          simulator.pixel_mask_x simulator.pixel_mask_y simulator.pixel_mask_width
          simulator.pixel_mask_height })
  else (false, self)

/-- The key under which the pixel map is cached. -/
def PixelMapCache.key {α : Type} (self : PixelMapCache α) : Int × Int × α × α × α × α :=
  (self.pixel_map_w, self.pixel_map_h, self.pixel_mask_x, self.pixel_mask_y,
    self.pixel_mask_w, self.pixel_mask_h)

/-- The parameters of a simulator that the pixel map depends on. -/
def Simulator.pixel_map_key {α : Type} (self : Simulator α) : Int × Int × α × α × α × α :=
  (self.pixel_width, self.pixel_height, self.pixel_mask_x, self.pixel_mask_y,
    self.pixel_mask_width, self.pixel_mask_height)

/-! ## The result step (`simwidget.cpp`) -/

/-- The constant `Simulator::c`, the speed of light in m/s. -/
def Simulator.c : Int := 299792458

/-- The value that `simulate_result` gives to the uniform `frac_c_modfreq`
(lines 398-399). -/
def frac_c_modfreq {α : Type} [LinearOrderedField α] (modulation_frequency : Int) : α :=
  (Simulator.c : α) / (modulation_frequency : α)

/-- Modelled from the spec: the fragment shader `simresult.fs.glsl`, which the
sources include but do not contain, on one pixel. `I = P0 - P2`,
`Q = P1 - P3`, `phase = atan2(Q, I)` mapped into `[0, 2 pi)`,
`depth = phase / (2 pi) * c / (2 f_mod)`, and
`amplitude = sqrt(I^2 + Q^2) * (pi / sqrt 2)`. The result is the pair of depth
and amplitude; the intensity, whose scale the spec leaves open, is left out. -/
def demodulate {α : Type} [LinearOrderedField α] (atan2 : α → α → α) (sqrt : α → α) (pi : α)
    (frac_c_modfreq : α) (P0 P1 P2 P3 : α) : α × α :=
  let I := P0 - P2
  let Q := P1 - P3
  let angle := atan2 Q I
  let phase := if angle < 0 then angle + 2 * pi else angle
  (phase / (2 * pi) * (frac_c_modfreq / 2), sqrt (I ^ 2 + Q ^ 2) * (pi / sqrt 2))

/-- The method `SimWidget::simulate_result` on one pixel of the four phase
images that `get_phase(0..3)` selects. -/
def simulate_result {α : Type} [LinearOrderedField α] (atan2 : α → α → α) (sqrt : α → α)
    (pi : α) (modulation_frequency : Int) (P0 P1 P2 P3 : α) : α × α :=
  demodulate atan2 sqrt pi (frac_c_modfreq modulation_frequency) P0 P1 P2 P3

/-- Following the spec's words: the forward model of a phase image,
`P_i = amplitude0 * cos(2 pi f_mod 2 depth0 / c - i pi / 2) + offset`. -/
def forward_phase {α : Type} [LinearOrderedField α] (cos : α → α) (pi : α)
    (modulation_frequency : Int) (depth0 amplitude0 offset : α) (i : Int) : α :=
  amplitude0 * cos (2 * pi * (modulation_frequency : α) * 2 * depth0 / (Simulator.c : α)
    - (i : α) * pi / 2) + offset

/-! ## Fields of a version-2 line -/

/-- A track of two keyframes, at 0 and at 10000 seconds. -/
def long_track : Animation ℚ :=
  ⟨[⟨0, ⟨0, 0, 0⟩, ⟨0, 0, 0, 1⟩⟩, ⟨10000000000, ⟨1, 0, 0⟩, ⟨0, 0, 0, 1⟩⟩]⟩

/-- A track of two keyframes, at 0 and at the largest `long long` time. -/
def edge_track : Animation ℚ :=
  ⟨[⟨0, ⟨0, 0, 0⟩, ⟨0, 0, 0, 1⟩⟩, ⟨9223372036854775807, ⟨1, 0, 0⟩, ⟨0, 0, 0, 1⟩⟩]⟩

/-! ## The lines of a text file -/

/-- Following the spec's words: the lines of a text. A line ends after its
newline; the characters after the last newline, if there are any, are a last
line without a newline. -/
def text_lines (content : List Char) : List (List Char) :=
  match content with
  | [] => []
  | c :: rest =>
    if c = '\n' then [c] :: text_lines rest
    else
      match text_lines rest with
      | [] => [[c]]
      | line :: lines => (c :: line) :: lines

/-- Following the spec's words: a key of a simulator file: the format of its
line and the parameter it gives, or the key of the measured-intensity
table. -/
inductive Branch where
  | float (format : String) (key : FloatKey)
  | int (format : String) (key : IntKey)
  | table
deriving DecidableEq, Repr

/-- Following the spec's words: the keys of a version-1 simulator file. -/
def branches : List Branch :=
  [.float "aperture_angle %f" .aperture_angle,
   .float "near_plane %f" .near_plane,
   .float "far_plane %f" .far_plane,
   .int "exposure_time_samples %d" .exposure_time_samples,
   .int "rendering_method %d" .rendering_method,
   .int "material_model %d" .material_model,
   .float "material_lambertian_reflectivity %f" .material_lambertian_reflectivity,
   .int "lightsource_model %d" .lightsource_model,
   .float "lightsource_simple_power %f" .lightsource_simple_power,
   .float "lightsource_power %f" .lightsource_simple_power,
   .float "lightsource_simple_aperture_angle %f" .lightsource_simple_aperture_angle,
   .table,
   .float "lens_aperture_diameter %f" .lens_aperture_diameter,
   .float "lens_focal_length %f" .lens_focal_length,
   .int "sensor_width %d" .sensor_width,
   .int "sensor_height %d" .sensor_height,
   .float "pixel_mask_x %f" .pixel_mask_x,
   .float "pixel_mask_y %f" .pixel_mask_y,
   .float "pixel_mask_width %f" .pixel_mask_width,
   .float "pixel_mask_height %f" .pixel_mask_height,
   .int "pixel_width %d" .pixel_width,
   .int "pixel_height %d" .pixel_height,
   .float "pixel_pitch %f" .pixel_pitch,
   .int "readout_time %d" .readout_time,
   .float "contrast %f" .contrast,
   .int "modulation_frequency %d" .modulation_frequency,
   .int "exposure_time %d" .exposure_time]

/-- The value that `sscanf(linebuf, format, &value)` with a `%f` conversion
stores when it returns 1. -/
def read_float {α : Type} (libc : Libc α) (linebuf : List Char) (format : String) :
    Option α :=
  match libc.sscanf_f format.toList linebuf with
  | [v] => some v
  | _ => none

/-- The value that `sscanf(linebuf, format, &value)` with a `%d` conversion
stores when it returns 1. -/
def read_int {α : Type} (libc : Libc α) (linebuf : List Char) (format : String) :
    Option Int :=
  libc.sscanf_d format.toList linebuf

/-- Following the spec's words: the name of the measured-intensity table that
a line gives: the line starts with the first 30 characters of
`lightsource_measured_intensities`, and the name stands between the first and
the last single quote after them. -/
def table_name (linebuf : List Char) : Option (List Char) :=
  if linebuf.take 30 = "lightsource_measured_intensiti".toList then
    match strchr (linebuf.drop 30) '\'', strrchr (linebuf.drop 30) '\'' with
    | some p, some q =>
      if q > p then some (((linebuf.drop 30).drop (p + 1)).take (q - p - 1))
      else none
    | _, _ => none
  else none

/-- Following the spec's words: what a line gives for a key, when `sscanf`
reads a value from the line with the format of the key, or when the line
gives the name of a table. -/
def Branch.run {α : Type} (libc : Libc α) (linebuf : List Char) (b : Branch) :
    Option (LineEffect α) :=
  match b with
  | .float format key => (read_float libc linebuf format).map (LineEffect.float key)
  | .int format key => (read_int libc linebuf format).map (LineEffect.int key)
  | .table => (table_name linebuf).map LineEffect.table

/-- Following the spec's words: the line gives at most one key. -/
def exclusive {α : Type} (libc : Libc α) (linebuf : List Char) : Bool :=
  decide (branches.countP (fun b => (Branch.run libc linebuf b).isSome) ≤ 1)

/-- Following the spec's words: the line gives no key. -/
def unknown_key {α : Type} (libc : Libc α) (linebuf : List Char) : Bool :=
  branches.all (fun b => (Branch.run libc linebuf b).isNone)

/-- Following the spec's words: the line names no measured-intensity table:
it gives no name of a table, or the empty name. -/
def names_no_table (linebuf : List Char) : Bool :=
  match table_name linebuf with
  | none => true
  | some name => name.isEmpty

/-- Following the spec's words: the value of the last line that is no comment
and no empty line and gives a `float` value with one of the formats. -/
def last_given_float {α : Type} (libc : Libc α) (formats : List String)
    (lines : List (List Char)) : Option α :=
  lines.reverse.findSome? (fun linebuf =>
    if is_ignored linebuf then none
    else formats.findSome? (read_float libc linebuf))

/-- Following the spec's words: the value of the last line that is no comment
and no empty line and gives an `int` value with one of the formats. -/
def last_given_int {α : Type} (libc : Libc α) (formats : List String)
    (lines : List (List Char)) : Option Int :=
  lines.reverse.findSome? (fun linebuf =>
    if is_ignored linebuf then none
    else formats.findSome? (read_int libc linebuf))

/-- The formats of the `float` key `key` in a list of keys. -/
def float_formats_of (keys : List Branch) (key : FloatKey) : List String :=
  keys.filterMap (fun b =>
    match b with
    | .float format key1 => if key1 = key then some format else none
    | .int _ _ => none
    | .table => none)

/-- The formats of the `int` key `key` in a list of keys. -/
def int_formats_of (keys : List Branch) (key : IntKey) : List String :=
  keys.filterMap (fun b =>
    match b with
    | .float _ _ => none
    | .int format key1 => if key1 = key then some format else none
    | .table => none)

/-- A simulator file that gives `near_plane` twice, `far_plane`, the power of
the light source under its old key, and two sensor parameters. -/
def planes_sim_file : File where
  content := ("PMDSIM SIMULATOR VERSION 1\nnear_plane 0.5\nfar_plane 9\n# planes\n"
    ++ "lightsource_power 150\nsensor_height 100\nreadout_time 500\nnear_plane 0.25\n"
    ++ "colour 3\n").toList
  error := false

/-- A `sscanf` that knows the lines of `planes_sim_file`. -/
def planes_sim_libc : Libc ℚ where
  fmul := fun a b => a * b
  undefined_long_long := fun _ => -9223372036854775808
  sscanf_d := fun format s =>
    if format = "PMDSIM SIMULATOR VERSION %d".toList
        ∧ s = "PMDSIM SIMULATOR VERSION 1\n".toList then some 1
    else if format = "sensor_height %d".toList ∧ s = "sensor_height 100\n".toList then
      some 100
    else if format = "readout_time %d".toList ∧ s = "readout_time 500\n".toList then
      some 500
    else none
  sscanf_f := fun format s =>
    if format = "near_plane %f".toList ∧ s = "near_plane 0.5\n".toList then [1 / 2]
    else if format = "near_plane %f".toList ∧ s = "near_plane 0.25\n".toList then [1 / 4]
    else if format = "far_plane %f".toList ∧ s = "far_plane 9\n".toList then [9]
    else if format = "lightsource_power %f".toList ∧ s = "lightsource_power 150\n".toList then
      [150]
    else []

/-- A simulator file whose second line is a comment of 525 characters: `#`,
510 times `x`, and the text `pixel_width 4`. -/
def long_comment_sim_file : File where
  content := "PMDSIM SIMULATOR VERSION 1\n".toList
    ++ ('#' :: List.replicate 510 'x' ++ "pixel_width 4\n".toList)
  error := false

/-- The value that an effect stores in the `float` member `key`. -/
def LineEffect.float_value {α : Type} (key : FloatKey) (e : LineEffect α) : Option α :=
  match e with
  | .float key1 v => if key1 = key then some v else none
  | _ => none

/-- The value that an effect stores in the `int` member `key`. -/
def LineEffect.int_value {α : Type} (key : IntKey) (e : LineEffect α) : Option Int :=
  match e with
  | .int key1 v => if key1 = key then some v else none
  | _ => none

/-! ## Basic facts about the machine integers and indexing -/

theorem wrap_int_eq (x : Int) (h1 : -2147483648 ≤ x) (h2 : x < 2147483648) :
    wrap_int x = x := by
  unfold wrap_int
  omega

theorem wrap_long_long_eq (x : Int) (h1 : -9223372036854775808 ≤ x)
    (h2 : x < 9223372036854775808) : wrap_long_long x = x := by
  unfold wrap_long_long
  omega

theorem copy_keyframe_eq {α : Type} (k : Keyframe α) : copy_keyframe k = (k.pos, k.rot) := rfl

theorem index_eq_ok {α : Type} (keyframes : List (Keyframe α)) (i : Nat) (k : Keyframe α)
    (h : keyframes[i]? = some k) : index keyframes (Int.ofNat i) = .ok k := by
  unfold index
  have h0 : ¬ (Int.ofNat i < 0) := by simp
  rw [if_neg h0]
  have h1 : (Int.ofNat i).toNat = i := by simp
  rw [h1, h]

theorem index_ok_iff {α : Type} (keyframes : List (Keyframe α)) (i : Int) (k : Keyframe α) :
    index keyframes i = .ok k ↔ 0 ≤ i ∧ keyframes[i.toNat]? = some k := by
  unfold index
  by_cases h : i < 0
  · rw [if_pos h]
    constructor
    · intro h'
      cases h'
    · intro h'
      omega
  · rw [if_neg h]
    cases hk : keyframes[i.toNat]? with
    | none =>
      constructor
      · intro h'
        cases h'
      · intro h'
        cases h'.2
    | some k' =>
      constructor
      · intro h'
        injection h' with h'
        exact ⟨by omega, by rw [h']⟩
      · intro h'
        injection h'.2 with h''
        rw [h'']

theorem index_in_range {α : Type} (keyframes : List (Keyframe α)) (i : Int)
    (h0 : 0 ≤ i) (h1 : i < keyframes.length) :
    ∃ k, index keyframes i = .ok k ∧ keyframes[i.toNat]? = some k := by
  have hlt : i.toNat < keyframes.length := by omega
  refine ⟨keyframes[i.toNat], ?_, ?_⟩
  · rw [index_ok_iff]
    exact ⟨h0, List.getElem?_eq_getElem hlt⟩
  · exact List.getElem?_eq_getElem hlt

theorem index_ok_lt {α : Type} (keyframes : List (Keyframe α)) (i : Int) (k : Keyframe α)
    (h : index keyframes i = .ok k) : 0 ≤ i ∧ i < keyframes.length := by
  rw [index_ok_iff] at h
  have := (List.getElem?_eq_some_iff.mp h.2).1
  omega

theorem ascending_get {α : Type} (keyframes : List (Keyframe α)) (hasc : ascending keyframes)
    (i j : Nat) (ki kj : Keyframe α) (hi : keyframes[i]? = some ki)
    (hj : keyframes[j]? = some kj) (hij : i < j) : ki.t < kj.t := by
  obtain ⟨hi1, hi2⟩ := List.getElem?_eq_some_iff.mp hi
  obtain ⟨hj1, hj2⟩ := List.getElem?_eq_some_iff.mp hj
  have := (List.pairwise_iff_getElem.mp hasc) i j hi1 hj1 hij
  rw [hi2, hj2] at this
  exact this

theorem ascending_index {α : Type} (keyframes : List (Keyframe α)) (hasc : ascending keyframes)
    (i j : Int) (ki kj : Keyframe α) (hi : index keyframes i = .ok ki)
    (hj : index keyframes j = .ok kj) (hij : i < j) : ki.t < kj.t := by
  rw [index_ok_iff] at hi hj
  exact ascending_get keyframes hasc i.toNat j.toNat ki kj hi.2 hj.2 (by omega)

theorem ascending_index_le {α : Type} (keyframes : List (Keyframe α))
    (hasc : ascending keyframes)
    (i j : Int) (ki kj : Keyframe α) (hi : index keyframes i = .ok ki)
    (hj : index keyframes j = .ok kj) (hij : i ≤ j) : ki.t ≤ kj.t := by
  rcases lt_or_eq_of_le hij with h | h
  · exact Int.le_of_lt (ascending_index keyframes hasc i j ki kj hi hj h)
  · subst h
    rw [hi] at hj
    injection hj with hj
    rw [hj]

theorem ascending_index_inj {α : Type} (keyframes : List (Keyframe α))
    (hasc : ascending keyframes)
    (i j : Int) (ki kj : Keyframe α) (hi : index keyframes i = .ok ki)
    (hj : index keyframes j = .ok kj) (ht : ki.t = kj.t) : i = j := by
  rcases Int.lt_trichotomy i j with h | h | h
  · have := ascending_index keyframes hasc i j ki kj hi hj h
    omega
  · exact h
  · have := ascending_index keyframes hasc j i kj ki hj hi h
    omega

/-! ## The binary search of `Animation::interpolate` -/

theorem search_mid (a b : Int) (h0 : 0 ≤ a) (hab : a ≤ b) (hb : b < 1073741824) :
    Int.tdiv (wrap_int (a + b)) 2 = (a + b) / 2 := by
  rw [wrap_int_eq (a + b) (by omega) (by omega)]
  exact Int.tdiv_eq_ediv (by omega) (by omega)

/-- The loop invariant of the binary search, for tracks whose indices fit the
`int` arithmetic: the search ends without fault, either at an exact match or
with `b = a - 1` and every keyframe below `a` earlier, every keyframe above
`b` later than `t`. -/
theorem search_spec {α : Type} (keyframes : List (Keyframe α)) (t : Int)
    (hasc : ascending keyframes) (hsize : keyframes.length ≤ 1073741824) :
    ∀ (fuel : Nat) (a b : Int), 0 ≤ a → b < keyframes.length → a ≤ b + 1 →
      b - a + 1 < fuel →
      (∀ i k, i < a → index keyframes i = .ok k → k.t < t) →
      (∀ i k, b < i → index keyframes i = .ok k → t < k.t) →
      (∃ c k, search keyframes t fuel a b = .ok (.exact c) ∧ a ≤ c ∧ c ≤ b ∧
        index keyframes c = .ok k ∧ k.t = t) ∨
      (∃ a1, search keyframes t fuel a b = .ok (.exit a1 (a1 - 1)) ∧ a ≤ a1 ∧ a1 ≤ b + 1 ∧
        (∀ i k, i < a1 → index keyframes i = .ok k → k.t < t) ∧
        (∀ i k, a1 - 1 < i → index keyframes i = .ok k → t < k.t)) := by
  intro fuel
  induction fuel with
  | zero =>
    intro a b _ _ hab hfuel
    exfalso
    have : (0 : Int) ≤ b - a + 1 := by omega
    have h2 : b - a + 1 < ((0 : Nat) : Int) := hfuel
    simp at h2
    omega
  | succ fuel ih =>
    intro a b ha hb hab hfuel hlo hhi
    have hfuel2 : b - a + 1 < (fuel : Int) + 1 := by
      have := hfuel
      push_cast at this
      exact this
    unfold search
    by_cases hba : b ≥ a
    · rw [if_pos hba]
      have hmid := search_mid a b ha hba (by omega)
      simp only [hmid]
      have hc1 : a ≤ (a + b) / 2 := by omega
      have hc2 : (a + b) / 2 ≤ b := by omega
      obtain ⟨k, hk, _⟩ := index_in_range keyframes ((a + b) / 2) (by omega) (by omega)
      simp only [hk]
      by_cases hlt : k.t < t
      · rw [if_pos hlt, wrap_int_eq _ (by omega) (by omega)]
        have := ih ((a + b) / 2 + 1) b (by omega) hb (by omega) (by omega)
          (fun i ki hi hki =>
            lt_of_le_of_lt
              (ascending_index_le keyframes hasc i ((a + b) / 2) ki k hki hk (by omega)) hlt)
          hhi
        rcases this with ⟨c, kc, h1, h2, h3, h4, h5⟩ | ⟨a1, h1, h2, h3, h4, h5⟩
        · exact Or.inl ⟨c, kc, h1, by omega, h3, h4, h5⟩
        · exact Or.inr ⟨a1, h1, by omega, h3, h4, h5⟩
      · rw [if_neg hlt]
        by_cases hgt : k.t > t
        · rw [if_pos hgt, wrap_int_eq _ (by omega) (by omega)]
          have := ih a ((a + b) / 2 - 1) ha (by omega) (by omega) (by omega) hlo
            (fun i ki hi hki =>
              lt_of_lt_of_le hgt
                (ascending_index_le keyframes hasc ((a + b) / 2) i k ki hk hki (by omega)))
          rcases this with ⟨c, kc, h1, h2, h3, h4, h5⟩ | ⟨a1, h1, h2, h3, h4, h5⟩
          · exact Or.inl ⟨c, kc, h1, h2, by omega, h4, h5⟩
          · exact Or.inr ⟨a1, h1, h2, by omega, h4, h5⟩
        · rw [if_neg hgt]
          exact Or.inl ⟨(a + b) / 2, k, rfl, hc1, hc2, hk, by omega⟩
    · rw [if_neg hba]
      have hab2 : b = a - 1 := by omega
      subst hab2
      exact Or.inr ⟨a, rfl, le_refl a, by omega, hlo, hhi⟩

theorem index_first {α : Type} (keyframes : List (Keyframe α)) (first : Keyframe α)
    (h : keyframes.head? = some first) : index keyframes 0 = .ok first := by
  rw [List.head?_eq_getElem?] at h
  exact index_eq_ok keyframes 0 first h

theorem index_last {α : Type} (keyframes : List (Keyframe α)) (last : Keyframe α)
    (h : keyframes.getLast? = some last) :
    index keyframes (Int.ofNat (keyframes.length - 1)) = .ok last := by
  rw [List.getLast?_eq_getElem?] at h
  exact index_eq_ok keyframes _ last h

theorem length_pos_of_head {α : Type} (keyframes : List (Keyframe α)) (first : Keyframe α)
    (h : keyframes.head? = some first) : 0 < keyframes.length := by
  cases keyframes with
  | nil => cases h
  | cons x xs => simp

/-- The search as `Animation::interpolate` starts it, on a track whose indices
fit the `int` arithmetic. -/
theorem search_start {α : Type} (keyframes : List (Keyframe α)) (t : Int)
    (hasc : ascending keyframes) (hsize : keyframes.length ≤ 1073741824)
    (hpos : 0 < keyframes.length) (fuel : Nat) (hfuel : keyframes.length < fuel) :
    (∃ c k, search keyframes t fuel 0 (wrap_int ((keyframes.length : Int) - 1))
        = .ok (.exact c) ∧ index keyframes c = .ok k ∧ k.t = t) ∨
    (∃ a1, search keyframes t fuel 0 (wrap_int ((keyframes.length : Int) - 1))
        = .ok (.exit a1 (a1 - 1)) ∧ 0 ≤ a1 ∧ a1 ≤ keyframes.length ∧
      (∀ i k, i < a1 → index keyframes i = .ok k → k.t < t) ∧
      (∀ i k, a1 - 1 < i → index keyframes i = .ok k → t < k.t)) := by
  rw [wrap_int_eq _ (by omega) (by omega)]
  have := search_spec keyframes t hasc hsize fuel 0 ((keyframes.length : Int) - 1)
    (le_refl 0) (by omega) (by omega) (by omega)
    (fun i k hi hk => by have := index_ok_lt keyframes i k hk; omega)
    (fun i k hi hk => by have := index_ok_lt keyframes i k hk; omega)
  rcases this with ⟨c, kc, h1, _, _, h4, h5⟩ | ⟨a1, h1, h2, h3, h4, h5⟩
  · exact Or.inl ⟨c, kc, h1, h4, h5⟩
  · exact Or.inr ⟨a1, h1, h2, by omega, h4, h5⟩

/-- The search finds the keyframe whose time is `t`. -/
theorem search_exact {α : Type} (keyframes : List (Keyframe α))
    (hasc : ascending keyframes) (hsize : keyframes.length ≤ 1073741824)
    (j : Int) (k : Keyframe α) (hk : index keyframes j = .ok k)
    (fuel : Nat) (hfuel : keyframes.length < fuel) :
    search keyframes k.t fuel 0 (wrap_int ((keyframes.length : Int) - 1))
      = .ok (.exact j) := by
  have hpos : 0 < keyframes.length := by
    have := index_ok_lt keyframes j k hk
    omega
  rcases search_start keyframes k.t hasc hsize hpos fuel hfuel with
    ⟨c, kc, h1, h2, h3⟩ | ⟨a1, h1, _, _, h4, h5⟩
  · have := ascending_index_inj keyframes hasc c j kc k h2 hk h3
    rw [h1, this]
  · exfalso
    by_cases hj : j < a1
    · have := h4 j k hj hk
      omega
    · have := h5 j k (by omega) hk
      omega

/-- The search brackets a time that lies strictly inside the track and is not
the time of a keyframe. -/
theorem search_bracket {α : Type} (keyframes : List (Keyframe α)) (t : Int)
    (hasc : ascending keyframes) (hsize : keyframes.length ≤ 1073741824)
    (first last : Keyframe α) (hfirst : keyframes.head? = some first)
    (hlast : keyframes.getLast? = some last) (h1 : first.t < t) (h2 : t < last.t)
    (hne : ∀ k ∈ keyframes, k.t ≠ t) (fuel : Nat) (hfuel : keyframes.length < fuel) :
    ∃ (a b : Int) (ka kb : Keyframe α),
      search keyframes t fuel 0 (wrap_int ((keyframes.length : Int) - 1))
        = .ok (.exit b a) ∧
      a = b - 1 ∧ 0 ≤ a ∧ b ≤ (keyframes.length : Int) - 1 ∧
      index keyframes a = .ok ka ∧ index keyframes b = .ok kb ∧ ka.t < t ∧ t < kb.t ∧
      (∀ i k, i < b → index keyframes i = .ok k → k.t < t) ∧
      (∀ i k, a < i → index keyframes i = .ok k → t < k.t) := by
  have hpos := length_pos_of_head keyframes first hfirst
  have hf := index_first keyframes first hfirst
  have hl := index_last keyframes last hlast
  rcases search_start keyframes t hasc hsize hpos fuel hfuel with
    ⟨c, kc, _, h3, h4⟩ | ⟨a1, h3, h4, h5, h6, h7⟩
  · exfalso
    rw [index_ok_iff] at h3
    exact hne kc (List.mem_iff_getElem?.mpr ⟨_, h3.2⟩) h4
  · have ha1 : 1 ≤ a1 := by
      by_contra hcon
      have := h7 0 first (by omega) hf
      omega
    have ha2 : a1 ≤ (keyframes.length : Int) - 1 := by
      by_contra hcon
      have hlt : Int.ofNat (keyframes.length - 1) < a1 := by
        have : Int.ofNat (keyframes.length - 1) = (keyframes.length : Int) - 1 := by
          simp
          omega
        omega
      have := h6 _ last hlt hl
      omega
    obtain ⟨ka, hka, _⟩ := index_in_range keyframes (a1 - 1) (by omega) (by omega)
    obtain ⟨kb, hkb, _⟩ := index_in_range keyframes a1 (by omega) (by omega)
    exact ⟨a1 - 1, a1, ka, kb, h3, rfl, by omega, ha2, hka, hkb,
      h6 _ ka (by omega) hka, h7 _ kb (by omega) hkb, h6, h7⟩

/-! ## Claims about `Animation::interpolate` -/

theorem interpolate_first {α : Type} [LinearOrderedField α] (acos sin : α → α)
    (self : Animation α) (t : Int) (out : Vec3 α × Quat α) (first : Keyframe α)
    (hfirst : self.keyframes.head? = some first) (ht : t ≤ first.t) :
    self.interpolate acos sin t out = .ok (first.pos, first.rot) := by
  have hpos := length_pos_of_head self.keyframes first hfirst
  unfold Animation.interpolate
  rw [if_neg (by omega)]
  simp only [index_first self.keyframes first hfirst]
  rw [if_pos ht]
  rfl

theorem interpolate_not_first {α : Type} [LinearOrderedField α] (acos sin : α → α)
    (self : Animation α) (t : Int) (out : Vec3 α × Quat α) (first last : Keyframe α)
    (hfirst : self.keyframes.head? = some first)
    (hlast : self.keyframes.getLast? = some last) (ht : ¬ t ≤ first.t) :
    self.interpolate acos sin t out =
      if t ≥ last.t then .ok (last.pos, last.rot)
      else interpolate_search acos sin self.keyframes t := by
  have hpos := length_pos_of_head self.keyframes first hfirst
  unfold Animation.interpolate
  rw [if_neg (by omega)]
  simp only [index_first self.keyframes first hfirst]
  rw [if_neg ht]
  simp only [index_last self.keyframes last hlast]
  rfl

theorem first_le_last {α : Type} (keyframes : List (Keyframe α)) (hasc : ascending keyframes)
    (first last : Keyframe α) (hfirst : keyframes.head? = some first)
    (hlast : keyframes.getLast? = some last) :
    first.t ≤ last.t ∧ (first.t = last.t → first = last) := by
  have hf := index_first keyframes first hfirst
  have hl := index_last keyframes last hlast
  have h0 : (0 : Int) ≤ Int.ofNat (keyframes.length - 1) := Int.ofNat_nonneg _
  refine ⟨ascending_index_le keyframes hasc _ _ first last hf hl h0, ?_⟩
  intro ht
  have := ascending_index_inj keyframes hasc _ _ first last hf hl ht
  rw [← this, hf] at hl
  injection hl

/-- C2. On a non-empty track with ascending times, `Animation::interpolate`
writes the first keyframe's position and rotation unchanged for every
`t <= first.t`, and the last keyframe's position and rotation unchanged for
every `t >= last.t`; in particular at `first.t` and at `last.t`. -/
theorem interpolate_clamp {α : Type} [LinearOrderedField α] (acos sin : α → α)
    (self : Animation α) (out : Vec3 α × Quat α) (first last : Keyframe α)
    (hasc : ascending self.keyframes)
    (hfirst : self.keyframes.head? = some first)
    (hlast : self.keyframes.getLast? = some last) :
    (∀ t, t ≤ first.t → self.interpolate acos sin t out = .ok (first.pos, first.rot)) ∧
    (∀ t, t ≥ last.t → self.interpolate acos sin t out = .ok (last.pos, last.rot)) ∧
    self.interpolate acos sin first.t out = .ok (first.pos, first.rot) ∧
    self.interpolate acos sin last.t out = .ok (last.pos, last.rot) := by
  have hA : ∀ t, t ≤ first.t →
      self.interpolate acos sin t out = .ok (first.pos, first.rot) :=
    fun t ht => interpolate_first acos sin self t out first hfirst ht
  have hB : ∀ t, t ≥ last.t →
      self.interpolate acos sin t out = .ok (last.pos, last.rot) := by
    intro t ht
    obtain ⟨hle, heq⟩ := first_le_last self.keyframes hasc first last hfirst hlast
    by_cases h : t ≤ first.t
    · rw [hA t h, heq (by omega)]
    · rw [interpolate_not_first acos sin self t out first last hfirst hlast h, if_pos ht]
  exact ⟨hA, hB, hA _ (le_refl _), hB _ (le_refl _)⟩

theorem interpolate_clamp_witness :
    ascending sample_track.keyframes ∧
    sample_track.interpolate id id (-5) sample_out = .ok (⟨0, 0, 0⟩, ⟨0, 0, 0, 1⟩) ∧
    sample_track.interpolate id id 41 sample_out = .ok (⟨7, 7, 7⟩, ⟨0, 0, 1, 0⟩) :=
  have h := interpolate_clamp id id sample_track sample_out
    ⟨0, ⟨0, 0, 0⟩, ⟨0, 0, 0, 1⟩⟩ ⟨40, ⟨7, 7, 7⟩, ⟨0, 0, 1, 0⟩⟩ (by decide) rfl rfl
  ⟨by decide, h.1 (-5) (by decide), h.2.1 41 (by decide)⟩

/-! ## Tracks too long for the `int` indices of the binary search -/

/-- On every track of `2^31 - 1` keyframes and for every `t` above the time of
the middle keyframe, the second evaluation of `(a + b) / 2` leaves the range of
`int` and the search indexes the vector at `-536870913`. -/
theorem long_search_fault {α : Type} (keyframes : List (Keyframe α)) (t : Int)
    (hlen : keyframes.length = 2147483647) (kmid : Keyframe α)
    (hmid : keyframes[1073741823]? = some kmid) (ht : kmid.t < t) :
    search keyframes t (keyframes.length + 1) 0 (wrap_int ((keyframes.length : Int) - 1))
      = .error (.index (-536870913)) := by
  have h1 : index keyframes (Int.ofNat 1073741823) = .ok kmid :=
    index_eq_ok keyframes 1073741823 kmid hmid
  have h2 : index keyframes (-536870913) = .error (.index (-536870913)) := by
    unfold index
    rw [if_pos (by decide)]
  rw [hlen]
  rw [show wrap_int (((2147483647 : Nat) : Int) - 1) = 2147483646 from by decide]
  rw [show (2147483647 + 1 : Nat) = 2147483646 + 1 + 1 from rfl]
  rw [search, if_pos (by decide)]
  simp only [show Int.tdiv (wrap_int (0 + 2147483646)) 2 = Int.ofNat 1073741823 from by decide,
    h1]
  rw [if_pos ht, search, if_pos (by decide)]
  simp only [show Int.tdiv (wrap_int (wrap_int (Int.ofNat 1073741823 + 1) + 2147483646)) 2
    = -536870913 from by decide, h2]

/-- On every track of `2^31 - 1` keyframes, `Animation::interpolate` indexes the
vector at `-536870913` for every `t` between the middle and the last keyframe. -/
theorem long_interpolate_fault {α : Type} [LinearOrderedField α] (acos sin : α → α)
    (keyframes : List (Keyframe α)) (t : Int) (out : Vec3 α × Quat α)
    (hlen : keyframes.length = 2147483647) (kfirst kmid klast : Keyframe α)
    (hfirst : keyframes[0]? = some kfirst)
    (hmid : keyframes[1073741823]? = some kmid)
    (hlast : keyframes[2147483646]? = some klast)
    (ht0 : kfirst.t < t) (ht1 : kmid.t < t) (ht2 : t < klast.t) :
    Animation.interpolate acos sin ⟨keyframes⟩ t out = .error (.index (-536870913)) := by
  have hf : (Animation.mk keyframes).keyframes.head? = some kfirst := by
    rw [List.head?_eq_getElem?]
    exact hfirst
  have hl : (Animation.mk keyframes).keyframes.getLast? = some klast := by
    rw [List.getLast?_eq_getElem?]
    show keyframes[keyframes.length - 1]? = some klast
    rw [hlen]
    exact hlast
  rw [interpolate_not_first acos sin ⟨keyframes⟩ t out kfirst klast hf hl (by omega),
    if_neg (by omega)]
  unfold interpolate_search
  rw [long_search_fault keyframes t hlen kmid hmid ht1]

theorem ramp_length (n : Nat) : (ramp n).length = n := by
  simp [ramp]

theorem ramp_get (n i : Nat) (h : i < n) :
    (ramp n)[i]? = some ⟨2 * Int.ofNat i, ⟨0, 0, 0⟩, ⟨0, 0, 0, 1⟩⟩ := by
  unfold ramp
  rw [List.getElem?_map, List.getElem?_range h]
  rfl

theorem ramp_ascending (n : Nat) : ascending (ramp n) := by
  unfold ascending ramp
  rw [List.pairwise_map]
  refine List.Pairwise.imp ?_ (List.pairwise_lt_range n)
  intro a b hab
  show 2 * Int.ofNat a < 2 * Int.ofNat b
  have : Int.ofNat a < Int.ofNat b := Int.ofNat_lt.mpr hab
  omega

theorem ramp_times (n : Nat) (k : Keyframe ℚ) (hk : k ∈ ramp n) : k.t % 2 = 0 := by
  unfold ramp at hk
  rw [List.mem_map] at hk
  obtain ⟨i, _, hi⟩ := hk
  rw [← hi]
  show (2 * Int.ofNat i) % 2 = 0
  omega

/-- The fault on the track `ramp (2^31 - 1)`. -/
theorem ramp_interpolate_fault (acos sin : ℚ → ℚ) (t : Int) (out : Vec3 ℚ × Quat ℚ)
    (ht1 : 2147483646 < t) (ht2 : t < 4294967292) :
    Animation.interpolate acos sin ⟨ramp 2147483647⟩ t out
      = .error (.index (-536870913)) :=
  long_interpolate_fault acos sin (ramp 2147483647) t out (ramp_length 2147483647)
    ⟨2 * Int.ofNat 0, ⟨0, 0, 0⟩, ⟨0, 0, 0, 1⟩⟩
    ⟨2 * Int.ofNat 1073741823, ⟨0, 0, 0⟩, ⟨0, 0, 0, 1⟩⟩
    ⟨2 * Int.ofNat 2147483646, ⟨0, 0, 0⟩, ⟨0, 0, 0, 1⟩⟩
    (ramp_get 2147483647 0 (by decide))
    (ramp_get 2147483647 1073741823 (by decide))
    (ramp_get 2147483647 2147483646 (by decide))
    (by show 2 * Int.ofNat 0 < t; have : (2 * Int.ofNat 0 : Int) = 0 := by decide
        omega)
    (by show 2 * Int.ofNat 1073741823 < t
        have : (2 * Int.ofNat 1073741823 : Int) = 2147483646 := by decide
        omega)
    (by show t < 2 * Int.ofNat 2147483646
        have : (2 * Int.ofNat 2147483646 : Int) = 4294967292 := by decide
        omega)

/-- C1 (amended). On a track with strictly ascending times and at most `2^30`
keyframes, for `t` the time of a keyframe `k`, `Animation::interpolate(t)`
writes exactly the position and rotation of `k` (the seven components
unchanged), and the binary search, started as `Animation::interpolate` starts
it, ends in its exact-match branch at the index of `k`. -/
theorem interpolate_exact {α : Type} [LinearOrderedField α] (acos sin : α → α)
    (self : Animation α) (out : Vec3 α × Quat α) (j : Nat) (k : Keyframe α)
    (hasc : ascending self.keyframes) (hsize : self.keyframes.length ≤ 1073741824)
    (hk : self.keyframes[j]? = some k) :
    self.interpolate acos sin k.t out = .ok (k.pos, k.rot) ∧
    search self.keyframes k.t (self.keyframes.length + 1) 0
      (wrap_int ((self.keyframes.length : Int) - 1)) = .ok (.exact (Int.ofNat j)) := by
  have hkj : index self.keyframes (Int.ofNat j) = .ok k := index_eq_ok _ j k hk
  have hsearch := search_exact self.keyframes hasc hsize (Int.ofNat j) k hkj
    (self.keyframes.length + 1) (by omega)
  refine ⟨?_, hsearch⟩
  have hjlt : j < self.keyframes.length := (List.getElem?_eq_some_iff.mp hk).1
  obtain ⟨first, hfirst⟩ : ∃ first, self.keyframes.head? = some first := by
    rw [List.head?_eq_getElem?]
    exact ⟨_, List.getElem?_eq_getElem (by omega)⟩
  obtain ⟨last, hlast⟩ : ∃ last, self.keyframes.getLast? = some last := by
    rw [List.getLast?_eq_getElem?]
    exact ⟨_, List.getElem?_eq_getElem (by omega)⟩
  have hf := index_first self.keyframes first hfirst
  have hl := index_last self.keyframes last hlast
  by_cases h1 : k.t ≤ first.t
  · have hle := ascending_index_le self.keyframes hasc 0 (Int.ofNat j) first k hf hkj
      (Int.ofNat_nonneg j)
    have hidx := ascending_index_inj self.keyframes hasc 0 (Int.ofNat j) first k hf hkj
      (by omega)
    rw [← hidx, hf] at hkj
    injection hkj with hkj
    rw [← hkj]
    exact interpolate_first acos sin self first.t out first hfirst (le_refl _)
  · rw [interpolate_not_first acos sin self k.t out first last hfirst hlast h1]
    by_cases h2 : k.t ≥ last.t
    · have hjl : (Int.ofNat j) ≤ Int.ofNat (self.keyframes.length - 1) := by
        apply Int.ofNat_le.mpr
        omega
      have hle := ascending_index_le self.keyframes hasc _ _ k last hkj hl hjl
      have hidx := ascending_index_inj self.keyframes hasc _ _ k last hkj hl (by omega)
      rw [hidx, hl] at hkj
      injection hkj with hkj
      rw [if_pos h2, hkj]
    · rw [if_neg h2]
      unfold interpolate_search
      rw [hsearch]
      simp only [hkj]
      rfl

theorem interpolate_exact_witness :
    ascending sample_track.keyframes ∧
    sample_track.interpolate id id 20 sample_out = .ok (⟨5, 0, 1⟩, ⟨0, 1, 0, 0⟩) ∧
    search sample_track.keyframes 20 5 0 3 = .ok (.exact 2) :=
  have h := interpolate_exact id id sample_track sample_out 2
    ⟨20, ⟨5, 0, 1⟩, ⟨0, 1, 0, 0⟩⟩ (by decide) (by decide) rfl
  ⟨by decide, h.1, h.2⟩

/-- C1 fails as stated on a track of `2^31 - 1` keyframes with strictly
ascending times: for `t` the time of the keyframe at index `2147483645` the
sum `a + b` leaves the range of `int`, the vector is indexed at `-536870913`
and no keyframe is copied. -/
theorem interpolate_exact_counterexample :
    ascending (ramp 2147483647) ∧
    (ramp 2147483647).length = 2147483647 ∧
    (ramp 2147483647)[2147483645]? = some ⟨4294967290, ⟨0, 0, 0⟩, ⟨0, 0, 0, 1⟩⟩ ∧
    Animation.interpolate id id ⟨ramp 2147483647⟩ 4294967290 sample_out
      = .error (.index (-536870913)) ∧
    Animation.interpolate id id ⟨ramp 2147483647⟩ 4294967290 sample_out
      ≠ .ok (⟨0, 0, 0⟩, ⟨0, 0, 0, 1⟩) := by
  have h := ramp_interpolate_fault id id 4294967290 sample_out (by decide) (by decide)
  refine ⟨ramp_ascending _, ramp_length _, ramp_get 2147483647 2147483645 (by decide), h, ?_⟩
  rw [h]
  intro hcon
  cases hcon

/-- C3 (amended). On a track with strictly ascending times and at most `2^30`
keyframes, for every `t` with `first.t < t < last.t` that is not the time of a
keyframe, the binary search of `Animation::interpolate` terminates (on every
iteration bound above the track length it returns the same result), indexes
the vector only inside `0..n-1` (it returns without a fault), and ends, after
the swap, with `a = b - 1`, `0 <= a`, `b <= n - 1` and
`keyframes[a].t < t < keyframes[b].t`. -/
theorem search_brackets_time {α : Type} (keyframes : List (Keyframe α)) (t : Int)
    (first last : Keyframe α)
    (hasc : ascending keyframes) (hsize : keyframes.length ≤ 1073741824)
    (hfirst : keyframes.head? = some first) (hlast : keyframes.getLast? = some last)
    (h1 : first.t < t) (h2 : t < last.t) (hne : ∀ k ∈ keyframes, k.t ≠ t) :
    ∃ (a b : Int) (ka kb : Keyframe α),
      (∀ fuel : Nat, keyframes.length < fuel →
        search keyframes t fuel 0 (wrap_int ((keyframes.length : Int) - 1))
          = .ok (.exit b a)) ∧
      a = b - 1 ∧ 0 ≤ a ∧ b ≤ (keyframes.length : Int) - 1 ∧
      index keyframes a = .ok ka ∧ index keyframes b = .ok kb ∧ ka.t < t ∧ t < kb.t := by
  obtain ⟨a, b, ka, kb, hs, hab, ha, hb, hka, hkb, hta, htb, hlo, hhi⟩ :=
    search_bracket keyframes t hasc hsize first last hfirst hlast h1 h2 hne
      (keyframes.length + 1) (by omega)
  refine ⟨a, b, ka, kb, ?_, hab, ha, hb, hka, hkb, hta, htb⟩
  intro fuel hfuel
  obtain ⟨a2, b2, ka2, kb2, hs2, hab2, _, _, hka2, hkb2, hta2, htb2, hlo2, hhi2⟩ :=
    search_bracket keyframes t hasc hsize first last hfirst hlast h1 h2 hne fuel hfuel
  have hbb : b2 = b := by
    rcases Int.lt_trichotomy b2 b with h | h | h
    · have := hlo b2 kb2 h hkb2
      omega
    · exact h
    · have := hlo2 b kb h hkb
      omega
  rw [hs2, hab2, hab, hbb]

theorem search_brackets_time_witness :
    ascending sample_track.keyframes ∧
    ∃ (a b : Int) (ka kb : Keyframe ℚ),
      (∀ fuel : Nat, sample_track.keyframes.length < fuel →
        search sample_track.keyframes 15 fuel 0
          (wrap_int ((sample_track.keyframes.length : Int) - 1)) = .ok (.exit b a)) ∧
      a = b - 1 ∧ 0 ≤ a ∧ b ≤ (sample_track.keyframes.length : Int) - 1 ∧
      index sample_track.keyframes a = .ok ka ∧ index sample_track.keyframes b = .ok kb ∧
      ka.t < 15 ∧ 15 < kb.t :=
  ⟨by decide,
   search_brackets_time sample_track.keyframes 15
    ⟨0, ⟨0, 0, 0⟩, ⟨0, 0, 0, 1⟩⟩ ⟨40, ⟨7, 7, 7⟩, ⟨0, 0, 1, 0⟩⟩
    (by decide) (by decide) rfl rfl (by decide) (by decide) (by decide)⟩

/-- C3 fails as stated on a track of `2^31 - 1` keyframes with strictly
ascending times: for `t = 4294967291`, strictly inside the track and not the
time of a keyframe, the sum `a + b` leaves the range of `int` in the second
iteration and the search indexes the vector at `-536870913`. -/
theorem search_brackets_time_counterexample :
    ascending (ramp 2147483647) ∧
    (ramp 2147483647).head? = some ⟨0, ⟨0, 0, 0⟩, ⟨0, 0, 0, 1⟩⟩ ∧
    (ramp 2147483647).getLast? = some ⟨4294967292, ⟨0, 0, 0⟩, ⟨0, 0, 0, 1⟩⟩ ∧
    (0 : Int) < 4294967291 ∧ (4294967291 : Int) < 4294967292 ∧
    (∀ k ∈ ramp 2147483647, k.t ≠ 4294967291) ∧
    search (ramp 2147483647) 4294967291 ((ramp 2147483647).length + 1) 0
        (wrap_int (((ramp 2147483647).length : Int) - 1))
      = .error (.index (-536870913)) := by
  refine ⟨ramp_ascending _, ?_, ?_, by decide, by decide, ?_, ?_⟩
  · rw [List.head?_eq_getElem?]
    exact ramp_get 2147483647 0 (by decide)
  · rw [List.getLast?_eq_getElem?, ramp_length]
    exact ramp_get 2147483647 2147483646 (by decide)
  · intro k hk hcon
    have := ramp_times 2147483647 k hk
    omega
  · exact long_search_fault (ramp 2147483647) 4294967291 (ramp_length _)
      ⟨2 * Int.ofNat 1073741823, ⟨0, 0, 0⟩, ⟨0, 0, 0, 1⟩⟩
      (ramp_get 2147483647 1073741823 (by decide)) (by decide)

/-- C4 (amended). On a track with strictly ascending times and at most `2^30`
keyframes, for `t` strictly between two adjacent keyframes `ka` and `kb` whose
time difference fits `long long` (`kb.t - ka.t < 2^63`),
`Animation::interpolate` writes the position
`alpha * ka.pos + (1 - alpha) * kb.pos` componentwise (and the rotation
`slerp(ka.rot, kb.rot, alpha)`) with `alpha = (kb.t - t) / (kb.t - ka.t)`;
the denominator is positive and `0 < alpha < 1`. -/
theorem interpolate_between {α : Type} [LinearOrderedField α] (acos sin : α → α)
    (self : Animation α) (t : Int) (out : Vec3 α × Quat α) (i : Nat) (ka kb : Keyframe α)
    (hasc : ascending self.keyframes) (hsize : self.keyframes.length ≤ 1073741824)
    (ha : self.keyframes[i]? = some ka) (hb : self.keyframes[i + 1]? = some kb)
    (h1 : ka.t < t) (h2 : t < kb.t) (hrange : kb.t - ka.t < 9223372036854775808) :
    ∃ alpha : α, alpha = ((kb.t - t : Int) : α) / ((kb.t - ka.t : Int) : α) ∧
      self.interpolate acos sin t out =
        .ok (⟨alpha * ka.pos.c0 + (1 - alpha) * kb.pos.c0,
              alpha * ka.pos.c1 + (1 - alpha) * kb.pos.c1,
              alpha * ka.pos.c2 + (1 - alpha) * kb.pos.c2⟩,
             slerp acos sin ka.rot kb.rot alpha) ∧
      (0 : α) < ((kb.t - ka.t : Int) : α) ∧ 0 < alpha ∧ alpha < 1 := by
  refine ⟨_, rfl, ?_, ?_, ?_, ?_⟩
  · have hia : index self.keyframes (Int.ofNat i) = .ok ka := index_eq_ok _ i ka ha
    have hib : index self.keyframes (Int.ofNat (i + 1)) = .ok kb := index_eq_ok _ (i + 1) kb hb
    have hib2 : index self.keyframes (Int.ofNat i + 1) = .ok kb := hib
    have hilt : i + 1 < self.keyframes.length := (List.getElem?_eq_some_iff.mp hb).1
    obtain ⟨first, hfirst⟩ : ∃ first, self.keyframes.head? = some first := by
      rw [List.head?_eq_getElem?]
      exact ⟨_, List.getElem?_eq_getElem (by omega)⟩
    obtain ⟨last, hlast⟩ : ∃ last, self.keyframes.getLast? = some last := by
      rw [List.getLast?_eq_getElem?]
      exact ⟨_, List.getElem?_eq_getElem (by omega)⟩
    have hf := index_first self.keyframes first hfirst
    have hl := index_last self.keyframes last hlast
    have hfa := ascending_index_le self.keyframes hasc 0 (Int.ofNat i) first ka hf hia
      (Int.ofNat_nonneg i)
    have hbl := ascending_index_le self.keyframes hasc (Int.ofNat (i + 1))
      (Int.ofNat (self.keyframes.length - 1)) kb last hib hl
      (Int.ofNat_le.mpr (by omega))
    have hne : ∀ k ∈ self.keyframes, k.t ≠ t := by
      intro k hk hkt
      obtain ⟨j, hj⟩ := List.mem_iff_getElem?.mp hk
      have hij : index self.keyframes (Int.ofNat j) = .ok k := index_eq_ok _ j k hj
      by_cases hji : j ≤ i
      · have := ascending_index_le self.keyframes hasc _ _ k ka hij hia (Int.ofNat_le.mpr hji)
        omega
      · have := ascending_index_le self.keyframes hasc _ _ kb k hib hij
          (Int.ofNat_le.mpr (by omega))
        omega
    obtain ⟨a, b, ka2, kb2, hs, hab, _, _, hka2, hkb2, hta, htb, hlo, hhi⟩ :=
      search_bracket self.keyframes t hasc hsize first last hfirst hlast (by omega) (by omega)
        hne (self.keyframes.length + 1) (by omega)
    have hbi : b = Int.ofNat i + 1 := by
      rcases Int.lt_trichotomy b (Int.ofNat i + 1) with h | h | h
      · have := hhi (Int.ofNat i) ka (by omega) hia
        omega
      · exact h
      · have := hlo (Int.ofNat i + 1) kb h hib2
        omega
    have hai : a = Int.ofNat i := by omega
    rw [hai] at hka2
    rw [hbi] at hkb2
    rw [hia] at hka2
    rw [hib2] at hkb2
    injection hka2 with hka2
    injection hkb2 with hkb2
    subst hka2
    subst hkb2
    rw [interpolate_not_first acos sin self t out first last hfirst hlast (by omega),
      if_neg (by omega)]
    unfold interpolate_search
    rw [hs, hai, hbi]
    simp only [hia, hib2]
    unfold blend interpolate_alpha
    rw [wrap_long_long_eq _ (by omega) (by omega), wrap_long_long_eq _ (by omega) (by omega)]
  · exact_mod_cast (by omega : (0 : Int) < kb.t - ka.t)
  · apply div_pos
    · exact_mod_cast (by omega : (0 : Int) < kb.t - t)
    · exact_mod_cast (by omega : (0 : Int) < kb.t - ka.t)
  · rw [div_lt_one (by exact_mod_cast (by omega : (0 : Int) < kb.t - ka.t))]
    exact_mod_cast (by omega : kb.t - t < kb.t - ka.t)

theorem interpolate_between_witness :
    ascending sample_track.keyframes ∧
    ∃ alpha : ℚ, alpha = (((20 : Int) - 15 : Int) : ℚ) / (((20 : Int) - 10 : Int) : ℚ) ∧
      sample_track.interpolate id id 15 sample_out =
        .ok (⟨alpha * 1 + (1 - alpha) * 5, alpha * 2 + (1 - alpha) * 0,
              alpha * 3 + (1 - alpha) * 1⟩,
             slerp id id ⟨1, 0, 0, 0⟩ ⟨0, 1, 0, 0⟩ alpha) ∧
      (0 : ℚ) < (((20 : Int) - 10 : Int) : ℚ) ∧ 0 < alpha ∧ alpha < 1 :=
  ⟨by decide,
   interpolate_between id id sample_track 15 sample_out 1
    ⟨10, ⟨1, 2, 3⟩, ⟨1, 0, 0, 0⟩⟩ ⟨20, ⟨5, 0, 1⟩, ⟨0, 1, 0, 0⟩⟩
    (by decide) (by decide) rfl rfl (by decide) (by decide) (by decide)⟩

/-- C4 fails as stated. (1) On the two keyframes of `wide_track`, at `t = 0`
strictly between them, the `long long` difference `b.t - a.t` wraps to a
negative denominator, `alpha` is negative and the position written has
`x = alpha < 0`, outside the segment between `x = 1` and `x = 0`. (2) On a
track of `2^31 - 1` keyframes, at `t = 4294967291` strictly between the last
two keyframes, the search indexes the vector at `-536870913` and no position
is written. -/
theorem interpolate_between_counterexample :
    (ascending wide_track.keyframes ∧
      (-9223372036854775808 : Int) ≤ -9000000000000000000 ∧
      (9000000000000000000 : Int) < 9223372036854775808 ∧
      wrap_long_long (9000000000000000000 - (-9000000000000000000)) = -446744073709551616 ∧
      wide_track.interpolate id id 0 sample_out =
        .ok (⟨-(140625000000000000 / 6980376151711744), 0, 0⟩, ⟨0, 0, 0, 1⟩) ∧
      wide_track.interpolate id id 0 sample_out ≠ .ok (⟨1 / 2, 0, 0⟩, ⟨0, 0, 0, 1⟩)) ∧
    (ascending (ramp 2147483647) ∧
      (ramp 2147483647)[2147483645]? = some ⟨4294967290, ⟨0, 0, 0⟩, ⟨0, 0, 0, 1⟩⟩ ∧
      (ramp 2147483647)[2147483645 + 1]? = some ⟨4294967292, ⟨0, 0, 0⟩, ⟨0, 0, 0, 1⟩⟩ ∧
      Animation.interpolate id id ⟨ramp 2147483647⟩ 4294967291 sample_out
        = .error (.index (-536870913))) := by
  have hw : wrap_long_long (9000000000000000000 - (-9000000000000000000))
      = -446744073709551616 := by decide
  have hv : wide_track.interpolate id id 0 sample_out =
      .ok (⟨-(140625000000000000 / 6980376151711744), 0, 0⟩, ⟨0, 0, 0, 1⟩) := by
    simp [Animation.interpolate, wide_track, index, interpolate_search, search, wrap_int,
      Int.tdiv, blend, interpolate_alpha, wrap_long_long, slerp, slerp_sign, slerp_weights,
      slerp_cos_w, epsilon]
    norm_num
  refine ⟨⟨by decide, by decide, by decide, hw, hv, ?_⟩,
    ⟨ramp_ascending _, ramp_get 2147483647 2147483645 (by decide),
     ramp_get 2147483647 2147483646 (by decide),
     ramp_interpolate_fault id id 4294967291 sample_out (by decide) (by decide)⟩⟩
  rw [hv]
  intro hcon
  injection hcon with hcon
  injection hcon with hcon _
  injection hcon with hcon _ _
  norm_num at hcon

/-! ## Claims about `slerp` -/

/-- C5, the code at a failing input. For the unit quaternions
`a = (0,0,0,1)` and `b = (0,0,0,-1)` the 4-component dot product is `-1 < 0`,
but line 44 computes `a0*b0 + a1*b1 + a2*b2 + a3 + b3 = 0`, so `slerp` does
not negate `b` and uses the cosine `0` instead of `|-1| = 1`. -/
theorem slerp_sign_misses_negative_dot :
    quat_norm_sq (⟨0, 0, 0, 1⟩ : Quat ℚ) = 1 ∧
    quat_norm_sq (⟨0, 0, 0, -1⟩ : Quat ℚ) = 1 ∧
    quat_dot (⟨0, 0, 0, 1⟩ : Quat ℚ) ⟨0, 0, 0, -1⟩ = -1 ∧
    slerp_cos_w (⟨0, 0, 0, 1⟩ : Quat ℚ) ⟨0, 0, 0, -1⟩ = 0 ∧
    slerp_sign (⟨0, 0, 0, 1⟩ : Quat ℚ) ⟨0, 0, 0, -1⟩ = (0, ⟨0, 0, 0, -1⟩) := by
  refine ⟨?_, ?_, ?_, ?_, ?_⟩
  · norm_num [quat_norm_sq, quat_dot]
  · norm_num [quat_norm_sq, quat_dot]
  · norm_num [quat_dot]
  · norm_num [slerp_cos_w]
  · norm_num [slerp_sign, slerp_cos_w]

theorem slerp_sign_nonneg {α : Type} [LinearOrderedField α] (a b : Quat α) :
    0 ≤ (slerp_sign a b).1 := by
  unfold slerp_sign
  by_cases h : slerp_cos_w a b < 0
  · simp only [if_pos h]
    exact le_of_lt (neg_pos.mpr h)
  · simp only [if_neg h]
    exact not_lt.mp h

theorem slerp_sign_snd {α : Type} [LinearOrderedField α] (a b : Quat α) :
    (slerp_sign a b).2 = b ∨ (slerp_sign a b).2 = ⟨-b.c0, -b.c1, -b.c2, -b.c3⟩ := by
  unfold slerp_sign
  by_cases h : slerp_cos_w a b < 0
  · simp [h]
  · simp [h]

/-- In the great-circle branch of `slerp` the divisor `sin(w)` is positive. -/
theorem sin_arccos_pos (c : ℝ) (h0 : 0 ≤ c) (h1 : 1 - c > (epsilon : ℝ)) :
    0 < Real.sin (Real.arccos c) := by
  have heps : (0 : ℝ) < epsilon := by
    unfold epsilon
    norm_num
  rw [Real.sin_arccos]
  apply Real.sqrt_pos.mpr
  have hc : c < 1 := by linarith
  nlinarith

theorem slerp_weights_one (c : ℝ) (h0 : 0 ≤ c) :
    slerp_weights Real.arccos Real.sin c 1 = (1, 0) := by
  unfold slerp_weights
  by_cases h : 1 - c > (epsilon : ℝ)
  · have hs := sin_arccos_pos c h0 h
    simp only [if_pos h]
    rw [one_mul, sub_self, zero_mul, Real.sin_zero, zero_div, div_self (ne_of_gt hs)]
  · simp only [if_neg h]
    rw [sub_self]

theorem slerp_weights_zero (c : ℝ) (h0 : 0 ≤ c) :
    slerp_weights Real.arccos Real.sin c 0 = (0, 1) := by
  unfold slerp_weights
  by_cases h : 1 - c > (epsilon : ℝ)
  · have hs := sin_arccos_pos c h0 h
    simp only [if_pos h]
    rw [zero_mul, sub_zero, one_mul, Real.sin_zero, zero_div, div_self (ne_of_gt hs)]
  · simp only [if_neg h]
    rw [sub_zero]

/-- C6. For all quaternions `a` and `b` (in particular all unit quaternions),
with `std::acos` and `std::sin` the real arc cosine and sine, `slerp`
reproduces the endpoints: `slerp(a, b, 1) = a`, and `slerp(a, b, 0)` is the
sign-normalised `b`, which is `b` or `-b`. -/
theorem slerp_endpoints (a b : Quat ℝ) :
    slerp Real.arccos Real.sin a b 1 = a ∧
    slerp Real.arccos Real.sin a b 0 = (slerp_sign a b).2 ∧
    (slerp Real.arccos Real.sin a b 0 = b ∨
      slerp Real.arccos Real.sin a b 0 = ⟨-b.c0, -b.c1, -b.c2, -b.c3⟩) := by
  have hn := slerp_sign_nonneg a b
  have h1 : slerp Real.arccos Real.sin a b 1 = a := by
    unfold slerp
    simp only [slerp_weights_one _ hn]
    simp
  have h0 : slerp Real.arccos Real.sin a b 0 = (slerp_sign a b).2 := by
    unfold slerp
    simp only [slerp_weights_zero _ hn]
    simp
  refine ⟨h1, h0, ?_⟩
  rw [h0]
  exact slerp_sign_snd a b

/-- C7, the code at a failing input. For the unit quaternions
`a = (0,0,0,1)` and `b = (1,0,0,0)`, whose 4-component dot product is `0`,
line 44 computes `cos_w = 1`, so `slerp` takes the linear fallback; at
`alpha = 1/2` it returns `(1/2, 0, 0, 1/2)`, of squared norm `1/2`, below
`(1 - 0.0001)^2`: the norm is not within `0.0001` of `1`. This holds for every
field of scalars and every `acos` and `sin`. -/
theorem slerp_result_not_unit {α : Type} [LinearOrderedField α] (acos sin : α → α) :
    quat_norm_sq (⟨0, 0, 0, 1⟩ : Quat α) = 1 ∧
    quat_norm_sq (⟨1, 0, 0, 0⟩ : Quat α) = 1 ∧
    quat_dot (⟨0, 0, 0, 1⟩ : Quat α) ⟨1, 0, 0, 0⟩ = 0 ∧
    slerp_cos_w (⟨0, 0, 0, 1⟩ : Quat α) ⟨1, 0, 0, 0⟩ = 1 ∧
    slerp acos sin ⟨0, 0, 0, 1⟩ ⟨1, 0, 0, 0⟩ (1 / 2) = ⟨1 / 2, 0, 0, 1 / 2⟩ ∧
    quat_norm_sq (slerp acos sin ⟨0, 0, 0, 1⟩ ⟨1, 0, 0, 0⟩ (1 / 2)) = 1 / 2 ∧
    quat_norm_sq (slerp acos sin ⟨0, 0, 0, 1⟩ ⟨1, 0, 0, 0⟩ (1 / 2))
      < (1 - 1 / 10000) ^ 2 := by
  have hs : slerp acos sin (⟨0, 0, 0, 1⟩ : Quat α) ⟨1, 0, 0, 0⟩ (1 / 2)
      = ⟨1 / 2, 0, 0, 1 / 2⟩ := by
    have hc : slerp_sign (⟨0, 0, 0, 1⟩ : Quat α) ⟨1, 0, 0, 0⟩ = (1, ⟨1, 0, 0, 0⟩) := by
      norm_num [slerp_sign, slerp_cos_w]
    have hw : slerp_weights acos sin (1 : α) (1 / 2) = (1 / 2, 1 - 1 / 2) := by
      unfold slerp_weights
      rw [if_neg]
      norm_num [epsilon]
    unfold slerp
    simp only [hc, hw]
    norm_num
  refine ⟨?_, ?_, ?_, ?_, hs, ?_, ?_⟩
  · norm_num [quat_norm_sq, quat_dot]
  · norm_num [quat_norm_sq, quat_dot]
  · norm_num [quat_dot]
  · norm_num [slerp_cos_w]
  · rw [hs]
    norm_num [quat_norm_sq, quat_dot]
  · rw [hs]
    norm_num [quat_norm_sq, quat_dot]

/-! ## The keyframe insertion of `Animation::load` -/

theorem insert_keyframe_nil {α : Type} (k : Keyframe α) : insert_keyframe [] k = [k] := rfl

/-- The insertion, read along the list: keyframes earlier than the new one are
passed over, then the new keyframe overwrites one of equal time or is put in
front of the first later one. -/
theorem insert_keyframe_cons {α : Type} (x : Keyframe α) (xs : List (Keyframe α))
    (k : Keyframe α) :
    insert_keyframe (x :: xs) k =
      if x.t < k.t then x :: insert_keyframe xs k
      else if x.t = k.t then k :: xs
      else k :: x :: xs := by
  unfold insert_keyframe
  by_cases h : x.t < k.t
  · have hi : insert_index (x :: xs) k.t = insert_index xs k.t + 1 := by
      simp [insert_index, h]
    simp only [hi, if_pos h, List.getElem?_cons_succ]
    cases hx : xs[insert_index xs k.t]? with
    | none => simp
    | some y =>
      by_cases hy : y.t = k.t
      · simp [hy]
      · simp [hy]
  · have hi : insert_index (x :: xs) k.t = 0 := by
      simp [insert_index, h]
    simp only [hi, if_neg h, List.getElem?_cons_zero]
    by_cases hx : x.t = k.t
    · simp [hx]
    · simp [hx]

theorem mem_insert_keyframe {α : Type} (keyframes : List (Keyframe α)) (k y : Keyframe α)
    (h : y ∈ insert_keyframe keyframes k) : y = k ∨ y ∈ keyframes := by
  induction keyframes with
  | nil =>
    rw [insert_keyframe_nil] at h
    exact Or.inl (List.mem_singleton.mp h)
  | cons x xs ih =>
    rw [insert_keyframe_cons] at h
    by_cases h1 : x.t < k.t
    · rw [if_pos h1] at h
      rcases List.mem_cons.mp h with h | h
      · exact Or.inr (by rw [h]; exact List.mem_cons_self _ _)
      · rcases ih h with h | h
        · exact Or.inl h
        · exact Or.inr (List.mem_cons_of_mem _ h)
    · rw [if_neg h1] at h
      by_cases h2 : x.t = k.t
      · rw [if_pos h2] at h
        rcases List.mem_cons.mp h with h | h
        · exact Or.inl h
        · exact Or.inr (List.mem_cons_of_mem _ h)
      · rw [if_neg h2] at h
        rcases List.mem_cons.mp h with h | h
        · exact Or.inl h
        · exact Or.inr h

/-- The insertion keeps a track strictly ascending. -/
theorem insert_keyframe_ascending {α : Type} (keyframes : List (Keyframe α))
    (k : Keyframe α) (hasc : ascending keyframes) :
    ascending (insert_keyframe keyframes k) := by
  induction keyframes with
  | nil =>
    rw [insert_keyframe_nil]
    exact List.pairwise_singleton _ _
  | cons x xs ih =>
    unfold ascending at hasc
    rw [List.pairwise_cons] at hasc
    obtain ⟨hx, hxs⟩ := hasc
    rw [insert_keyframe_cons]
    by_cases h1 : x.t < k.t
    · rw [if_pos h1]
      unfold ascending
      rw [List.pairwise_cons]
      refine ⟨?_, ih hxs⟩
      intro y hy
      rcases mem_insert_keyframe xs k y hy with h | h
      · rw [h]
        exact h1
      · exact hx y h
    · rw [if_neg h1]
      by_cases h2 : x.t = k.t
      · rw [if_pos h2]
        unfold ascending
        rw [List.pairwise_cons]
        refine ⟨?_, hxs⟩
        intro y hy
        rw [← h2]
        exact hx y hy
      · rw [if_neg h2]
        have hlt : k.t < x.t := by omega
        unfold ascending
        rw [List.pairwise_cons, List.pairwise_cons]
        refine ⟨?_, hx, hxs⟩
        intro y hy
        rcases List.mem_cons.mp hy with h | h
        · rw [h]
          exact hlt
        · exact lt_trans hlt (hx y h)

theorem load_line_ascending {α : Type} (keyframe_of : List Char → Option (Keyframe α))
    (newanimation : List (Keyframe α)) (linebuf : List Char)
    (hasc : ascending newanimation) :
    ascending (load_line keyframe_of newanimation linebuf) := by
  unfold load_line
  by_cases h : is_ignored linebuf = true
  · rw [if_pos h]
    exact hasc
  · rw [if_neg h]
    cases keyframe_of linebuf with
    | none => exact hasc
    | some k => exact insert_keyframe_ascending newanimation k hasc

theorem load_body_ascending {α : Type} (keyframe_of : List Char → Option (Keyframe α))
    (lines : List (List Char)) :
    ∀ newanimation : List (Keyframe α), ascending newanimation →
      ascending (load_body keyframe_of newanimation lines) := by
  induction lines with
  | nil =>
    intro newanimation hasc
    exact hasc
  | cons l ls ih =>
    intro newanimation hasc
    exact ih _ (load_line_ascending keyframe_of newanimation l hasc)

theorem ascending_nil {α : Type} : ascending ([] : List (Keyframe α)) := List.Pairwise.nil

theorem ascending_nodup {α : Type} (keyframes : List (Keyframe α))
    (hasc : ascending keyframes) : (keyframes.map (fun k => k.t)).Nodup := by
  unfold List.Nodup
  rw [List.pairwise_map]
  exact List.Pairwise.imp (fun h => ne_of_lt h) hasc

/-! ## Claims about `Animation::load` -/

theorem load_of_fopen_none {α : Type} (scanner : Scanner α) (fopen : String → Option File)
    (self : Animation α) (filename : String) (hf : fopen filename = none) :
    Animation.load scanner fopen self filename = (.error .cannot_open, self) := by
  unfold Animation.load
  simp only [hf]

theorem load_of_header_none {α : Type} (scanner : Scanner α) (fopen : String → Option File)
    (self : Animation α) (filename : String) (f : File) (hf : fopen filename = some f)
    (hh : read_header scanner.sscanf_d f.lines = none) :
    Animation.load scanner fopen self filename = (.error .not_valid, self) := by
  unfold Animation.load
  simp only [hf, hh]

theorem load_of_header_some {α : Type} (scanner : Scanner α) (fopen : String → Option File)
    (self : Animation α) (filename : String) (f : File) (version : Int)
    (hf : fopen filename = some f)
    (hh : read_header scanner.sscanf_d f.lines = some version) :
    Animation.load scanner fopen self filename =
      if f.error then (.error .cannot_read, self)
      else (.ok (), ⟨if version = 1 then load_body scanner.keyframe_v1 [] f.lines.tail
        else load_body scanner.keyframe_v2 [] f.lines.tail⟩) := by
  unfold Animation.load
  simp only [hf, hh]

theorem load_ok_track {α : Type} (scanner : Scanner α) (fopen : String → Option File)
    (self self1 : Animation α) (filename : String)
    (h : Animation.load scanner fopen self filename = (.ok (), self1)) :
    ∃ (f : File) (keyframe_of : List Char → Option (Keyframe α)),
      fopen filename = some f ∧ f.error = false ∧
      (∃ version, read_header scanner.sscanf_d f.lines = some version) ∧
      self1.keyframes = load_body keyframe_of [] f.lines.tail := by
  cases hf : fopen filename with
  | none =>
    rw [load_of_fopen_none scanner fopen self filename hf] at h
    cases h
  | some f =>
    cases hh : read_header scanner.sscanf_d f.lines with
    | none =>
      rw [load_of_header_none scanner fopen self filename f hf hh] at h
      cases h
    | some version =>
      rw [load_of_header_some scanner fopen self filename f version hf hh] at h
      cases he : f.error with
      | true =>
        rw [he, if_pos rfl] at h
        cases h
      | false =>
        rw [he, if_neg (by decide)] at h
        injection h with _ h2
        by_cases hv : version = 1
        · rw [if_pos hv] at h2
          exact ⟨f, scanner.keyframe_v1, rfl, he, ⟨version, hh⟩, by rw [← h2]⟩
        · rw [if_neg hv] at h2
          exact ⟨f, scanner.keyframe_v2, rfl, he, ⟨version, hh⟩, by rw [← h2]⟩

/-- C8. For every file body, read by the version-1 or the version-2 loop
(any line reader `keyframe_of`, any sequence of lines), the scratch track is
strictly ascending after each processed line, so its keyframe times are
pairwise distinct; hence every track installed by a successful
`Animation::load` is strictly ascending, with pairwise distinct times. -/
theorem load_keeps_ascending {α : Type} (scanner : Scanner α)
    (fopen : String → Option File) (self : Animation α) (filename : String) :
    (∀ (keyframe_of : List Char → Option (Keyframe α)) (lines : List (List Char)) (n : Nat),
      ascending (load_body keyframe_of [] (lines.take n)) ∧
      ((load_body keyframe_of [] (lines.take n)).map (fun k => k.t)).Nodup) ∧
    (∀ self1 : Animation α,
      Animation.load scanner fopen self filename = (.ok (), self1) →
      ascending self1.keyframes ∧ (self1.keyframes.map (fun k => k.t)).Nodup) := by
  have hbody : ∀ (keyframe_of : List Char → Option (Keyframe α)) (lines : List (List Char)),
      ascending (load_body keyframe_of [] lines) :=
    fun keyframe_of lines => load_body_ascending keyframe_of lines [] ascending_nil
  constructor
  · intro keyframe_of lines n
    exact ⟨hbody _ _, ascending_nodup _ (hbody _ _)⟩
  · intro self1 h
    obtain ⟨f, keyframe_of, _, _, _, htrack⟩ := load_ok_track scanner fopen self self1 filename h
    rw [htrack]
    exact ⟨hbody _ _, ascending_nodup _ (hbody _ _)⟩

theorem sample_load :
    Animation.load sample_scanner sample_fopen sample_track "animation.txt" =
      (.ok (), ⟨[⟨0, ⟨0, 0, 0⟩, ⟨0, 0, 0, 1⟩⟩, ⟨1000000, ⟨5, 5, 5⟩, ⟨0, 0, 0, 1⟩⟩,
        ⟨2000000, ⟨1, 0, 0⟩, ⟨0, 0, 0, 1⟩⟩]⟩) := by
  decide

theorem load_keeps_ascending_witness :
    Animation.load sample_scanner sample_fopen sample_track "animation.txt" =
      (.ok (), ⟨[⟨0, ⟨0, 0, 0⟩, ⟨0, 0, 0, 1⟩⟩, ⟨1000000, ⟨5, 5, 5⟩, ⟨0, 0, 0, 1⟩⟩,
        ⟨2000000, ⟨1, 0, 0⟩, ⟨0, 0, 0, 1⟩⟩]⟩) ∧
    ascending ([⟨0, ⟨0, 0, 0⟩, ⟨0, 0, 0, 1⟩⟩, ⟨1000000, ⟨5, 5, 5⟩, ⟨0, 0, 0, 1⟩⟩,
        ⟨2000000, ⟨1, 0, 0⟩, ⟨0, 0, 0, 1⟩⟩] : List (Keyframe ℚ)) ∧
    ascending (load_body sample_scanner.keyframe_v1 [] (sample_file.lines.tail.take 3)) :=
  ⟨sample_load,
   ((load_keeps_ascending sample_scanner sample_fopen sample_track "animation.txt").2
      _ sample_load).1,
   ((load_keeps_ascending sample_scanner sample_fopen sample_track "animation.txt").1
      sample_scanner.keyframe_v1 sample_file.lines.tail 3).1⟩

theorem first_with_time_cons {α : Type} (x : Keyframe α) (xs : List (Keyframe α)) (t : Int) :
    first_with_time (x :: xs) t = if x.t = t then some x else first_with_time xs t := by
  unfold first_with_time
  by_cases h : x.t = t
  · rw [if_pos h, List.find?_cons_of_pos]
    exact decide_eq_true h
  · rw [if_neg h, List.find?_cons_of_neg]
    simpa using h

/-- Looking a time up after an insertion: the new keyframe at its own time,
the old answer at every other time. -/
theorem first_with_time_insert {α : Type} (keyframes : List (Keyframe α))
    (k : Keyframe α) (t : Int) :
    first_with_time (insert_keyframe keyframes k) t =
      if k.t = t then some k else first_with_time keyframes t := by
  induction keyframes with
  | nil =>
    rw [insert_keyframe_nil, first_with_time_cons]
  | cons x xs ih =>
    rw [insert_keyframe_cons]
    by_cases h1 : x.t < k.t
    · rw [if_pos h1, first_with_time_cons, ih, first_with_time_cons]
      by_cases hx : x.t = t
      · rw [if_pos hx, if_neg (by omega), if_pos hx]
      · rw [if_neg hx, if_neg hx]
    · rw [if_neg h1]
      by_cases h2 : x.t = k.t
      · rw [if_pos h2, first_with_time_cons, first_with_time_cons]
        by_cases hk : k.t = t
        · rw [if_pos hk, if_pos hk]
        · rw [if_neg hk, if_neg hk, if_neg (by omega)]
      · rw [if_neg h2, first_with_time_cons]

theorem load_body_eq_foldl {α : Type} (keyframe_of : List Char → Option (Keyframe α))
    (lines : List (List Char)) :
    ∀ newanimation : List (Keyframe α),
      load_body keyframe_of newanimation lines =
        (valid_keyframes keyframe_of lines).foldl insert_keyframe newanimation := by
  induction lines with
  | nil =>
    intro newanimation
    rfl
  | cons l ls ih =>
    intro newanimation
    show load_body keyframe_of (load_line keyframe_of newanimation l) ls = _
    rw [ih]
    unfold valid_keyframes load_line
    by_cases h : is_ignored l = true
    · simp [h]
    · cases hk : keyframe_of l with
      | none => simp [h, hk]
      | some k => simp [h, hk]

theorem first_with_time_foldl {α : Type} (ks : List (Keyframe α)) (t : Int) :
    ∀ keyframes : List (Keyframe α),
      first_with_time (ks.foldl insert_keyframe keyframes) t =
        (last_with_time ks t).or (first_with_time keyframes t) := by
  induction ks with
  | nil =>
    intro keyframes
    simp [last_with_time, first_with_time]
  | cons k ks ih =>
    intro keyframes
    rw [List.foldl_cons, ih, first_with_time_insert]
    have hl : last_with_time (k :: ks) t =
        (last_with_time ks t).or (if k.t = t then some k else none) := by
      unfold last_with_time
      rw [List.reverse_cons]
      unfold first_with_time
      rw [List.find?_append]
      congr 1
      by_cases hk : k.t = t
      · simp [hk]
      · simp [hk]
    rw [hl]
    cases last_with_time ks t with
    | some y => simp
    | none =>
      by_cases hk : k.t = t
      · simp [hk]
      · simp [hk]

theorem mem_iff_first_with_time {α : Type} (keyframes : List (Keyframe α))
    (hasc : ascending keyframes) (k : Keyframe α) :
    k ∈ keyframes ↔ first_with_time keyframes k.t = some k := by
  constructor
  · intro hk
    induction keyframes with
    | nil => cases hk
    | cons x xs ih =>
      unfold ascending at hasc
      rw [List.pairwise_cons] at hasc
      rw [first_with_time_cons]
      rcases List.mem_cons.mp hk with h | h
      · rw [h, if_pos rfl]
      · have := hasc.1 k h
        rw [if_neg (by omega)]
        exact ih hasc.2 h
  · intro h
    exact List.mem_of_find?_eq_some h

theorem insert_index_le {α : Type} (keyframes : List (Keyframe α)) (t : Int) :
    insert_index keyframes t ≤ keyframes.length := by
  induction keyframes with
  | nil => exact Nat.le_refl _
  | cons x xs ih =>
    unfold insert_index
    by_cases h : x.t < t
    · rw [if_pos h]
      simp only [List.length_cons]
      omega
    · rw [if_neg h]
      omega

theorem insert_index_of_time {α : Type} (keyframes : List (Keyframe α))
    (hasc : ascending keyframes) (t : Int) :
    ∀ (i : Nat) (old : Keyframe α), keyframes[i]? = some old → old.t = t →
      insert_index keyframes t = i := by
  induction keyframes with
  | nil =>
    intro i old h
    cases h
  | cons x xs ih =>
    intro i old h ht
    unfold ascending at hasc
    rw [List.pairwise_cons] at hasc
    unfold insert_index
    cases i with
    | zero =>
      rw [List.getElem?_cons_zero] at h
      injection h with h
      rw [if_neg (by rw [h]; omega)]
    | succ j =>
      rw [List.getElem?_cons_succ] at h
      have hmem : old ∈ xs := List.mem_iff_getElem?.mpr ⟨j, h⟩
      have := hasc.1 old hmem
      rw [if_pos (by omega), ih hasc.2 j old h ht]

theorem insert_keyframe_new {α : Type} (keyframes : List (Keyframe α)) (k : Keyframe α)
    (hnew : ∀ x ∈ keyframes, x.t ≠ k.t) :
    insert_keyframe keyframes k = keyframes.insertIdx (insert_index keyframes k.t) k := by
  unfold insert_keyframe
  cases hx : keyframes[insert_index keyframes k.t]? with
  | none => simp only [hx]
  | some y =>
    have hmem : y ∈ keyframes := List.mem_iff_getElem?.mpr ⟨_, hx⟩
    simp only [hx, if_neg (hnew y hmem)]

/-- C9. On a strictly ascending track (as every scratch track of
`Animation::load` is), inserting a keyframe `k` whose time equals that of the
keyframe at index `i` overwrites that entry in place: the length is
unchanged, entry `i` is `k`, every other entry is unchanged. Inserting a
keyframe with a new time grows the track by one, at some index `i`, and
removing entry `i` again gives back the old track, so the old keyframes and
their order are unchanged. Consequently the track loaded from any body lines
is strictly ascending, holds a keyframe for every time of a valid line, and
holds exactly the keyframes that are the last valid line of their time. -/
theorem insert_overwrites_or_grows {α : Type} (keyframes : List (Keyframe α))
    (k : Keyframe α) (hasc : ascending keyframes) :
    (∀ (i : Nat) (old : Keyframe α), keyframes[i]? = some old → old.t = k.t →
      insert_keyframe keyframes k = keyframes.set i k ∧
      (insert_keyframe keyframes k).length = keyframes.length ∧
      (insert_keyframe keyframes k)[i]? = some k ∧
      ∀ j, j ≠ i → (insert_keyframe keyframes k)[j]? = keyframes[j]?) ∧
    ((∀ x ∈ keyframes, x.t ≠ k.t) →
      (insert_keyframe keyframes k).length = keyframes.length + 1 ∧
      ∃ i, i ≤ keyframes.length ∧
        insert_keyframe keyframes k = keyframes.insertIdx i k ∧
        (insert_keyframe keyframes k)[i]? = some k ∧
        (insert_keyframe keyframes k).eraseIdx i = keyframes) ∧
    (∀ (keyframe_of : List Char → Option (Keyframe α)) (lines : List (List Char)),
      ascending (load_body keyframe_of [] lines) ∧
      (∀ y ∈ valid_keyframes keyframe_of lines,
        ∃ x ∈ load_body keyframe_of [] lines, x.t = y.t) ∧
      (∀ x, x ∈ load_body keyframe_of [] lines ↔
        last_with_time (valid_keyframes keyframe_of lines) x.t = some x)) := by
  refine ⟨?_, ?_, ?_⟩
  · intro i old hold ht
    have hi := insert_index_of_time keyframes hasc k.t i old hold ht
    have hilt : i < keyframes.length := (List.getElem?_eq_some_iff.mp hold).1
    have hset : insert_keyframe keyframes k = keyframes.set i k := by
      unfold insert_keyframe
      simp only [hi, hold, if_pos ht]
    rw [hset]
    refine ⟨rfl, List.length_set _ _ _, ?_, ?_⟩
    · rw [List.getElem?_set, if_pos rfl, if_pos hilt]
    · intro j hj
      rw [List.getElem?_set, if_neg (fun h => hj h.symm)]
  · intro hnew
    have hle := insert_index_le keyframes k.t
    have hins := insert_keyframe_new keyframes k hnew
    rw [hins]
    refine ⟨List.length_insertIdx _ _ hle, insert_index keyframes k.t, hle, rfl, ?_,
      List.eraseIdx_insertIdx _ _⟩
    have hlt : insert_index keyframes k.t
        < (List.insertIdx (insert_index keyframes k.t) k keyframes).length := by
      rw [List.length_insertIdx _ _ hle]
      omega
    rw [List.getElem?_eq_getElem hlt, List.getElem_insertIdx_self _ _ _ hle]
  · intro keyframe_of lines
    have hA : ascending (load_body keyframe_of [] lines) :=
      load_body_ascending keyframe_of lines [] ascending_nil
    have hlook : ∀ t, first_with_time (load_body keyframe_of [] lines) t =
        last_with_time (valid_keyframes keyframe_of lines) t := by
      intro t
      rw [load_body_eq_foldl, first_with_time_foldl]
      simp [first_with_time]
    have hiff : ∀ x, x ∈ load_body keyframe_of [] lines ↔
        last_with_time (valid_keyframes keyframe_of lines) x.t = some x := by
      intro x
      rw [mem_iff_first_with_time _ hA, hlook]
    refine ⟨hA, ?_, hiff⟩
    intro y hy
    cases hl : last_with_time (valid_keyframes keyframe_of lines) y.t with
    | none =>
      exfalso
      unfold last_with_time first_with_time at hl
      rw [List.find?_eq_none] at hl
      have := hl y (List.mem_reverse.mpr hy)
      simp at this
    | some x =>
      have hxt : x.t = y.t := by
        unfold last_with_time first_with_time at hl
        have := List.find?_some hl
        simpa using this
      refine ⟨x, ?_, hxt⟩
      rw [hiff, hxt]
      exact hl

theorem insert_overwrites_or_grows_witness :
    ascending sample_track.keyframes ∧
    insert_keyframe sample_track.keyframes ⟨20, ⟨9, 9, 9⟩, ⟨0, 0, 0, 1⟩⟩
      = sample_track.keyframes.set 2 ⟨20, ⟨9, 9, 9⟩, ⟨0, 0, 0, 1⟩⟩ ∧
    load_body sample_scanner.keyframe_v1 [] sample_file.lines.tail
      = [⟨0, ⟨0, 0, 0⟩, ⟨0, 0, 0, 1⟩⟩, ⟨1000000, ⟨5, 5, 5⟩, ⟨0, 0, 0, 1⟩⟩,
         ⟨2000000, ⟨1, 0, 0⟩, ⟨0, 0, 0, 1⟩⟩] ∧
    ascending (load_body sample_scanner.keyframe_v1 [] sample_file.lines.tail) :=
  have h := insert_overwrites_or_grows sample_track.keyframes
    ⟨20, ⟨9, 9, 9⟩, ⟨0, 0, 0, 1⟩⟩ (by decide)
  ⟨by decide, (h.1 2 ⟨20, ⟨5, 0, 1⟩, ⟨0, 1, 0, 0⟩⟩ rfl rfl).1, by decide,
   (h.2.2 sample_scanner.keyframe_v1 sample_file.lines.tail).1⟩

theorem read_header_cons_eq_none_iff (sscanf_d : List Char → List Char → Option Int)
    (linebuf : List Char) (rest : List (List Char)) :
    read_header sscanf_d (linebuf :: rest) = none ↔
      ((sscanf_d "PMDSIM ANIMATION VERSION %d".toList linebuf = none ∧
          sscanf_d "PMDSIMTAP ANIMATION VERSION %d".toList linebuf = none) ∨
        (∃ n, (sscanf_d "PMDSIM ANIMATION VERSION %d".toList linebuf = some n ∨
            (sscanf_d "PMDSIM ANIMATION VERSION %d".toList linebuf = none ∧
              sscanf_d "PMDSIMTAP ANIMATION VERSION %d".toList linebuf = some n)) ∧
          n ≠ 1 ∧ n ≠ 2)) := by
  unfold read_header
  dsimp only
  generalize sscanf_d "PMDSIM ANIMATION VERSION %d".toList linebuf = r1
  generalize sscanf_d "PMDSIMTAP ANIMATION VERSION %d".toList linebuf = r2
  cases r1 with
  | some n =>
    by_cases hn : n ≠ 1 ∧ n ≠ 2
    · simp [hn]
    · simp only [if_neg hn]
      simp
      intro h2
      by_contra h3
      exact hn ⟨h2, h3⟩
  | none =>
    cases r2 with
    | none => simp
    | some n =>
      by_cases hn : n ≠ 1 ∧ n ≠ 2
      · simp [hn]
      · simp only [if_neg hn]
        simp
        intro h2
        by_contra h3
        exact hn ⟨h2, h3⟩

theorem read_header_eq_none_iff (sscanf_d : List Char → List Char → Option Int)
    (lines : List (List Char)) :
    read_header sscanf_d lines = none ↔
      lines = [] ∨
      ∃ linebuf rest, lines = linebuf :: rest ∧
        ((sscanf_d "PMDSIM ANIMATION VERSION %d".toList linebuf = none ∧
            sscanf_d "PMDSIMTAP ANIMATION VERSION %d".toList linebuf = none) ∨
          (∃ n, (sscanf_d "PMDSIM ANIMATION VERSION %d".toList linebuf = some n ∨
              (sscanf_d "PMDSIM ANIMATION VERSION %d".toList linebuf = none ∧
                sscanf_d "PMDSIMTAP ANIMATION VERSION %d".toList linebuf = some n)) ∧
            n ≠ 1 ∧ n ≠ 2)) := by
  cases lines with
  | nil =>
    constructor
    · intro _
      exact Or.inl rfl
    · intro _
      rfl
  | cons linebuf rest =>
    rw [read_header_cons_eq_none_iff]
    constructor
    · intro h
      exact Or.inr ⟨linebuf, rest, rfl, h⟩
    · intro h
      rcases h with h | ⟨l, r, heq, h⟩
      · cases h
      · injection heq with h1 h2
        subst h1
        exact h

/-- C10. `Animation::load` fails exactly when the file cannot be opened, the
header test fails (the first line is missing, or neither `sscanf` reads a
version from it, or the version read is neither 1 nor 2), or a read error is
flagged; every such case raises an error, a header mismatch always does; and
whenever `load` raises an error the track is what it was before the call. -/
theorem load_failure_keeps_track {α : Type} (scanner : Scanner α)
    (fopen : String → Option File) (self : Animation α) (filename : String) :
    (∀ (e : LoadError) (self1 : Animation α),
      Animation.load scanner fopen self filename = (.error e, self1) → self1 = self) ∧
    (fopen filename = none →
      Animation.load scanner fopen self filename = (.error .cannot_open, self)) ∧
    (∀ f, fopen filename = some f → read_header scanner.sscanf_d f.lines = none →
      Animation.load scanner fopen self filename = (.error .not_valid, self)) ∧
    (∀ f, fopen filename = some f → f.error = true →
      ∃ e, Animation.load scanner fopen self filename = (.error e, self)) ∧
    ((∃ e, (Animation.load scanner fopen self filename).1 = .error e) ↔
      (fopen filename = none ∨
        ∃ f, fopen filename = some f ∧
          (read_header scanner.sscanf_d f.lines = none ∨ f.error = true))) ∧
    (∀ lines : List (List Char), read_header scanner.sscanf_d lines = none ↔
      lines = [] ∨
      ∃ linebuf rest, lines = linebuf :: rest ∧
        ((scanner.sscanf_d "PMDSIM ANIMATION VERSION %d".toList linebuf = none ∧
            scanner.sscanf_d "PMDSIMTAP ANIMATION VERSION %d".toList linebuf = none) ∨
          (∃ n, (scanner.sscanf_d "PMDSIM ANIMATION VERSION %d".toList linebuf = some n ∨
              (scanner.sscanf_d "PMDSIM ANIMATION VERSION %d".toList linebuf = none ∧
                scanner.sscanf_d "PMDSIMTAP ANIMATION VERSION %d".toList linebuf = some n)) ∧
            n ≠ 1 ∧ n ≠ 2))) := by
  refine ⟨?_, ?_, ?_, ?_, ?_, ?_⟩
  · intro e self1 h
    cases hf : fopen filename with
    | none =>
      rw [load_of_fopen_none scanner fopen self filename hf] at h
      injection h with _ h2
      exact h2.symm
    | some f =>
      cases hh : read_header scanner.sscanf_d f.lines with
      | none =>
        rw [load_of_header_none scanner fopen self filename f hf hh] at h
        injection h with _ h2
        exact h2.symm
      | some version =>
        rw [load_of_header_some scanner fopen self filename f version hf hh] at h
        cases he : f.error with
        | true =>
          rw [he, if_pos rfl] at h
          injection h with _ h2
          exact h2.symm
        | false =>
          rw [he, if_neg (by decide)] at h
          injection h with h1 _
          cases h1
  · exact load_of_fopen_none scanner fopen self filename
  · exact load_of_header_none scanner fopen self filename
  · intro f hf he
    cases hh : read_header scanner.sscanf_d f.lines with
    | none => exact ⟨_, load_of_header_none scanner fopen self filename f hf hh⟩
    | some version =>
      refine ⟨.cannot_read, ?_⟩
      rw [load_of_header_some scanner fopen self filename f version hf hh, he, if_pos rfl]
  · cases hf : fopen filename with
    | none =>
      rw [load_of_fopen_none scanner fopen self filename hf]
      simp
    | some f =>
      cases hh : read_header scanner.sscanf_d f.lines with
      | none =>
        rw [load_of_header_none scanner fopen self filename f hf hh]
        simp [hh]
      | some version =>
        rw [load_of_header_some scanner fopen self filename f version hf hh]
        cases he : f.error with
        | true => simp [he]
        | false => simp [he, hh]
  · exact read_header_eq_none_iff scanner.sscanf_d

theorem load_failure_keeps_track_witness :
    Animation.load sample_scanner sample_fopen sample_track "bad.txt"
      = (.error .not_valid, sample_track) ∧
    Animation.load sample_scanner sample_fopen sample_track "missing.txt"
      = (.error .cannot_open, sample_track) :=
  have h := load_failure_keeps_track sample_scanner sample_fopen sample_track
  ⟨(h "bad.txt").2.2.1 bad_file (by decide) (by decide), (h "missing.txt").2.1 (by decide)⟩

/-! ## Claims about the rotations read by `Animation::load` -/

theorem dot_self_nonneg {α : Type} [LinearOrderedField α] (v : Vec3 α) : 0 ≤ dot v v := by
  unfold dot
  nlinarith [mul_self_nonneg v.c0, mul_self_nonneg v.c1, mul_self_nonneg v.c2]

theorem epsilon_pos {α : Type} [LinearOrderedField α] : (0 : α) < epsilon := by
  unfold epsilon
  norm_num

/-- C13. With the real square root, sine and cosine, `angle_axis_to_quat`
returns a quaternion of norm exactly 1 for every angle and every axis: when
`|angle| > 0.0001` and the axis length is above `0.0001` it is
`(axis/|axis| * sin(angle/2), cos(angle/2))` in `(x, y, z, w)` order and the
divisor `|axis|` is positive, otherwise it is the identity `(0, 0, 0, 1)`. -/
theorem angle_axis_to_quat_unit (acos : ℝ → ℝ) (pi : ℝ) (angle : ℝ) (axis : Vec3 ℝ) :
    quat_norm_sq (angle_axis_to_quat ⟨acos, Real.sin, Real.cos, Real.sqrt, pi⟩ angle axis) = 1 ∧
    (|angle| > epsilon ∧ Real.sqrt (dot axis axis) > epsilon →
      0 < Real.sqrt (dot axis axis) ∧
      angle_axis_to_quat ⟨acos, Real.sin, Real.cos, Real.sqrt, pi⟩ angle axis =
        ⟨axis.c0 / Real.sqrt (dot axis axis) * Real.sin (angle / 2),
         axis.c1 / Real.sqrt (dot axis axis) * Real.sin (angle / 2),
         axis.c2 / Real.sqrt (dot axis axis) * Real.sin (angle / 2),
         Real.cos (angle / 2)⟩) ∧
    (¬ (|angle| > epsilon ∧ Real.sqrt (dot axis axis) > epsilon) →
      angle_axis_to_quat ⟨acos, Real.sin, Real.cos, Real.sqrt, pi⟩ angle axis
        = ⟨0, 0, 0, 1⟩) := by
  have heps : (0 : ℝ) < epsilon := epsilon_pos
  by_cases h : |angle| ≤ epsilon ∨ Real.sqrt (dot axis axis) ≤ epsilon
  · have hq : angle_axis_to_quat ⟨acos, Real.sin, Real.cos, Real.sqrt, pi⟩ angle axis
        = ⟨0, 0, 0, 1⟩ := by
      unfold angle_axis_to_quat
      simp only [if_pos h]
    refine ⟨?_, ?_, fun _ => hq⟩
    · rw [hq]
      norm_num [quat_norm_sq, quat_dot]
    · intro hc
      exfalso
      rcases h with h | h
      · exact absurd hc.1 (not_lt.mpr h)
      · exact absurd hc.2 (not_lt.mpr h)
  · have hq : angle_axis_to_quat ⟨acos, Real.sin, Real.cos, Real.sqrt, pi⟩ angle axis =
        ⟨axis.c0 / Real.sqrt (dot axis axis) * Real.sin (angle / 2),
         axis.c1 / Real.sqrt (dot axis axis) * Real.sin (angle / 2),
         axis.c2 / Real.sqrt (dot axis axis) * Real.sin (angle / 2),
         Real.cos (angle / 2)⟩ := by
      unfold angle_axis_to_quat
      simp only [if_neg h]
    have hL : epsilon < Real.sqrt (dot axis axis) := by
      by_contra hcon
      exact h (Or.inr (not_lt.mp hcon))
    have hLpos : 0 < Real.sqrt (dot axis axis) := lt_trans heps hL
    refine ⟨?_, fun _ => ⟨hLpos, hq⟩, ?_⟩
    · rw [hq]
      have hsq : Real.sqrt (dot axis axis) ^ 2 = dot axis axis :=
        Real.sq_sqrt (dot_self_nonneg axis)
      have hd : dot axis axis = axis.c0 * axis.c0 + axis.c1 * axis.c1 + axis.c2 * axis.c2 := rfl
      have hsc := Real.sin_sq_add_cos_sq (angle / 2)
      unfold quat_norm_sq quat_dot
      simp only
      have hne : Real.sqrt (dot axis axis) ≠ 0 := ne_of_gt hLpos
      field_simp
      nlinarith [hsq, hd, hsc]
    · intro hc
      exfalso
      apply hc
      constructor
      · by_contra hcon
        exact h (Or.inl (not_lt.mp hcon))
      · exact hL

/-- The function `quat_mult` is the Hamilton product. -/
theorem quat_mult_hamilton {α : Type} [LinearOrderedField α] (a b : Quat α) :
    to_quaternion (quat_mult a b) = to_quaternion a * to_quaternion b := by
  apply Quaternion.ext
  · simp only [to_quaternion, quat_mult, Quaternion.mul_re]
  · simp only [to_quaternion, quat_mult, Quaternion.mul_imI]
  · simp only [to_quaternion, quat_mult, Quaternion.mul_imJ]
    ring
  · simp only [to_quaternion, quat_mult, Quaternion.mul_imK]
    ring

/-- The rotation by a unit quaternion `(u * s, c)`, written out. -/
theorem quat_rotate_formula {α : Type} [LinearOrderedField α] (u v : Vec3 α) (s c : α)
    (hN : s ^ 2 * dot u u + c ^ 2 = 1) :
    quat_rotate ⟨u.c0 * s, u.c1 * s, u.c2 * s, c⟩ v =
      ⟨(c ^ 2 - s ^ 2 * dot u u) * v.c0 + 2 * s * c * (cross u v).c0
          + 2 * s ^ 2 * dot u v * u.c0,
       (c ^ 2 - s ^ 2 * dot u u) * v.c1 + 2 * s * c * (cross u v).c1
          + 2 * s ^ 2 * dot u v * u.c1,
       (c ^ 2 - s ^ 2 * dot u u) * v.c2 + 2 * s * c * (cross u v).c2
          + 2 * s ^ 2 * dot u v * u.c2,
       0⟩ := by
  have hn : quat_norm_sq (⟨u.c0 * s, u.c1 * s, u.c2 * s, c⟩ : Quat α) = 1 := by
    unfold quat_norm_sq quat_dot
    unfold dot at hN
    simp only
    linear_combination hN
  unfold quat_rotate quat_inv
  rw [hn]
  simp only [div_one]
  unfold quat_mult pure_quat dot cross
  simp only [Quat.mk.injEq]
  refine ⟨?_, ?_, ?_, ?_⟩ <;> ring

theorem cross_dot_left {α : Type} [LinearOrderedField α] (o n : Vec3 α) :
    dot (cross o n) o = 0 := by
  unfold dot cross
  simp only
  ring

theorem lagrange_identity {α : Type} [LinearOrderedField α] (o n : Vec3 α) :
    dot (cross o n) (cross o n) = dot o o * dot n n - dot o n ^ 2 := by
  unfold dot cross
  simp only
  ring

theorem cross_cross_left {α : Type} [LinearOrderedField α] (o n : Vec3 α) :
    cross (cross o n) o =
      ⟨dot o o * n.c0 - dot o n * o.c0, dot o o * n.c1 - dot o n * o.c1,
       dot o o * n.c2 - dot o n * o.c2⟩ := by
  unfold dot cross
  simp only [Vec3.mk.injEq]
  refine ⟨?_, ?_, ?_⟩ <;> ring

theorem dot_vec_div {α : Type} [LinearOrderedField α] (u v : Vec3 α) (x y : α)
    (hx : x ≠ 0) (hy : y ≠ 0) :
    dot (vec_div u x) (vec_div v y) = dot u v / (x * y) := by
  unfold dot vec_div
  simp only
  field_simp

theorem cross_vec_div {α : Type} [LinearOrderedField α] (u v : Vec3 α) (x y : α)
    (hx : x ≠ 0) (hy : y ≠ 0) :
    cross (vec_div u x) (vec_div v y) = vec_div (cross u v) (x * y) := by
  unfold cross vec_div
  simp only [Vec3.mk.injEq]
  refine ⟨?_, ?_, ?_⟩
  · field_simp
  · field_simp
  · field_simp

/-- The last step of the rotation of `o/|o|` onto `n/|n|`, in one component. -/
theorem rotate_component {α : Type} [LinearOrderedField α] (a b L d ok nk : α)
    (ha : 0 < a) (hb : 0 < b) (hL : 0 < L) :
    d / (a * b) * (ok / a) + L / (a * b) * ((a ^ 2 * nk - d * ok) / (L * a)) = nk / b := by
  have hane : a ≠ 0 := ne_of_gt ha
  have hbne : b ≠ 0 := ne_of_gt hb
  have hLne : L ≠ 0 := ne_of_gt hL
  field_simp
  ring

/-- C14 (amended). With the real arc cosine, square root, sine and cosine:
whenever the guard of `angle_axis_to_quat` does not replace the rotation by
the identity, i.e. the length of `o x n` and the angle between `o` and `n`
are both above `0.0001`, the quaternion `q = oldnew_to_quat(o, n)` rotates
the direction of `o` onto the direction of `n`:
`q * (o/|o|) * q^-1 = n/|n|`. -/
theorem oldnew_to_quat_rotates (pi : ℝ) (o n : Vec3 ℝ)
    (haxis : epsilon < Real.sqrt (dot (cross o n) (cross o n)))
    (hangle : epsilon < |Real.arccos (dot o n / Real.sqrt (dot o o * dot n n))|) :
    quat_rotate (oldnew_to_quat ⟨Real.arccos, Real.sin, Real.cos, Real.sqrt, pi⟩ o n)
        (vec_div o (Real.sqrt (dot o o)))
      = pure_quat (vec_div n (Real.sqrt (dot n n))) := by
  have heps : (0 : ℝ) < epsilon := epsilon_pos
  have hA0 := dot_self_nonneg o
  have hB0 := dot_self_nonneg n
  have hlag := lagrange_identity o n
  have hL0 : 0 < Real.sqrt (dot (cross o n) (cross o n)) := lt_trans heps haxis
  have hCC : 0 < dot (cross o n) (cross o n) := Real.sqrt_pos.mp hL0
  have hAB : 0 < dot o o * dot n n := by nlinarith [sq_nonneg (dot o n)]
  have hA : 0 < dot o o := by
    rcases hA0.lt_or_eq with h | h
    · exact h
    · rw [← h] at hAB
      simp at hAB
  have hB : 0 < dot n n := by
    rcases hB0.lt_or_eq with h | h
    · exact h
    · rw [← h] at hAB
      simp at hAB
  have ha0 : 0 < Real.sqrt (dot o o) := Real.sqrt_pos.mpr hA
  have hb0 : 0 < Real.sqrt (dot n n) := Real.sqrt_pos.mpr hB
  have ha : Real.sqrt (dot o o) ^ 2 = dot o o := Real.sq_sqrt hA0
  have hb : Real.sqrt (dot n n) ^ 2 = dot n n := Real.sq_sqrt hB0
  have hL : Real.sqrt (dot (cross o n) (cross o n)) ^ 2 = dot (cross o n) (cross o n) :=
    Real.sq_sqrt (le_of_lt hCC)
  have hr : Real.sqrt (dot o o * dot n n) = Real.sqrt (dot o o) * Real.sqrt (dot n n) :=
    Real.sqrt_mul hA0 _
  rw [hr] at hangle
  -- abbreviations
  generalize hav : Real.sqrt (dot o o) = a at *
  generalize hbv : Real.sqrt (dot n n) = b at *
  generalize hLv : Real.sqrt (dot (cross o n) (cross o n)) = L at *
  have hab : 0 < a * b := mul_pos ha0 hb0
  -- the cosine of the angle
  have hx2 : (dot o n / (a * b)) ^ 2 < 1 := by
    rw [div_pow, div_lt_one (by positivity)]
    nlinarith
  have hx1 : -1 ≤ dot o n / (a * b) := by nlinarith
  have hx3 : dot o n / (a * b) ≤ 1 := by nlinarith
  have hcos : Real.cos (Real.arccos (dot o n / (a * b))) = dot o n / (a * b) :=
    Real.cos_arccos hx1 hx3
  have hsin : Real.sin (Real.arccos (dot o n / (a * b))) = L / (a * b) := by
    rw [Real.sin_arccos]
    have : 1 - (dot o n / (a * b)) ^ 2 = (L / (a * b)) ^ 2 := by
      field_simp
      nlinarith
    rw [this]
    exact Real.sqrt_sq (le_of_lt (div_pos hL0 hab))
  -- the half angle
  generalize hth : Real.arccos (dot o n / (a * b)) = th at *
  have hsc := Real.sin_sq_add_cos_sq (th / 2)
  have hcos2 : 2 * Real.cos (th / 2) ^ 2 - 1 = dot o n / (a * b) := by
    rw [← Real.cos_two_mul, mul_div_cancel₀ th (two_ne_zero), hcos]
  have hsin2 : 2 * Real.sin (th / 2) * Real.cos (th / 2) = L / (a * b) := by
    rw [← Real.sin_two_mul, mul_div_cancel₀ th (two_ne_zero), hsin]
  -- the quaternion computed
  have hq : oldnew_to_quat ⟨Real.arccos, Real.sin, Real.cos, Real.sqrt, pi⟩ o n =
      ⟨(vec_div (cross o n) L).c0 * Real.sin (th / 2),
       (vec_div (cross o n) L).c1 * Real.sin (th / 2),
       (vec_div (cross o n) L).c2 * Real.sin (th / 2), Real.cos (th / 2)⟩ := by
    unfold oldnew_to_quat angle_axis_to_quat
    simp only [hr, hLv, hth]
    rw [if_neg]
    · rfl
    · intro hcon
      rcases hcon with h | h
      · exact absurd hangle (not_lt.mpr h)
      · exact absurd haxis (not_lt.mpr h)
  have hLne : L ≠ 0 := ne_of_gt hL0
  have hane : a ≠ 0 := ne_of_gt ha0
  have hbne : b ≠ 0 := ne_of_gt hb0
  have hdu : dot (vec_div (cross o n) L) (vec_div (cross o n) L) = 1 := by
    rw [dot_vec_div _ _ _ _ hLne hLne, ← sq, hL]
    exact div_self (ne_of_gt hCC)
  have hduv : dot (vec_div (cross o n) L) (vec_div o a) = 0 := by
    rw [dot_vec_div _ _ _ _ hLne hane, cross_dot_left, zero_div]
  have hcr := cross_vec_div (cross o n) o L a hLne hane
  have hc2 : Real.cos (th / 2) ^ 2 - Real.sin (th / 2) ^ 2 * 1 = dot o n / (a * b) := by
    rw [← hcos2]
    linarith
  rw [hq, quat_rotate_formula _ _ _ _ (by rw [hdu]; linarith), hdu, hduv, hcr,
    cross_cross_left, hc2, hsin2, ← ha]
  unfold pure_quat vec_div
  simp only [Quat.mk.injEq, mul_zero, zero_mul, add_zero, and_true]
  exact ⟨rotate_component a b L _ _ _ ha0 hb0 hL0, rotate_component a b L _ _ _ ha0 hb0 hL0,
    rotate_component a b L _ _ _ ha0 hb0 hL0⟩

theorem oldnew_to_quat_rotates_witness :
    epsilon < Real.sqrt (dot (cross (⟨1, 0, 0⟩ : Vec3 ℝ) ⟨0, 1, 0⟩) (cross ⟨1, 0, 0⟩ ⟨0, 1, 0⟩)) ∧
    quat_rotate
        (oldnew_to_quat ⟨Real.arccos, Real.sin, Real.cos, Real.sqrt, Real.pi⟩ ⟨1, 0, 0⟩ ⟨0, 1, 0⟩)
        (vec_div ⟨1, 0, 0⟩ (Real.sqrt (dot (⟨1, 0, 0⟩ : Vec3 ℝ) ⟨1, 0, 0⟩)))
      = pure_quat (vec_div ⟨0, 1, 0⟩ (Real.sqrt (dot (⟨0, 1, 0⟩ : Vec3 ℝ) ⟨0, 1, 0⟩))) := by
  have h1 : epsilon
      < Real.sqrt (dot (cross (⟨1, 0, 0⟩ : Vec3 ℝ) ⟨0, 1, 0⟩) (cross ⟨1, 0, 0⟩ ⟨0, 1, 0⟩)) := by
    norm_num [dot, cross, epsilon]
  have h2 : epsilon < |Real.arccos (dot (⟨1, 0, 0⟩ : Vec3 ℝ) ⟨0, 1, 0⟩
      / Real.sqrt (dot (⟨1, 0, 0⟩ : Vec3 ℝ) ⟨1, 0, 0⟩ * dot (⟨0, 1, 0⟩ : Vec3 ℝ) ⟨0, 1, 0⟩))| := by
    have h3 : dot (⟨1, 0, 0⟩ : Vec3 ℝ) ⟨0, 1, 0⟩ = 0 := by norm_num [dot]
    rw [h3, zero_div, Real.arccos_zero, abs_of_pos (by positivity)]
    unfold epsilon
    linarith [Real.pi_gt_three]
  exact ⟨h1, oldnew_to_quat_rotates Real.pi ⟨1, 0, 0⟩ ⟨0, 1, 0⟩ h1 h2⟩

/-- C14 fails as stated for the opposite unit vectors `o = (1, 0, 0)` and
`n = (-1, 0, 0)`: `o x n` is zero, so `angle_axis_to_quat` returns the
identity, and `q * (o/|o|) * q^-1` is `(1, 0, 0)`, not `n/|n| = (-1, 0, 0)`. -/
theorem oldnew_to_quat_rotates_counterexample :
    oldnew_to_quat ⟨Real.arccos, Real.sin, Real.cos, Real.sqrt, Real.pi⟩
        (⟨1, 0, 0⟩ : Vec3 ℝ) ⟨-1, 0, 0⟩ = ⟨0, 0, 0, 1⟩ ∧
    quat_rotate
        (oldnew_to_quat ⟨Real.arccos, Real.sin, Real.cos, Real.sqrt, Real.pi⟩ ⟨1, 0, 0⟩ ⟨-1, 0, 0⟩)
        (vec_div ⟨1, 0, 0⟩ (Real.sqrt (dot (⟨1, 0, 0⟩ : Vec3 ℝ) ⟨1, 0, 0⟩)))
      = ⟨1, 0, 0, 0⟩ ∧
    pure_quat (vec_div ⟨-1, 0, 0⟩ (Real.sqrt (dot (⟨-1, 0, 0⟩ : Vec3 ℝ) ⟨-1, 0, 0⟩)))
      = ⟨-1, 0, 0, 0⟩ ∧
    quat_rotate
        (oldnew_to_quat ⟨Real.arccos, Real.sin, Real.cos, Real.sqrt, Real.pi⟩ ⟨1, 0, 0⟩ ⟨-1, 0, 0⟩)
        (vec_div ⟨1, 0, 0⟩ (Real.sqrt (dot (⟨1, 0, 0⟩ : Vec3 ℝ) ⟨1, 0, 0⟩)))
      ≠ pure_quat (vec_div ⟨-1, 0, 0⟩ (Real.sqrt (dot (⟨-1, 0, 0⟩ : Vec3 ℝ) ⟨-1, 0, 0⟩))) := by
  have hq : oldnew_to_quat ⟨Real.arccos, Real.sin, Real.cos, Real.sqrt, Real.pi⟩
      (⟨1, 0, 0⟩ : Vec3 ℝ) ⟨-1, 0, 0⟩ = ⟨0, 0, 0, 1⟩ := by
    unfold oldnew_to_quat angle_axis_to_quat
    rw [if_pos]
    right
    norm_num [dot, cross, epsilon]
  have h1 : quat_rotate
      (oldnew_to_quat ⟨Real.arccos, Real.sin, Real.cos, Real.sqrt, Real.pi⟩ ⟨1, 0, 0⟩ ⟨-1, 0, 0⟩)
      (vec_div ⟨1, 0, 0⟩ (Real.sqrt (dot (⟨1, 0, 0⟩ : Vec3 ℝ) ⟨1, 0, 0⟩)))
      = ⟨1, 0, 0, 0⟩ := by
    rw [hq]
    norm_num [quat_rotate, quat_mult, quat_inv, quat_norm_sq, quat_dot, pure_quat, vec_div, dot]
  have h2 : pure_quat (vec_div ⟨-1, 0, 0⟩ (Real.sqrt (dot (⟨-1, 0, 0⟩ : Vec3 ℝ) ⟨-1, 0, 0⟩)))
      = ⟨-1, 0, 0, 0⟩ := by
    norm_num [pure_quat, vec_div, dot]
  refine ⟨hq, h1, h2, ?_⟩
  rw [h1, h2]
  intro hcon
  injection hcon with hcon
  norm_num at hcon

/-! ## Claims about the lines read by `Animation::load` -/

/-- When a version-2 line defines a keyframe. -/
theorem load_keyframe_v2_eq_some {α : Type} [LinearOrderedField α] [FloorRing α]
    (m : Libm α) (libc : Libc α) (linebuf : List Char) (k : Keyframe α) :
    load_keyframe_v2 m libc linebuf = some k ↔
      ∃ token0 token1 token2 token3 tmpt pos camrel_rot given,
        tokenize linebuf = [token0, token1, token2, token3] ∧
        libc.sscanf_f "%f".toList token0 = [tmpt] ∧
        scan_position m libc token1 = some pos ∧
        scan_rotation_mode token2 = some camrel_rot ∧
        scan_rotation m libc token3 = some given ∧
        k = ⟨to_long_long libc (libc.fmul tmpt 1000000), pos,
          stored_rotation m camrel_rot pos given⟩ := by
  constructor
  · intro h
    unfold load_keyframe_v2 at h
    split at h
    · rename_i token0 token1 token2 token3 htok
      split at h
      · rename_i tmpt ht
        split at h
        · cases h
        · rename_i pos hpos
          split at h
          · cases h
          · rename_i camrel_rot hmode
            split at h
            · cases h
            · rename_i given hrot
              injection h with h
              exact ⟨token0, token1, token2, token3, tmpt, pos, camrel_rot, given,
                htok, ht, hpos, hmode, hrot, h.symm⟩
      · cases h
    · cases h
  · rintro ⟨token0, token1, token2, token3, tmpt, pos, camrel_rot, given,
      htok, ht, hpos, hmode, hrot, hk⟩
    unfold load_keyframe_v2
    simp only [htok, ht, hpos, hmode, hrot, hk]

theorem scan_rotation_mode_eq_some (token : List Char) (camrel_rot : Bool) :
    scan_rotation_mode token = some camrel_rot ↔
      (token = "abs_rot".toList ∧ camrel_rot = false) ∨
      (token = "camrel_rot".toList ∧ camrel_rot = true) := by
  unfold scan_rotation_mode
  by_cases h1 : token = "abs_rot".toList
  · rw [if_pos h1]
    constructor
    · intro h
      injection h with h
      exact Or.inl ⟨h1, h.symm⟩
    · intro h
      rcases h with ⟨_, h⟩ | ⟨h2, _⟩
      · rw [h]
      · rw [h1] at h2
        exact absurd h2 (by decide)
  · rw [if_neg h1]
    by_cases h2 : token = "camrel_rot".toList
    · rw [if_pos h2]
      constructor
      · intro h
        injection h with h
        exact Or.inr ⟨h2, h.symm⟩
      · intro h
        rcases h with ⟨h3, _⟩ | ⟨_, h⟩
        · exact absurd h3 h1
        · rw [h]
    · rw [if_neg h2]
      constructor
      · intro h
        cases h
      · intro h
        rcases h with ⟨h3, _⟩ | ⟨h3, _⟩
        · exact absurd h3 h1
        · exact absurd h3 h2

/-- C15. For every version-2 line that defines a keyframe `k`: with the mode
`camrel_rot` the stored rotation is `quat_mult(q_cam, q_given)` with
`q_cam = oldnew_to_quat((0, 0, -1), k.pos)` as left and the given rotation as
right factor, which is their Hamilton product in `(x, y, z, w)` order; with
the mode `abs_rot` the stored rotation is the given rotation unchanged; and
`quat_mult(a, b)` is the Hamilton product of `a` and `b` for all `a`, `b`. -/
theorem camrel_rotation_is_product {α : Type} [LinearOrderedField α] [FloorRing α]
    (m : Libm α) (libc : Libc α) (linebuf : List Char) (k : Keyframe α)
    (hk : load_keyframe_v2 m libc linebuf = some k) :
    (∃ token0 token1 token2 token3 given,
      tokenize linebuf = [token0, token1, token2, token3] ∧
      scan_rotation m libc token3 = some given ∧
      (token2 = "camrel_rot".toList ∨ token2 = "abs_rot".toList) ∧
      (token2 = "camrel_rot".toList →
        k.rot = quat_mult (oldnew_to_quat m ⟨0, 0, -1⟩ k.pos) given ∧
        to_quaternion k.rot =
          to_quaternion (oldnew_to_quat m ⟨0, 0, -1⟩ k.pos) * to_quaternion given) ∧
      (token2 = "abs_rot".toList → k.rot = given)) ∧
    (∀ a b : Quat α, to_quaternion (quat_mult a b) = to_quaternion a * to_quaternion b) := by
  refine ⟨?_, quat_mult_hamilton⟩
  obtain ⟨token0, token1, token2, token3, tmpt, pos, camrel_rot, given,
    htok, _, _, hmode, hrot, hkeq⟩ := (load_keyframe_v2_eq_some m libc linebuf k).mp hk
  refine ⟨token0, token1, token2, token3, given, htok, hrot, ?_, ?_, ?_⟩
  · rcases (scan_rotation_mode_eq_some token2 camrel_rot).mp hmode with h | h
    · exact Or.inr h.1
    · exact Or.inl h.1
  · intro hc
    have hcam : camrel_rot = true := by
      rcases (scan_rotation_mode_eq_some token2 camrel_rot).mp hmode with h | h
      · rw [hc] at h
        exact absurd h.1 (by decide)
      · exact h.2
    have hrotk : k.rot = quat_mult (oldnew_to_quat m ⟨0, 0, -1⟩ k.pos) given := by
      rw [hkeq, hcam]
      rfl
    exact ⟨hrotk, by rw [hrotk, quat_mult_hamilton]⟩
  · intro ha
    have hcam : camrel_rot = false := by
      rcases (scan_rotation_mode_eq_some token2 camrel_rot).mp hmode with h | h
      · exact h.2
      · rw [ha] at h
        exact absurd h.1 (by decide)
    rw [hkeq, hcam]
    rfl

/-- The truncation toward zero of line 296. -/
theorem to_long_long_eq {α : Type} [LinearOrderedField α] [FloorRing α] (libc : Libc α)
    (x : α) (truncated : Int)
    (ht : (if 0 ≤ x then Int.floor x else Int.ceil x) = truncated)
    (h1 : -9223372036854775808 ≤ truncated) (h2 : truncated < 9223372036854775808) :
    to_long_long libc x = truncated := by
  unfold to_long_long
  simp only [ht]
  rw [if_pos ⟨h1, h2⟩]

theorem to_long_long_intCast {α : Type} [LinearOrderedField α] [FloorRing α] (libc : Libc α)
    (n : Int) (h1 : -9223372036854775808 ≤ n) (h2 : n < 9223372036854775808) :
    to_long_long libc (n : α) = n := by
  apply to_long_long_eq libc _ n _ h1 h2
  split_ifs
  · exact Int.floor_intCast n
  · exact Int.ceil_intCast n

theorem to_long_long_range {α : Type} [LinearOrderedField α] [FloorRing α] (libc : Libc α)
    (x : α) :
    -9223372036854775808 ≤ to_long_long libc x ∧ to_long_long libc x < 9223372036854775808 := by
  unfold to_long_long
  dsimp only
  generalize (if 0 ≤ x then Int.floor x else Int.ceil x) = truncated
  split_ifs with h
  · exact h
  · unfold wrap_long_long
    omega

/-- The conversion of a value between `-2^63` and `2^63` truncates toward
zero. -/
theorem to_long_long_truncates {α : Type} [LinearOrderedField α] [FloorRing α]
    (libc : Libc α) (x : α) (h1 : -9223372036854775808 ≤ x) (h2 : x < 9223372036854775808) :
    (0 ≤ x → ((to_long_long libc x : Int) : α) ≤ x ∧ x < ((to_long_long libc x : Int) : α) + 1) ∧
    (x ≤ 0 → x ≤ ((to_long_long libc x : Int) : α) ∧ ((to_long_long libc x : Int) : α) - 1 < x) := by
  by_cases h0 : 0 ≤ x
  · have hf1 : -9223372036854775808 ≤ Int.floor x := by
      have : (0 : Int) ≤ Int.floor x := Int.floor_nonneg.2 h0
      omega
    have hf2 : Int.floor x < 9223372036854775808 := by
      rw [Int.floor_lt]
      exact_mod_cast h2
    have ht := to_long_long_eq libc x (Int.floor x) (if_pos h0) hf1 hf2
    rw [ht]
    refine ⟨fun _ => ⟨Int.floor_le x, Int.lt_floor_add_one x⟩, fun hx => ?_⟩
    have hx0 : x = 0 := le_antisymm hx h0
    subst hx0
    simp
  · have hc1 : -9223372036854775808 ≤ Int.ceil x := by
      rw [Int.le_ceil_iff]
      have : (((-9223372036854775808 : Int) : α)) = -9223372036854775808 := by norm_cast
      rw [this]
      linarith
    have hc2 : Int.ceil x < 9223372036854775808 := by
      have : Int.ceil x ≤ 0 := Int.ceil_le.2 (by
        push_neg at h0
        exact_mod_cast le_of_lt h0)
      omega
    have ht := to_long_long_eq libc x (Int.ceil x) (if_neg h0) hc1 hc2
    rw [ht]
    refine ⟨fun h => absurd h h0, fun _ => ⟨Int.le_ceil x, ?_⟩⟩
    have := Int.ceil_lt_add_one x
    linarith

theorem sample_line_v2 :
    load_keyframe_v2 sample_libm sample_libc
        "1.5 cart(0,0,-1) camrel_rot angle_axis(0,0,0,1)\n".toList
      = some ⟨1500000, ⟨0, 0, -1⟩, ⟨0, 0, 0, 1⟩⟩ := by
  rw [load_keyframe_v2_eq_some]
  refine ⟨"1.5".toList, "cart(0,0,-1)".toList, "camrel_rot".toList,
    "angle_axis(0,0,0,1)".toList, 3 / 2, ⟨0, 0, -1⟩, true, ⟨0, 0, 0, 1⟩,
    by decide, rfl, rfl, by decide, ?_, ?_⟩
  · have h : sample_libc.sscanf_f "angle_axis(%f,%f,%f,%f)".toList "angle_axis(0,0,0,1)".toList
        = [0, 0, 0, 1] := by decide
    unfold scan_rotation
    rw [h]
    norm_num [angle_axis_to_quat, to_rad, sample_libm, epsilon]
  · have ht : to_long_long sample_libc (sample_libc.fmul (3 / 2) 1000000) = 1500000 := by
      have : sample_libc.fmul (3 / 2) 1000000 = ((1500000 : Int) : ℚ) := by
        show (3 : ℚ) / 2 * 1000000 = _
        norm_num
      rw [this, to_long_long_intCast sample_libc 1500000 (by decide) (by decide)]
    rw [ht]
    norm_num [stored_rotation, oldnew_to_quat, angle_axis_to_quat, quat_mult, dot, cross,
      sample_libm, epsilon]

theorem camrel_rotation_is_product_witness :
    load_keyframe_v2 sample_libm sample_libc
        "1.5 cart(0,0,-1) camrel_rot angle_axis(0,0,0,1)\n".toList
      = some ⟨1500000, ⟨0, 0, -1⟩, ⟨0, 0, 0, 1⟩⟩ ∧
    ∃ token0 token1 token2 token3 given,
      tokenize "1.5 cart(0,0,-1) camrel_rot angle_axis(0,0,0,1)\n".toList
        = [token0, token1, token2, token3] ∧
      scan_rotation sample_libm sample_libc token3 = some given ∧
      (token2 = "camrel_rot".toList ∨ token2 = "abs_rot".toList) ∧
      (token2 = "camrel_rot".toList →
        (⟨0, 0, 0, 1⟩ : Quat ℚ) = quat_mult (oldnew_to_quat sample_libm ⟨0, 0, -1⟩ ⟨0, 0, -1⟩) given ∧
        to_quaternion (⟨0, 0, 0, 1⟩ : Quat ℚ) =
          to_quaternion (oldnew_to_quat sample_libm ⟨0, 0, -1⟩ ⟨0, 0, -1⟩) * to_quaternion given) ∧
      (token2 = "abs_rot".toList → (⟨0, 0, 0, 1⟩ : Quat ℚ) = given) :=
  ⟨sample_line_v2,
   (camrel_rotation_is_product sample_libm sample_libc _ _ sample_line_v2).1⟩

theorem text_lines_cons_ne_nil (c : Char) (rest : List Char) :
    text_lines (c :: rest) ≠ [] := by
  unfold text_lines
  split_ifs
  · exact List.cons_ne_nil _ _
  · cases text_lines rest <;> exact List.cons_ne_nil _ _

theorem text_lines_eq_nil (content : List Char) (h : text_lines content = []) :
    content = [] := by
  cases content with
  | nil => rfl
  | cons c rest => exact absurd h (text_lines_cons_ne_nil c rest)

theorem fgets_nil (n : Nat) : fgets n [] = ([], []) := by
  unfold fgets
  rfl

theorem fgets_succ_cons (n : Nat) (c : Char) (rest : List Char) :
    fgets (n + 1) (c :: rest)
      = if c = '\n' then ([c], rest) else (c :: (fgets n rest).1, (fgets n rest).2) := by
  rw [fgets]

theorem fgets_append (n : Nat) (unread : List Char) :
    (fgets n unread).1 ++ (fgets n unread).2 = unread := by
  induction unread generalizing n with
  | nil => rw [fgets_nil]; rfl
  | cons c rest ih =>
    cases n with
    | zero => rfl
    | succ n =>
      rw [fgets_succ_cons]
      split_ifs
      · rfl
      · show c :: ((fgets n rest).1 ++ (fgets n rest).2) = c :: rest
        rw [ih]

/-- The call `fgets(linebuf, n + 1, f)` returns the next line of the file
whole when the line has at most `n` characters, and leaves the other lines
unread. -/
theorem fgets_text_line (unread : List Char) :
    ∀ (n : Nat) (line : List Char) (lines : List (List Char)),
      text_lines unread = line :: lines → line.length ≤ n →
      (fgets n unread).1 = line ∧ text_lines (fgets n unread).2 = lines := by
  induction unread with
  | nil =>
    intro n line lines h _
    simp [text_lines] at h
  | cons c rest ih =>
    intro n line lines h hn
    unfold text_lines at h
    by_cases hc : c = '\n'
    · rw [if_pos hc] at h
      injection h with h1 h2
      subst h1
      cases n with
      | zero => simp at hn
      | succ n =>
        rw [fgets_succ_cons, if_pos hc]
        exact ⟨rfl, h2⟩
    · rw [if_neg hc] at h
      cases ht : text_lines rest with
      | nil =>
        rw [ht] at h
        injection h with h1 h2
        subst h1
        subst h2
        have hr := text_lines_eq_nil rest ht
        subst hr
        cases n with
        | zero => simp at hn
        | succ n =>
          rw [fgets_succ_cons, if_neg hc, fgets_nil]
          exact ⟨rfl, rfl⟩
      | cons line1 lines1 =>
        rw [ht] at h
        injection h with h1 h2
        subst h1
        subst h2
        cases n with
        | zero => simp at hn
        | succ n =>
          have hn1 : line1.length ≤ n := by
            simp only [List.length_cons] at hn
            omega
          obtain ⟨h3, h4⟩ := ih n line1 lines1 ht hn1
          rw [fgets_succ_cons, if_neg hc]
          exact ⟨by rw [← h3], h4⟩

theorem text_lines_mem_ne_nil (content : List Char) :
    ∀ line ∈ text_lines content, line ≠ [] := by
  induction content with
  | nil =>
    intro line h
    simp [text_lines] at h
  | cons c rest ih =>
    intro line h
    unfold text_lines at h
    split_ifs at h
    · rcases List.mem_cons.1 h with h | h
      · rw [h]
        exact List.cons_ne_nil _ _
      · exact ih line h
    · cases ht : text_lines rest with
      | nil =>
        rw [ht] at h
        rcases List.mem_cons.1 h with h | h
        · rw [h]
          exact List.cons_ne_nil _ _
        · simp at h
      | cons line1 lines1 =>
        rw [ht] at h
        rcases List.mem_cons.1 h with h | h
        · rw [h]
          exact List.cons_ne_nil _ _
        · exact ih line (by rw [ht]; exact List.mem_cons_of_mem _ h)

/-- The strings that `fgets` returns are the lines of the file when no line
has more than `n` characters. -/
theorem read_lines_eq_text_lines (n : Nat) :
    ∀ (fuel : Nat) (unread : List Char), unread.length ≤ fuel →
      (∀ line ∈ text_lines unread, line.length ≤ n) →
      read_lines n fuel unread = text_lines unread := by
  intro fuel
  induction fuel with
  | zero =>
    intro unread hl _
    have : unread = [] := List.length_eq_zero.1 (Nat.le_zero.1 hl)
    subst this
    rfl
  | succ fuel ih =>
    intro unread hl hs
    cases unread with
    | nil => rfl
    | cons c rest =>
      cases ht : text_lines (c :: rest) with
      | nil => exact absurd ht (text_lines_cons_ne_nil c rest)
      | cons line lines =>
        have hline : line.length ≤ n := hs line (by rw [ht]; exact List.mem_cons_self _ _)
        obtain ⟨h1, h2⟩ := fgets_text_line (c :: rest) n line lines ht hline
        have hne : line ≠ [] :=
          text_lines_mem_ne_nil (c :: rest) line (by rw [ht]; exact List.mem_cons_self _ _)
        have happ := congrArg List.length (fgets_append n (c :: rest))
        rw [List.length_append, h1] at happ
        have hpos : 0 < line.length := List.length_pos.2 hne
        have hfuel : (fgets n (c :: rest)).2.length ≤ fuel := by
          omega
        show (fgets n (c :: rest)).1 :: read_lines n fuel (fgets n (c :: rest)).2 = _
        rw [ih _ hfuel (by
          intro l hl1
          rw [h2] at hl1
          exact hs l (by rw [ht]; exact List.mem_cons_of_mem _ hl1)), h1, h2]

/-- The strings read from a file whose lines have at most 511 characters are
its lines. -/
theorem File.lines_eq_text_lines (f : File)
    (h : ∀ line ∈ text_lines f.content, line.length ≤ 511) :
    f.lines = text_lines f.content :=
  read_lines_eq_text_lines 511 f.content.length f.content (Nat.le_refl _) h

theorem fgets_fst_ne_nil (n : Nat) (c : Char) (rest : List Char) :
    (fgets (n + 1) (c :: rest)).1 ≠ [] := by
  rw [fgets_succ_cons]
  split_ifs <;> exact List.cons_ne_nil _ _

/-- The calls of `fgets` read every character of the file: the strings they
return, one after the other, are the content of the file. -/
theorem read_lines_flatten (n : Nat) :
    ∀ (fuel : Nat) (unread : List Char), unread.length ≤ fuel →
      (read_lines (n + 1) fuel unread).flatten = unread := by
  intro fuel
  induction fuel with
  | zero =>
    intro unread hl
    have : unread = [] := List.length_eq_zero.1 (Nat.le_zero.1 hl)
    subst this
    rfl
  | succ fuel ih =>
    intro unread hl
    cases unread with
    | nil => rfl
    | cons c rest =>
      have happ := fgets_append (n + 1) (c :: rest)
      have hlen := congrArg List.length happ
      rw [List.length_append] at hlen
      have hpos : 0 < (fgets (n + 1) (c :: rest)).1.length :=
        List.length_pos.2 (fgets_fst_ne_nil n c rest)
      have hfuel : (fgets (n + 1) (c :: rest)).2.length ≤ fuel := by
        omega
      show ((fgets (n + 1) (c :: rest)).1
        :: read_lines (n + 1) fuel (fgets (n + 1) (c :: rest)).2).flatten = _
      rw [List.flatten_cons, ih _ hfuel, happ]

theorem File.lines_flatten (f : File) : f.lines.flatten = f.content :=
  read_lines_flatten 510 f.content.length f.content (Nat.le_refl _)

/-- C12, amended. A version-2 line whose four tokens are a time `T`,
`cart(x,y,z)`, `abs_rot` and `angle_axis(a,ax,ay,az)` defines the keyframe
with `t` the `float` product `T * 1e6` converted to `long long`,
`pos = (x, y, z)` unchanged and `rot` the quaternion of the angle `a` (in
degrees) and the axis. The time `t` is a `long long` value; it is the product
when the product is an integer from `-2^63` to `2^63 - 1`, and the product
truncated toward zero when the product is at least `-2^63` and less than
`2^63`. The rotation is the identity `(0, 0, 0, 1)` whenever the angle in
radians has magnitude at most `0.0001` or the axis length is at most `0.0001`.
In particular the line `0.0 cart(0,0,-0.2) abs_rot angle_axis(0,0,0,1)` has
exactly these four tokens, and when `sscanf` reads them as `0`,
`(0, 0, -0.2)` and `(0, 0, 0, 1)` and the product of `0` and `1e6` is `0`, it
yields the one keyframe `t = 0`, `pos = (0, 0, -0.2)`, `rot = (0, 0, 0, 1)`. -/
theorem load_keyframe_v2_cart_abs {α : Type} [LinearOrderedField α] [FloorRing α]
    (m : Libm α) (libc : Libc α) (linebuf token0 token1 token3 : List Char)
    (T x y z a ax ay az : α)
    (htok : tokenize linebuf = [token0, token1, "abs_rot".toList, token3])
    (hT : libc.sscanf_f "%f".toList token0 = [T])
    (hpos : libc.sscanf_f "cart(%f,%f,%f)".toList token1 = [x, y, z])
    (hrot : libc.sscanf_f "angle_axis(%f,%f,%f,%f)".toList token3 = [a, ax, ay, az]) :
    (load_keyframe_v2 m libc linebuf =
      some ⟨to_long_long libc (libc.fmul T 1000000), ⟨x, y, z⟩,
        angle_axis_to_quat m (to_rad m a) ⟨ax, ay, az⟩⟩) ∧
    (-9223372036854775808 ≤ to_long_long libc (libc.fmul T 1000000) ∧
      to_long_long libc (libc.fmul T 1000000) < 9223372036854775808) ∧
    (∀ n : Int, libc.fmul T 1000000 = (n : α) →
      -9223372036854775808 ≤ n → n < 9223372036854775808 →
      to_long_long libc (libc.fmul T 1000000) = n) ∧
    (-9223372036854775808 ≤ libc.fmul T 1000000 → libc.fmul T 1000000 < 9223372036854775808 →
      (0 ≤ libc.fmul T 1000000 →
        ((to_long_long libc (libc.fmul T 1000000) : Int) : α) ≤ libc.fmul T 1000000 ∧
        libc.fmul T 1000000 < ((to_long_long libc (libc.fmul T 1000000) : Int) : α) + 1) ∧
      (libc.fmul T 1000000 ≤ 0 →
        libc.fmul T 1000000 ≤ ((to_long_long libc (libc.fmul T 1000000) : Int) : α) ∧
        ((to_long_long libc (libc.fmul T 1000000) : Int) : α) - 1 < libc.fmul T 1000000)) ∧
    (|to_rad m a| ≤ epsilon ∨ m.sqrt (dot ⟨ax, ay, az⟩ ⟨ax, ay, az⟩) ≤ epsilon →
      angle_axis_to_quat m (to_rad m a) ⟨ax, ay, az⟩ = ⟨0, 0, 0, 1⟩) ∧
    (tokenize "0.0 cart(0,0,-0.2) abs_rot angle_axis(0,0,0,1)".toList =
      ["0.0".toList, "cart(0,0,-0.2)".toList, "abs_rot".toList,
        "angle_axis(0,0,0,1)".toList]) ∧
    (libc.sscanf_f "%f".toList "0.0".toList = [0] →
      libc.sscanf_f "cart(%f,%f,%f)".toList "cart(0,0,-0.2)".toList = [0, 0, -(2 / 10)] →
      libc.sscanf_f "angle_axis(%f,%f,%f,%f)".toList "angle_axis(0,0,0,1)".toList
        = [0, 0, 0, 1] →
      libc.fmul 0 1000000 = 0 →
      load_keyframe_v2 m libc "0.0 cart(0,0,-0.2) abs_rot angle_axis(0,0,0,1)".toList
        = some ⟨0, ⟨0, 0, -(2 / 10)⟩, ⟨0, 0, 0, 1⟩⟩ ∧
      load_body (load_keyframe_v2 m libc) []
          ["0.0 cart(0,0,-0.2) abs_rot angle_axis(0,0,0,1)".toList]
        = [⟨0, ⟨0, 0, -(2 / 10)⟩, ⟨0, 0, 0, 1⟩⟩]) := by
  have hgen : ∀ (linebuf token0 token1 token3 : List Char) (T x y z a ax ay az : α),
      tokenize linebuf = [token0, token1, "abs_rot".toList, token3] →
      libc.sscanf_f "%f".toList token0 = [T] →
      libc.sscanf_f "cart(%f,%f,%f)".toList token1 = [x, y, z] →
      libc.sscanf_f "angle_axis(%f,%f,%f,%f)".toList token3 = [a, ax, ay, az] →
      load_keyframe_v2 m libc linebuf =
        some ⟨to_long_long libc (libc.fmul T 1000000), ⟨x, y, z⟩,
          angle_axis_to_quat m (to_rad m a) ⟨ax, ay, az⟩⟩ := by
    intro linebuf token0 token1 token3 T x y z a ax ay az htok hT hpos hrot
    rw [load_keyframe_v2_eq_some]
    refine ⟨token0, token1, "abs_rot".toList, token3, T, ⟨x, y, z⟩, false,
      angle_axis_to_quat m (to_rad m a) ⟨ax, ay, az⟩, htok, hT, ?_, by decide, ?_, rfl⟩
    · unfold scan_position
      rw [hpos]
    · unfold scan_rotation
      rw [hrot]
  have hid : ∀ (angle : α) (axis : Vec3 α),
      (|angle| ≤ epsilon ∨ m.sqrt (dot axis axis) ≤ epsilon) →
      angle_axis_to_quat m angle axis = ⟨0, 0, 0, 1⟩ := by
    intro angle axis h
    unfold angle_axis_to_quat
    simp only [if_pos h]
  have htokens : tokenize "0.0 cart(0,0,-0.2) abs_rot angle_axis(0,0,0,1)".toList =
      ["0.0".toList, "cart(0,0,-0.2)".toList, "abs_rot".toList,
        "angle_axis(0,0,0,1)".toList] := by decide
  refine ⟨hgen _ _ _ _ _ _ _ _ _ _ _ _ htok hT hpos hrot, to_long_long_range libc _, ?_,
    to_long_long_truncates libc _, hid _ _, htokens, ?_⟩
  · intro n hn h1 h2
    rw [hn, to_long_long_intCast libc n h1 h2]
  · intro h0 h1 h3 hmul
    have hk := hgen _ _ _ _ _ _ _ _ _ _ _ _ htokens h0 h1 h3
    have ht0 : to_long_long libc (libc.fmul 0 1000000) = 0 := by
      have : libc.fmul 0 1000000 = ((0 : Int) : α) := by
        rw [hmul]
        simp
      rw [this, to_long_long_intCast libc 0 (by decide) (by decide)]
    have hr0 : angle_axis_to_quat m (to_rad m 0) (⟨0, 0, 1⟩ : Vec3 α) = ⟨0, 0, 0, 1⟩ := by
      apply hid
      left
      unfold to_rad
      rw [mul_zero, abs_zero]
      exact le_of_lt epsilon_pos
    rw [ht0, hr0] at hk
    refine ⟨hk, ?_⟩
    have hni : is_ignored "0.0 cart(0,0,-0.2) abs_rot angle_axis(0,0,0,1)".toList = false := by
      decide
    show load_line (load_keyframe_v2 m libc) []
      "0.0 cart(0,0,-0.2) abs_rot angle_axis(0,0,0,1)".toList = _
    unfold load_line
    rw [hni, hk]
    rfl

theorem load_keyframe_v2_cart_abs_witness :
    tokenize "0.0 cart(0,0,-0.2) abs_rot angle_axis(0,0,0,1)".toList
      = ["0.0".toList, "cart(0,0,-0.2)".toList, "abs_rot".toList,
          "angle_axis(0,0,0,1)".toList] ∧
    sample_libc.sscanf_f "%f".toList "0.0".toList = [0] ∧
    sample_libc.sscanf_f "cart(%f,%f,%f)".toList "cart(0,0,-0.2)".toList = [0, 0, -(1 / 5)] ∧
    sample_libc.sscanf_f "angle_axis(%f,%f,%f,%f)".toList "angle_axis(0,0,0,1)".toList
      = [0, 0, 0, 1] ∧
    load_keyframe_v2 sample_libm sample_libc
        "0.0 cart(0,0,-0.2) abs_rot angle_axis(0,0,0,1)".toList
      = some ⟨to_long_long sample_libc (sample_libc.fmul 0 1000000), ⟨0, 0, -(1 / 5)⟩,
          angle_axis_to_quat sample_libm (to_rad sample_libm 0) ⟨0, 0, 1⟩⟩ ∧
    to_long_long sample_libc (sample_libc.fmul 0 1000000) = 0 :=
  have h := load_keyframe_v2_cart_abs sample_libm sample_libc
    "0.0 cart(0,0,-0.2) abs_rot angle_axis(0,0,0,1)".toList
    "0.0".toList "cart(0,0,-0.2)".toList "angle_axis(0,0,0,1)".toList
    0 0 0 (-(1 / 5)) 0 0 0 1 (by decide) rfl rfl rfl
  ⟨by decide, rfl, rfl, rfl, h.1,
   h.2.2.1 0 (by show (0 : ℚ) * 1000000 = _; norm_num) (by decide) (by decide)⟩

/-- C12 as stated fails: the line
`0.0078125 cart(0,0,-1) abs_rot angle_axis(0,0,0,1)` has the time
`T = 1/128`, for which `T * 1e6 = 7812.5`, and its keyframe has `t = 7812`. -/
theorem load_keyframe_v2_cart_abs_counterexample :
    tokenize "0.0078125 cart(0,0,-1) abs_rot angle_axis(0,0,0,1)".toList
      = ["0.0078125".toList, "cart(0,0,-1)".toList, "abs_rot".toList,
          "angle_axis(0,0,0,1)".toList] ∧
    sample_libc.sscanf_f "%f".toList "0.0078125".toList = [1 / 128] ∧
    sample_libc.fmul (1 / 128) 1000000 = 15625 / 2 ∧
    load_keyframe_v2 sample_libm sample_libc
        "0.0078125 cart(0,0,-1) abs_rot angle_axis(0,0,0,1)".toList
      = some ⟨7812, ⟨0, 0, -1⟩, ⟨0, 0, 0, 1⟩⟩ ∧
    ((7812 : Int) : ℚ) ≠ 1 / 128 * 1000000 := by
  have hmul : sample_libc.fmul (1 / 128) 1000000 = 15625 / 2 := by
    show (1 : ℚ) / 128 * 1000000 = _
    norm_num
  refine ⟨by decide, rfl, hmul, ?_, by norm_num⟩
  rw [load_keyframe_v2_eq_some]
  refine ⟨"0.0078125".toList, "cart(0,0,-1)".toList, "abs_rot".toList,
    "angle_axis(0,0,0,1)".toList, 1 / 128, ⟨0, 0, -1⟩, false, ⟨0, 0, 0, 1⟩,
    by decide, rfl, rfl, by decide, ?_, ?_⟩
  · have h : sample_libc.sscanf_f "angle_axis(%f,%f,%f,%f)".toList "angle_axis(0,0,0,1)".toList
        = [0, 0, 0, 1] := by decide
    unfold scan_rotation
    rw [h]
    norm_num [angle_axis_to_quat, to_rad, sample_libm, epsilon]
  · have ht : to_long_long sample_libc (sample_libc.fmul (1 / 128) 1000000) = 7812 := by
      rw [hmul]
      apply to_long_long_eq sample_libc _ 7812 _ (by decide) (by decide)
      rw [if_pos (by norm_num)]
      rw [Int.floor_eq_iff]
      constructor <;> norm_num
    rw [ht]
    rfl

/-! ## `Simulator::load` -/

theorem simulator_load_of_fopen_none {α : Type} [LinearOrderedField α] (libc : Libc α)
    (load_table : List Char → Option (LightSourceIntensityTable α))
    (fopen : String → Option File) (raw : LightSourceIntensityTable α)
    (self : Simulator α) (filename : String) (hf : fopen filename = none) :
    Simulator.load libc load_table fopen raw self filename = (.error .cannot_open, self) := by
  simp only [Simulator.load, hf]

theorem simulator_load_of_header_none {α : Type} [LinearOrderedField α] (libc : Libc α)
    (load_table : List Char → Option (LightSourceIntensityTable α))
    (fopen : String → Option File) (raw : LightSourceIntensityTable α)
    (self : Simulator α) (filename : String) (f : File) (hf : fopen filename = some f)
    (hh : simulator_header libc.sscanf_d f.lines = none) :
    Simulator.load libc load_table fopen raw self filename = (.error .not_valid, self) := by
  simp only [Simulator.load, hf, hh]

theorem simulator_load_of_body_error {α : Type} [LinearOrderedField α] (libc : Libc α)
    (load_table : List Char → Option (LightSourceIntensityTable α))
    (fopen : String → Option File) (raw : LightSourceIntensityTable α)
    (self : Simulator α) (filename : String) (f : File) (version : Int) (e : SimulatorError)
    (hf : fopen filename = some f)
    (hh : simulator_header libc.sscanf_d f.lines = some version)
    (hb : simulator_body libc load_table (Simulator.new raw) f.lines.tail = .error e) :
    Simulator.load libc load_table fopen raw self filename = (.error e, self) := by
  simp only [Simulator.load, hf, hh, hb]

theorem simulator_load_of_body_ok {α : Type} [LinearOrderedField α] (libc : Libc α)
    (load_table : List Char → Option (LightSourceIntensityTable α))
    (fopen : String → Option File) (raw : LightSourceIntensityTable α)
    (self : Simulator α) (filename : String) (f : File) (version : Int)
    (newsim1 : Simulator α) (hf : fopen filename = some f)
    (hh : simulator_header libc.sscanf_d f.lines = some version)
    (hb : simulator_body libc load_table (Simulator.new raw) f.lines.tail = .ok newsim1) :
    Simulator.load libc load_table fopen raw self filename
      = if f.error then (.error .cannot_read, self) else (.ok (), newsim1) := by
  simp only [Simulator.load, hf, hh, hb]

/-- A table line whose file cannot be loaded. -/
theorem simulator_line_error_iff {α : Type} (libc : Libc α)
    (load_table : List Char → Option (LightSourceIntensityTable α))
    (newsim : Simulator α) (linebuf : List Char) (e : SimulatorError) :
    simulator_line libc load_table newsim linebuf = .error e ↔
      e = .table ∧ ∃ name, scan_line libc linebuf = .table name ∧ name.length > 0
        ∧ load_table name = none := by
  unfold simulator_line
  cases hs : scan_line libc linebuf with
  | nothing => simp
  | float key v => simp
  | int key v => simp
  | table name =>
    by_cases hn : name.length > 0
    · cases ht : load_table name with
      | none =>
        simp only [hn, if_true, ht]
        constructor
        · intro h
          injection h with h
          exact ⟨h.symm, name, rfl, hn, ht⟩
        · rintro ⟨h, _⟩
          rw [h]
      | some table =>
        simp only [hn, if_true, ht]
        constructor
        · intro h
          cases h
        · rintro ⟨_, name1, h1, _, h3⟩
          injection h1 with h1
          rw [← h1, ht] at h3
          cases h3
    · simp only [hn, if_false]
      constructor
      · intro h
        cases h
      · rintro ⟨_, name1, h1, h2, _⟩
        injection h1 with h1
        rw [← h1] at h2
        exact absurd h2 hn

theorem simulator_body_error_iff {α : Type} (libc : Libc α)
    (load_table : List Char → Option (LightSourceIntensityTable α))
    (lines : List (List Char)) (newsim : Simulator α) (e : SimulatorError) :
    simulator_body libc load_table newsim lines = .error e ↔
      e = .table ∧ ∃ linebuf ∈ lines, ∃ name,
        scan_line libc linebuf = .table name ∧ name.length > 0 ∧ load_table name = none := by
  induction lines generalizing newsim with
  | nil =>
    simp [simulator_body]
  | cons linebuf rest ih =>
    unfold simulator_body
    cases hl : simulator_line libc load_table newsim linebuf with
    | error e1 =>
      have h1 := (simulator_line_error_iff libc load_table newsim linebuf e1).1 hl
      obtain ⟨he1, name, hn⟩ := h1
      constructor
      · intro h
        injection h with h
        subst h
        exact ⟨he1, linebuf, List.mem_cons_self _ _, name, hn⟩
      · rintro ⟨he, _⟩
        rw [he, he1]
    | ok newsim1 =>
      have hne : ¬ ∃ name, scan_line libc linebuf = .table name ∧ name.length > 0
          ∧ load_table name = none := by
        intro h
        have h2 := (simulator_line_error_iff libc load_table newsim linebuf .table).2 ⟨rfl, h⟩
        rw [hl] at h2
        cases h2
      show simulator_body libc load_table newsim1 rest = .error e ↔ _
      rw [ih newsim1]
      constructor
      · rintro ⟨he, l, hl1, h⟩
        exact ⟨he, l, List.mem_cons_of_mem _ hl1, h⟩
      · rintro ⟨he, l, hl1, h⟩
        rcases List.mem_cons.1 hl1 with h1 | h1
        · subst h1
          exact absurd h hne
        · exact ⟨he, l, h1, h⟩

theorem simulator_header_cons_eq_none_iff (sscanf_d : List Char → List Char → Option Int)
    (linebuf : List Char) (rest : List (List Char)) :
    simulator_header sscanf_d (linebuf :: rest) = none ↔
      ((sscanf_d "PMDSIM SIMULATOR VERSION %d".toList linebuf = none ∧
          sscanf_d "PMDSIMTAP SIMULATOR VERSION %d".toList linebuf = none) ∨
        (∃ n, (sscanf_d "PMDSIM SIMULATOR VERSION %d".toList linebuf = some n ∨
            (sscanf_d "PMDSIM SIMULATOR VERSION %d".toList linebuf = none ∧
              sscanf_d "PMDSIMTAP SIMULATOR VERSION %d".toList linebuf = some n)) ∧
          n ≠ 1)) := by
  unfold simulator_header
  dsimp only
  generalize sscanf_d "PMDSIM SIMULATOR VERSION %d".toList linebuf = r1
  generalize sscanf_d "PMDSIMTAP SIMULATOR VERSION %d".toList linebuf = r2
  cases r1 with
  | some n =>
    by_cases hn : n = 1
    · simp [hn]
    · simp [hn]
  | none =>
    cases r2 with
    | none => simp
    | some n =>
      by_cases hn : n = 1
      · simp [hn]
      · simp [hn]

theorem simulator_header_eq_none_iff (sscanf_d : List Char → List Char → Option Int)
    (lines : List (List Char)) :
    simulator_header sscanf_d lines = none ↔
      lines = [] ∨
      ∃ linebuf rest, lines = linebuf :: rest ∧
        ((sscanf_d "PMDSIM SIMULATOR VERSION %d".toList linebuf = none ∧
            sscanf_d "PMDSIMTAP SIMULATOR VERSION %d".toList linebuf = none) ∨
          (∃ n, (sscanf_d "PMDSIM SIMULATOR VERSION %d".toList linebuf = some n ∨
              (sscanf_d "PMDSIM SIMULATOR VERSION %d".toList linebuf = none ∧
                sscanf_d "PMDSIMTAP SIMULATOR VERSION %d".toList linebuf = some n)) ∧
            n ≠ 1)) := by
  cases lines with
  | nil =>
    constructor
    · intro _
      exact Or.inl rfl
    · intro _
      rfl
  | cons linebuf rest =>
    rw [simulator_header_cons_eq_none_iff]
    constructor
    · intro h
      exact Or.inr ⟨linebuf, rest, rfl, h⟩
    · intro h
      rcases h with h | ⟨l, r, heq, h⟩
      · cases h
      · injection heq with h1 h2
        subst h1
        exact h


/-- C16. `Simulator::load` fails exactly when the file cannot be opened, the
header test fails (the first line is missing, or neither `sscanf` reads a
version from it, or the version read is not 1), a body line names an
intensity table that cannot be loaded, or a read error is flagged; every such
case raises an error; and whenever `load` raises an error every parameter of
the simulator is what it was before the call. -/
theorem simulator_load_failure_keeps_state {α : Type} [LinearOrderedField α] (libc : Libc α)
    (load_table : List Char → Option (LightSourceIntensityTable α))
    (fopen : String → Option File) (raw : LightSourceIntensityTable α)
    (self : Simulator α) (filename : String) :
    (∀ (e : SimulatorError) (self1 : Simulator α),
      Simulator.load libc load_table fopen raw self filename = (.error e, self1) →
        self1 = self) ∧
    (fopen filename = none →
      Simulator.load libc load_table fopen raw self filename = (.error .cannot_open, self)) ∧
    (∀ f, fopen filename = some f → simulator_header libc.sscanf_d f.lines = none →
      Simulator.load libc load_table fopen raw self filename = (.error .not_valid, self)) ∧
    (∀ f version, fopen filename = some f →
      simulator_header libc.sscanf_d f.lines = some version →
      (∃ linebuf ∈ f.lines.tail, ∃ name, scan_line libc linebuf = .table name ∧
        name.length > 0 ∧ load_table name = none) →
      Simulator.load libc load_table fopen raw self filename = (.error .table, self)) ∧
    (∀ f, fopen filename = some f → f.error = true →
      ∃ e, Simulator.load libc load_table fopen raw self filename = (.error e, self)) ∧
    ((∃ e, (Simulator.load libc load_table fopen raw self filename).1 = .error e) ↔
      (fopen filename = none ∨
        ∃ f, fopen filename = some f ∧
          (simulator_header libc.sscanf_d f.lines = none ∨
            (∃ linebuf ∈ f.lines.tail, ∃ name, scan_line libc linebuf = .table name ∧
              name.length > 0 ∧ load_table name = none) ∨
            f.error = true))) ∧
    (∀ lines : List (List Char), simulator_header libc.sscanf_d lines = none ↔
      lines = [] ∨
      ∃ linebuf rest, lines = linebuf :: rest ∧
        ((libc.sscanf_d "PMDSIM SIMULATOR VERSION %d".toList linebuf = none ∧
            libc.sscanf_d "PMDSIMTAP SIMULATOR VERSION %d".toList linebuf = none) ∨
          (∃ n, (libc.sscanf_d "PMDSIM SIMULATOR VERSION %d".toList linebuf = some n ∨
              (libc.sscanf_d "PMDSIM SIMULATOR VERSION %d".toList linebuf = none ∧
                libc.sscanf_d "PMDSIMTAP SIMULATOR VERSION %d".toList linebuf = some n)) ∧
            n ≠ 1))) := by
  refine ⟨?_, ?_, ?_, ?_, ?_, ?_, ?_⟩
  · intro e self1 h
    cases hf : fopen filename with
    | none =>
      rw [simulator_load_of_fopen_none libc load_table fopen raw self filename hf] at h
      injection h with _ h2
      exact h2.symm
    | some f =>
      cases hh : simulator_header libc.sscanf_d f.lines with
      | none =>
        rw [simulator_load_of_header_none libc load_table fopen raw self filename f hf hh] at h
        injection h with _ h2
        exact h2.symm
      | some version =>
        cases hb : simulator_body libc load_table (Simulator.new raw) f.lines.tail with
        | error e1 =>
          rw [simulator_load_of_body_error libc load_table fopen raw self filename f version
            e1 hf hh hb] at h
          injection h with _ h2
          exact h2.symm
        | ok newsim1 =>
          rw [simulator_load_of_body_ok libc load_table fopen raw self filename f version
            newsim1 hf hh hb] at h
          cases he : f.error with
          | true =>
            rw [he, if_pos rfl] at h
            injection h with _ h2
            exact h2.symm
          | false =>
            rw [he] at h
            simp at h
  · exact simulator_load_of_fopen_none libc load_table fopen raw self filename
  · exact simulator_load_of_header_none libc load_table fopen raw self filename
  · intro f version hf hh hex
    exact simulator_load_of_body_error libc load_table fopen raw self filename f version
      .table hf hh ((simulator_body_error_iff libc load_table _ _ _).2 ⟨rfl, hex⟩)
  · intro f hf he
    cases hh : simulator_header libc.sscanf_d f.lines with
    | none =>
      exact ⟨_, simulator_load_of_header_none libc load_table fopen raw self filename f hf hh⟩
    | some version =>
      cases hb : simulator_body libc load_table (Simulator.new raw) f.lines.tail with
      | error e1 =>
        exact ⟨_, simulator_load_of_body_error libc load_table fopen raw self filename f
          version e1 hf hh hb⟩
      | ok newsim1 =>
        refine ⟨.cannot_read, ?_⟩
        rw [simulator_load_of_body_ok libc load_table fopen raw self filename f version
          newsim1 hf hh hb, he, if_pos rfl]
  · cases hf : fopen filename with
    | none =>
      rw [simulator_load_of_fopen_none libc load_table fopen raw self filename hf]
      simp
    | some f =>
      cases hh : simulator_header libc.sscanf_d f.lines with
      | none =>
        rw [simulator_load_of_header_none libc load_table fopen raw self filename f hf hh]
        simp [hh]
      | some version =>
        cases hb : simulator_body libc load_table (Simulator.new raw) f.lines.tail with
        | error e1 =>
          rw [simulator_load_of_body_error libc load_table fopen raw self filename f version
            e1 hf hh hb]
          have h1 := (simulator_body_error_iff libc load_table _ _ _).1 hb
          constructor
          · intro _
            exact Or.inr ⟨f, rfl, Or.inr (Or.inl h1.2)⟩
          · intro _
            exact ⟨e1, rfl⟩
        | ok newsim1 =>
          rw [simulator_load_of_body_ok libc load_table fopen raw self filename f version
            newsim1 hf hh hb]
          have hno : ¬ ∃ linebuf ∈ f.lines.tail, ∃ name, scan_line libc linebuf = .table name ∧
              name.length > 0 ∧ load_table name = none := by
            intro h
            have h2 := (simulator_body_error_iff libc load_table f.lines.tail
              (Simulator.new raw) .table).2 ⟨rfl, h⟩
            rw [hb] at h2
            cases h2
          cases he : f.error with
          | true =>
            constructor
            · intro _
              exact Or.inr ⟨f, rfl, Or.inr (Or.inr he)⟩
            · intro _
              exact ⟨.cannot_read, by simp⟩
          | false =>
            constructor
            · rintro ⟨e, h⟩
              simp at h
            · rintro (h | ⟨f1, h1, h2⟩)
              · cases h
              · injection h1 with h1
                subst h1
                rcases h2 with h2 | h2 | h2
                · rw [hh] at h2
                  cases h2
                · exact absurd h2 hno
                · rw [he] at h2
                  cases h2
  · exact simulator_header_eq_none_iff libc.sscanf_d

theorem simulator_load_failure_keeps_state_witness :
    Simulator.load sample_sim_libc (fun _ => none) sim_fopen sample_table
        ((Simulator.new sample_table).set_int .pixel_width 9) "table.txt"
      = (.error .table, (Simulator.new sample_table).set_int .pixel_width 9) ∧
    Simulator.load sample_sim_libc (fun _ => none) sim_fopen sample_table
        ((Simulator.new sample_table).set_int .pixel_width 9) "missing.txt"
      = (.error .cannot_open, (Simulator.new sample_table).set_int .pixel_width 9) :=
  have h := simulator_load_failure_keeps_state sample_sim_libc (fun _ => none) sim_fopen
    sample_table ((Simulator.new sample_table).set_int .pixel_width 9)
  ⟨(h "table.txt").2.2.2.1 table_sim_file 1 (by decide) (by decide)
      ⟨"lightsource_measured_intensities 'table.gta'\n".toList, by decide,
        "table.gta".toList, by decide, by decide, rfl⟩,
    (h "missing.txt").2.1 (by decide)⟩


/-- C17. `Simulator::load` does not test the parity of `pixel_width`: the file
`PMDSIM SIMULATOR VERSION 1`, `# sensor`, `pixel_width 4`, `contrast 0.5`,
`colour 3`, `exposure_time 2000` is loaded without an error and leaves the even
`pixel_width = 4` (with `pixel_height` at its default 7) in the simulator,
a value that `OddSpinBox::validate` with the range 1..31 refuses; the spin box
accepts exactly the odd numbers of its range. -/
theorem simulator_load_accepts_even_pixel_width :
    (Simulator.load sample_sim_libc (fun _ => none) sim_fopen sample_table
      (Simulator.new sample_table) "simulator.txt").1 = .ok () ∧
    (Simulator.load sample_sim_libc (fun _ => none) sim_fopen sample_table
      (Simulator.new sample_table) "simulator.txt").2.pixel_width = 4 ∧
    (Simulator.load sample_sim_libc (fun _ => none) sim_fopen sample_table
      (Simulator.new sample_table) "simulator.txt").2.pixel_height = 7 ∧
    (4 : Int) % 2 = 0 ∧
    OddSpinBox.validate 1 31 (some 4) = false ∧
    (∀ number : Int, OddSpinBox.validate 1 31 (some number) = true ↔
      (1 ≤ number ∧ number ≤ 31 ∧ number % 2 = 1)) := by
  refine ⟨by decide, by decide, by decide, by decide, by decide, ?_⟩
  intro number
  simp only [OddSpinBox.validate, decide_eq_true_eq, ge_iff_le]
  constructor
  · rintro ⟨h1, h2, h3⟩
    refine ⟨h1, h2, ?_⟩
    have := @Int.tmod_eq_emod number 2 (by omega) (by omega)
    omega
  · rintro ⟨h1, h2, h3⟩
    refine ⟨h1, h2, ?_⟩
    have := @Int.tmod_eq_emod number 2 (by omega) (by omega)
    omega


theorem get_float_set_float {α : Type} (s : Simulator α) (key key1 : FloatKey) (v : α) :
    (s.set_float key v).get_float key1 = if key = key1 then v else s.get_float key1 := by
  cases key <;> cases key1 <;> simp [Simulator.get_float, Simulator.set_float]

theorem get_int_set_int {α : Type} (s : Simulator α) (key key1 : IntKey) (v : Int) :
    (s.set_int key v).get_int key1 = if key = key1 then v else s.get_int key1 := by
  cases key <;> cases key1 <;> simp [Simulator.get_int, Simulator.set_int]

theorem get_int_set_float {α : Type} (s : Simulator α) (key : FloatKey) (key1 : IntKey)
    (v : α) : (s.set_float key v).get_int key1 = s.get_int key1 := by
  cases key <;> cases key1 <;> rfl

theorem get_float_set_int {α : Type} (s : Simulator α) (key : IntKey) (key1 : FloatKey)
    (v : Int) : (s.set_int key v).get_float key1 = s.get_float key1 := by
  cases key <;> cases key1 <;> rfl

theorem table_set_float {α : Type} (s : Simulator α) (key : FloatKey) (v : α) :
    (s.set_float key v).lightsource_measured_intensities
      = s.lightsource_measured_intensities := by
  cases key <;> rfl

theorem table_set_int {α : Type} (s : Simulator α) (key : IntKey) (v : Int) :
    (s.set_int key v).lightsource_measured_intensities
      = s.lightsource_measured_intensities := by
  cases key <;> rfl

theorem last_float_cons {α : Type} (libc : Libc α) (key : FloatKey) (linebuf : List Char)
    (rest : List (List Char)) :
    last_float libc key (linebuf :: rest) =
      match last_float libc key rest with
      | some v => some v
      | none =>
        match scan_line libc linebuf with
        | .float key1 v => if key1 = key then some v else none
        | _ => none := by
  unfold last_float
  rw [List.reverse_cons, List.findSome?_append]
  cases List.findSome? _ rest.reverse with
  | some v => rfl
  | none =>
    simp only [List.findSome?]
    generalize (match scan_line libc linebuf with
      | .float key1 v => if key1 = key then some v else none
      | _ => none : Option α) = r
    cases r <;> rfl

theorem last_int_cons {α : Type} (libc : Libc α) (key : IntKey) (linebuf : List Char)
    (rest : List (List Char)) :
    last_int libc key (linebuf :: rest) =
      match last_int libc key rest with
      | some v => some v
      | none =>
        match scan_line libc linebuf with
        | .int key1 v => if key1 = key then some v else none
        | _ => none := by
  unfold last_int
  rw [List.reverse_cons, List.findSome?_append]
  cases List.findSome? _ rest.reverse with
  | some v => rfl
  | none =>
    simp only [List.findSome?]
    generalize (match scan_line libc linebuf with
      | .int key1 v => if key1 = key then some v else none
      | _ => none : Option Int) = r
    cases r <;> rfl

/-- The loop over lines that load no table: it ends without an exception, and
each member is the last value stored in it, or what it was. -/
theorem simulator_body_without_table {α : Type} (libc : Libc α)
    (load_table : List Char → Option (LightSourceIntensityTable α))
    (lines : List (List Char)) (newsim : Simulator α)
    (ht : ∀ linebuf ∈ lines, ∀ name, scan_line libc linebuf = .table name → name = []) :
    ∃ newsim1, simulator_body libc load_table newsim lines = .ok newsim1 ∧
      (∀ key, newsim1.get_float key
        = (last_float libc key lines).getD (newsim.get_float key)) ∧
      (∀ key, newsim1.get_int key = (last_int libc key lines).getD (newsim.get_int key)) ∧
      newsim1.lightsource_measured_intensities = newsim.lightsource_measured_intensities := by
  induction lines generalizing newsim with
  | nil =>
    exact ⟨newsim, rfl, fun _ => rfl, fun _ => rfl, rfl⟩
  | cons linebuf rest ih =>
    have ht1 : ∀ l ∈ rest, ∀ name, scan_line libc l = .table name → name = [] :=
      fun l hl => ht l (List.mem_cons_of_mem _ hl)
    have ht0 := ht linebuf (List.mem_cons_self _ _)
    unfold simulator_body
    cases hs : scan_line libc linebuf with
    | nothing =>
      obtain ⟨n1, h1, h2, h3, h4⟩ := ih newsim ht1
      refine ⟨n1, ?_, ?_, ?_, h4⟩
      · simp only [simulator_line, hs]
        exact h1
      · intro key
        rw [h2 key, last_float_cons, hs]
        cases last_float libc key rest <;> rfl
      · intro key
        rw [h3 key, last_int_cons, hs]
        cases last_int libc key rest <;> rfl
    | float key0 v =>
      obtain ⟨n1, h1, h2, h3, h4⟩ := ih (newsim.set_float key0 v) ht1
      refine ⟨n1, ?_, ?_, ?_, ?_⟩
      · simp only [simulator_line, hs]
        exact h1
      · intro key
        rw [h2 key, last_float_cons, hs, get_float_set_float]
        cases last_float libc key rest with
        | some w => rfl
        | none =>
          by_cases hk : key0 = key
          · simp [hk]
          · simp [hk]
      · intro key
        rw [h3 key, last_int_cons, hs, get_int_set_float]
        cases last_int libc key rest <;> rfl
      · rw [h4, table_set_float]
    | int key0 v =>
      obtain ⟨n1, h1, h2, h3, h4⟩ := ih (newsim.set_int key0 v) ht1
      refine ⟨n1, ?_, ?_, ?_, ?_⟩
      · simp only [simulator_line, hs]
        exact h1
      · intro key
        rw [h2 key, last_float_cons, hs, get_float_set_int]
        cases last_float libc key rest <;> rfl
      · intro key
        rw [h3 key, last_int_cons, hs, get_int_set_int]
        cases last_int libc key rest with
        | some w => rfl
        | none =>
          by_cases hk : key0 = key
          · simp [hk]
          · simp [hk]
      · rw [h4, table_set_int]
    | table name =>
      have hn := ht0 name hs
      subst hn
      obtain ⟨n1, h1, h2, h3, h4⟩ := ih newsim ht1
      refine ⟨n1, ?_, ?_, ?_, h4⟩
      · simp only [simulator_line, hs]
        exact h1
      · intro key
        rw [h2 key, last_float_cons, hs]
        cases last_float libc key rest <;> rfl
      · intro key
        rw [h3 key, last_int_cons, hs]
        cases last_int libc key rest <;> rfl

theorem simulator_header_eq_some {version : Int}
    (sscanf_d : List Char → List Char → Option Int) (lines : List (List Char))
    (h : simulator_header sscanf_d lines = some version) : version = 1 := by
  cases lines with
  | nil => simp [simulator_header] at h
  | cons linebuf rest =>
    unfold simulator_header at h
    dsimp only at h
    generalize sscanf_d "PMDSIM SIMULATOR VERSION %d".toList linebuf = r1 at h
    generalize sscanf_d "PMDSIMTAP SIMULATOR VERSION %d".toList linebuf = r2 at h
    cases r1 with
    | some n =>
      by_cases hn : n = 1
      · simp [hn] at h
        exact h.symm
      · simp [hn] at h
    | none =>
      cases r2 with
      | none => simp at h
      | some n =>
        by_cases hn : n = 1
        · simp [hn] at h
          exact h.symm
        · simp [hn] at h


/-! ## The chain of branches of `Simulator::load` and the keys of the file -/

theorem findSome_getD_cons {β γ : Type} (f : β → Option γ) (b : β) (bs : List β) (d : γ) :
    ((b :: bs).findSome? f).getD d = (f b).getD ((bs.findSome? f).getD d) := by
  rw [List.findSome?_cons]
  cases f b <;> rfl

theorem branch_float_eq {α : Type} (libc : Libc α) (linebuf : List Char) (format : String)
    (key : FloatKey) (otherwise : LineEffect α) :
    branch_float libc linebuf format key otherwise
      = (Branch.run libc linebuf (.float format key)).getD otherwise := by
  unfold branch_float
  show _ = (Option.map (LineEffect.float key) (read_float libc linebuf format)).getD otherwise
  unfold read_float
  rcases libc.sscanf_f format.toList linebuf with _ | ⟨v, _ | ⟨w, r⟩⟩ <;> rfl

theorem branch_int_eq {α : Type} (libc : Libc α) (linebuf : List Char) (format : String)
    (key : IntKey) (otherwise : LineEffect α) :
    branch_int libc linebuf format key otherwise
      = (Branch.run libc linebuf (.int format key)).getD otherwise := by
  unfold branch_int
  show _ = (Option.map (LineEffect.int key) (read_int libc linebuf format)).getD otherwise
  unfold read_int
  cases libc.sscanf_d format.toList linebuf <;> rfl

theorem branch_table_eq {α : Type} (libc : Libc α) (linebuf : List Char)
    (otherwise : LineEffect α) :
    branch_table linebuf otherwise = (Branch.run libc linebuf .table).getD otherwise := by
  have h30 : "lightsource_measured_intensities".toList.take 30
      = "lightsource_measured_intensiti".toList := by decide
  unfold branch_table
  show _ = (Option.map LineEffect.table (table_name linebuf)).getD otherwise
  unfold table_name
  rw [h30]
  split_ifs with h1
  · cases strchr (List.drop 30 linebuf) '\'' with
    | none => rfl
    | some p =>
      cases strrchr (List.drop 30 linebuf) '\'' with
      | none => rfl
      | some q =>
        dsimp only
        split_ifs <;> rfl
  · rfl

/-- The chain of lines 185-250 on a line: the first key of `branches` that
the line gives. -/
theorem scan_line_eq_branches {α : Type} (libc : Libc α) (linebuf : List Char) :
    scan_line libc linebuf
      = if is_ignored linebuf then .nothing
        else ((branches.findSome? (Branch.run libc linebuf)).getD .nothing) := by
  unfold scan_line
  by_cases hi : is_ignored linebuf = true
  · rw [if_pos hi, if_pos hi]
  · rw [if_neg hi, if_neg hi]
    simp only [branch_table_eq libc, branch_float_eq, branch_int_eq, branches,
      findSome_getD_cons, List.findSome?_nil, Option.getD_none]

theorem float_formats_of_cons_float (bs : List Branch) (format : String)
    (key1 key : FloatKey) :
    float_formats_of (.float format key1 :: bs) key
      = if key1 = key then format :: float_formats_of bs key else float_formats_of bs key := by
  unfold float_formats_of
  rw [List.filterMap_cons]
  by_cases h : key1 = key <;> simp [h]

theorem float_formats_of_cons_int (bs : List Branch) (format : String) (key1 : IntKey)
    (key : FloatKey) :
    float_formats_of (.int format key1 :: bs) key = float_formats_of bs key := by
  unfold float_formats_of
  rw [List.filterMap_cons]

theorem int_formats_of_cons_int (bs : List Branch) (format : String) (key1 key : IntKey) :
    int_formats_of (.int format key1 :: bs) key
      = if key1 = key then format :: int_formats_of bs key else int_formats_of bs key := by
  unfold int_formats_of
  rw [List.filterMap_cons]
  by_cases h : key1 = key <;> simp [h]

theorem int_formats_of_cons_float (bs : List Branch) (format : String) (key1 : FloatKey)
    (key : IntKey) :
    int_formats_of (.float format key1 :: bs) key = int_formats_of bs key := by
  unfold int_formats_of
  rw [List.filterMap_cons]

theorem float_formats_of_cons_table (bs : List Branch) (key : FloatKey) :
    float_formats_of (.table :: bs) key = float_formats_of bs key := by
  unfold float_formats_of
  rw [List.filterMap_cons]

theorem int_formats_of_cons_table (bs : List Branch) (key : IntKey) :
    int_formats_of (.table :: bs) key = int_formats_of bs key := by
  unfold int_formats_of
  rw [List.filterMap_cons]

/-- When the line gives none of the keys, no format reads it. -/
theorem formats_none_of_run_none {α : Type} (libc : Libc α) (linebuf : List Char)
    (bs : List Branch) (h : ∀ b ∈ bs, Branch.run libc linebuf b = (none : Option (LineEffect α))) :
    (∀ key, (float_formats_of bs key).findSome? (read_float libc linebuf) = none) ∧
    (∀ key, (int_formats_of bs key).findSome? (read_int libc linebuf) = none) := by
  induction bs with
  | nil => exact ⟨fun _ => rfl, fun _ => rfl⟩
  | cons b bs ih =>
    obtain ⟨ih1, ih2⟩ := ih (fun b1 hb1 => h b1 (List.mem_cons_of_mem _ hb1))
    have hb := h b (List.mem_cons_self _ _)
    cases b with
    | float format key1 =>
      have hr : read_float libc linebuf format = none := by
        unfold Branch.run at hb
        simpa using hb
      refine ⟨fun key => ?_, fun key => ?_⟩
      · rw [float_formats_of_cons_float]
        split_ifs
        · rw [List.findSome?_cons, hr]
          exact ih1 key
        · exact ih1 key
      · rw [int_formats_of_cons_float]
        exact ih2 key
    | int format key1 =>
      have hr : read_int libc linebuf format = none := by
        unfold Branch.run at hb
        simpa using hb
      refine ⟨fun key => ?_, fun key => ?_⟩
      · rw [float_formats_of_cons_int]
        exact ih1 key
      · rw [int_formats_of_cons_int]
        split_ifs
        · rw [List.findSome?_cons, hr]
          exact ih2 key
        · exact ih2 key
    | table =>
      refine ⟨fun key => ?_, fun key => ?_⟩
      · rw [float_formats_of_cons_table]
        exact ih1 key
      · rw [int_formats_of_cons_table]
        exact ih2 key

/-- When the line gives at most one of the keys, the value that the first
such key stores in a member is the value that the formats of the member
read. -/
theorem value_of_exclusive {α : Type} (libc : Libc α) (linebuf : List Char)
    (bs : List Branch)
    (hx : bs.countP (fun b => (Branch.run libc linebuf b).isSome) ≤ 1) :
    (∀ key, ((bs.findSome? (Branch.run libc linebuf)).getD .nothing).float_value key
      = (float_formats_of bs key).findSome? (read_float libc linebuf)) ∧
    (∀ key, ((bs.findSome? (Branch.run libc linebuf)).getD .nothing).int_value key
      = (int_formats_of bs key).findSome? (read_int libc linebuf)) := by
  induction bs with
  | nil => exact ⟨fun _ => rfl, fun _ => rfl⟩
  | cons b bs ih =>
    rw [List.countP_cons] at hx
    cases hrun : Branch.run libc linebuf b with
    | none =>
      rw [hrun] at hx
      obtain ⟨ih1, ih2⟩ := ih (by simpa using hx)
      cases b with
      | float format key1 =>
        have hr : read_float libc linebuf format = none := by
          unfold Branch.run at hrun
          simpa using hrun
        refine ⟨fun key => ?_, fun key => ?_⟩
        · rw [List.findSome?_cons, hrun, float_formats_of_cons_float]
          split_ifs
          · rw [List.findSome?_cons, hr]
            exact ih1 key
          · exact ih1 key
        · rw [List.findSome?_cons, hrun, int_formats_of_cons_float]
          exact ih2 key
      | int format key1 =>
        have hr : read_int libc linebuf format = none := by
          unfold Branch.run at hrun
          simpa using hrun
        refine ⟨fun key => ?_, fun key => ?_⟩
        · rw [List.findSome?_cons, hrun, float_formats_of_cons_int]
          exact ih1 key
        · rw [List.findSome?_cons, hrun, int_formats_of_cons_int]
          split_ifs
          · rw [List.findSome?_cons, hr]
            exact ih2 key
          · exact ih2 key
      | table =>
        refine ⟨fun key => ?_, fun key => ?_⟩
        · rw [List.findSome?_cons, hrun, float_formats_of_cons_table]
          exact ih1 key
        · rw [List.findSome?_cons, hrun, int_formats_of_cons_table]
          exact ih2 key
    | some e =>
      rw [hrun] at hx
      have h0 : bs.countP (fun b => (Branch.run libc linebuf b).isSome) = 0 := by
        simp only [Option.isSome_some, if_true] at hx
        omega
      have hnone : ∀ b1 ∈ bs, Branch.run libc linebuf b1 = (none : Option (LineEffect α)) := by
        intro b1 hb1
        have := List.countP_eq_zero.1 h0 b1 hb1
        simpa using this
      obtain ⟨hn1, hn2⟩ := formats_none_of_run_none libc linebuf bs hnone
      cases b with
      | float format key1 =>
        replace hrun : Option.map (LineEffect.float key1) (read_float libc linebuf format)
            = some e := hrun
        cases hr : read_float libc linebuf format with
        | none =>
          rw [hr] at hrun
          cases hrun
        | some v =>
          rw [hr] at hrun
          injection hrun with hrun
          subst hrun
          refine ⟨fun key => ?_, fun key => ?_⟩
          · rw [List.findSome?_cons]
            simp only [Branch.run, hr, Option.map_some', Option.getD_some,
              LineEffect.float_value]
            rw [float_formats_of_cons_float]
            split_ifs
            · rw [List.findSome?_cons, hr]
            · exact (hn1 key).symm
          · rw [List.findSome?_cons]
            simp only [Branch.run, hr, Option.map_some', Option.getD_some,
              LineEffect.int_value]
            rw [int_formats_of_cons_float]
            exact (hn2 key).symm
      | int format key1 =>
        replace hrun : Option.map (LineEffect.int key1) (read_int libc linebuf format)
            = some e := hrun
        cases hr : read_int libc linebuf format with
        | none =>
          rw [hr] at hrun
          cases hrun
        | some v =>
          rw [hr] at hrun
          injection hrun with hrun
          subst hrun
          refine ⟨fun key => ?_, fun key => ?_⟩
          · rw [List.findSome?_cons]
            simp only [Branch.run, hr, Option.map_some', Option.getD_some,
              LineEffect.float_value]
            rw [float_formats_of_cons_int]
            exact (hn1 key).symm
          · rw [List.findSome?_cons]
            simp only [Branch.run, hr, Option.map_some', Option.getD_some,
              LineEffect.int_value]
            rw [int_formats_of_cons_int]
            split_ifs
            · rw [List.findSome?_cons, hr]
            · exact (hn2 key).symm
      | table =>
        replace hrun : Option.map LineEffect.table (table_name linebuf) = some e := hrun
        cases hr : table_name linebuf with
        | none =>
          rw [hr] at hrun
          cases hrun
        | some name =>
          rw [hr] at hrun
          injection hrun with hrun
          subst hrun
          refine ⟨fun key => ?_, fun key => ?_⟩
          · rw [List.findSome?_cons]
            simp only [Branch.run, hr, Option.map_some', Option.getD_some,
              LineEffect.float_value]
            rw [float_formats_of_cons_table]
            exact (hn1 key).symm
          · rw [List.findSome?_cons]
            simp only [Branch.run, hr, Option.map_some', Option.getD_some,
              LineEffect.int_value]
            rw [int_formats_of_cons_table]
            exact (hn2 key).symm

/-- What a line stores in a member, for a line that gives at most one key. -/
theorem scan_line_value {α : Type} (libc : Libc α) (linebuf : List Char)
    (hx : exclusive libc linebuf = true) :
    (∀ key, (scan_line libc linebuf).float_value key
      = if is_ignored linebuf then none
        else (float_formats_of branches key).findSome? (read_float libc linebuf)) ∧
    (∀ key, (scan_line libc linebuf : LineEffect α).int_value key
      = if is_ignored linebuf then none
        else (int_formats_of branches key).findSome? (read_int libc linebuf)) := by
  rw [scan_line_eq_branches libc linebuf]
  have hx1 : branches.countP (fun b => (Branch.run libc linebuf b).isSome) ≤ 1 :=
    of_decide_eq_true hx
  obtain ⟨h1, h2⟩ := value_of_exclusive libc linebuf branches hx1
  by_cases hi : is_ignored linebuf = true
  · simp only [hi, if_true]
    exact ⟨fun _ => rfl, fun _ => rfl⟩
  · simp only [hi, if_false]
    exact ⟨h1, h2⟩

/-- A line that takes the branch of the table gives the name of the table. -/
theorem scan_line_table_name {α : Type} (libc : Libc α) (linebuf : List Char)
    (name : List Char) (h : scan_line libc linebuf = .table name) :
    table_name linebuf = some name := by
  rw [scan_line_eq_branches libc linebuf] at h
  split_ifs at h
  cases hfs : branches.findSome? (Branch.run libc linebuf) with
  | none =>
    rw [hfs] at h
    cases h
  | some e =>
    rw [hfs, Option.getD_some] at h
    subst h
    obtain ⟨b, _, hb⟩ := List.exists_of_findSome?_eq_some hfs
    cases b with
    | float format key =>
      replace hb : Option.map (LineEffect.float key) (read_float libc linebuf format)
          = some (LineEffect.table name) := hb
      cases hr : read_float libc linebuf format with
      | none =>
        rw [hr] at hb
        cases hb
      | some v =>
        rw [hr] at hb
        cases hb
    | int format key =>
      replace hb : Option.map (LineEffect.int key) (read_int libc linebuf format)
          = some (LineEffect.table name) := hb
      cases hr : read_int libc linebuf format with
      | none =>
        rw [hr] at hb
        cases hb
      | some v =>
        rw [hr] at hb
        cases hb
    | table =>
      replace hb : Option.map LineEffect.table (table_name linebuf)
          = some (LineEffect.table (α := α) name) := hb
      cases hr : table_name linebuf with
      | none =>
        rw [hr] at hb
        cases hb
      | some name1 =>
        rw [hr] at hb
        injection hb with hb
        injection hb with hb
        rw [hb]

/-- A line that gives no key has no effect. -/
theorem scan_line_unknown_key {α : Type} (libc : Libc α) (linebuf : List Char)
    (hu : unknown_key libc linebuf = true) :
    scan_line libc linebuf = .nothing := by
  rw [scan_line_eq_branches libc linebuf]
  split_ifs
  · rfl
  · have h : branches.findSome? (Branch.run libc linebuf) = none := by
      rw [List.findSome?_eq_none_iff]
      intro b hb
      unfold unknown_key at hu
      rw [List.all_eq_true] at hu
      have := hu b hb
      simpa using this
    rw [h]
    rfl

theorem findSome_congr {β γ : Type} (f g : β → Option γ) (l : List β)
    (h : ∀ b ∈ l, f b = g b) : l.findSome? f = l.findSome? g := by
  induction l with
  | nil => rfl
  | cons b bs ih =>
    rw [List.findSome?_cons, List.findSome?_cons, h b (List.mem_cons_self _ _),
      ih (fun b1 hb1 => h b1 (List.mem_cons_of_mem _ hb1))]

/-- The last value stored in a member is the value of the last line that
gives its key. -/
theorem last_float_eq_last_given {α : Type} (libc : Libc α) (lines : List (List Char))
    (hx : ∀ line ∈ lines, exclusive libc line = true) (key : FloatKey) :
    last_float libc key lines = last_given_float libc (float_formats_of branches key) lines := by
  unfold last_float last_given_float
  apply findSome_congr
  intro line hl
  rw [List.mem_reverse] at hl
  exact (scan_line_value libc line (hx line hl)).1 key

theorem last_int_eq_last_given {α : Type} (libc : Libc α) (lines : List (List Char))
    (hx : ∀ line ∈ lines, exclusive libc line = true) (key : IntKey) :
    (last_int libc key lines : Option Int)
      = last_given_int libc (int_formats_of branches key) lines := by
  unfold last_int last_given_int
  apply findSome_congr
  intro line hl
  rw [List.mem_reverse] at hl
  exact (scan_line_value libc line (hx line hl)).2 key

/-- Lines without effect can be removed from the body. -/
theorem simulator_body_filter {α : Type} (libc : Libc α)
    (load_table : List Char → Option (LightSourceIntensityTable α))
    (removed : List Char → Bool)
    (hr : ∀ line, removed line = true → scan_line libc line = .nothing)
    (lines : List (List Char)) :
    ∀ newsim : Simulator α,
      simulator_body libc load_table newsim (lines.filter (fun line => !removed line))
        = simulator_body libc load_table newsim lines := by
  induction lines with
  | nil =>
    intro newsim
    rfl
  | cons line rest ih =>
    intro newsim
    by_cases h : removed line = true
    · have hf : (line :: rest).filter (fun line => !removed line)
          = rest.filter (fun line => !removed line) := by
        rw [List.filter_cons]
        simp [h]
      rw [hf, ih newsim]
      conv_rhs => rw [simulator_body]
      simp only [simulator_line, hr line h]
    · have hf : (line :: rest).filter (fun line => !removed line)
          = line :: rest.filter (fun line => !removed line) := by
        rw [List.filter_cons]
        simp [h]
      rw [hf, simulator_body]
      conv_rhs => rw [simulator_body]
      cases simulator_line libc load_table newsim line with
      | error e => rfl
      | ok n1 => exact ih n1

/-- C18, amended. For a version-1 simulator file that opens, has no read
error, has lines of at most 511 characters (the end of line included), has no
body line that names a measured-intensity table, and has no body line that
gives two keys:
`Simulator::load` reads the lines whole and succeeds, and the simulator it
leaves is the same for every prior state. Each parameter is the value of the
last body line that is no comment and no empty line and gives a value with
the format of its key (`lightsource_power` is a second key of
`lightsource_simple_power`), or the default of `Simulator()` when there is no
such line; the intensity table is the default one; and a file that has the
same lines without some comment lines, empty lines and lines that give no key
leaves the same simulator. -/
theorem simulator_load_is_function_of_file {α : Type} [LinearOrderedField α]
    (libc : Libc α) (load_table : List Char → Option (LightSourceIntensityTable α))
    (fopen : String → Option File) (raw : LightSourceIntensityTable α)
    (self : Simulator α) (filename : String) (f : File) (header : List Char)
    (body : List (List Char))
    (hf : fopen filename = some f)
    (htext : text_lines f.content = header :: body)
    (hshort : ∀ line ∈ header :: body, line.length ≤ 511)
    (hh : simulator_header libc.sscanf_d (header :: body) = some 1)
    (he : f.error = false)
    (ht : ∀ line ∈ body, names_no_table line = true)
    (hx : ∀ line ∈ body, exclusive libc line = true) :
    f.lines = header :: body ∧
    ∃ newsim1 : Simulator α,
      Simulator.load libc load_table fopen raw self filename = (.ok (), newsim1) ∧
      (∀ self2 : Simulator α,
        Simulator.load libc load_table fopen raw self2 filename = (.ok (), newsim1)) ∧
      newsim1.aperture_angle
        = (last_given_float libc ["aperture_angle %f"] body).getD 70 ∧
      newsim1.near_plane
        = (last_given_float libc ["near_plane %f"] body).getD (5 / 100) ∧
      newsim1.far_plane
        = (last_given_float libc ["far_plane %f"] body).getD 2 ∧
      newsim1.material_lambertian_reflectivity
        = (last_given_float libc ["material_lambertian_reflectivity %f"] body).getD (7 / 10) ∧
      newsim1.lightsource_simple_power
        = (last_given_float libc ["lightsource_simple_power %f", "lightsource_power %f"] body).getD 200 ∧
      newsim1.lightsource_simple_aperture_angle
        = (last_given_float libc ["lightsource_simple_aperture_angle %f"] body).getD 90 ∧
      newsim1.lens_aperture_diameter
        = (last_given_float libc ["lens_aperture_diameter %f"] body).getD (889 / 100) ∧
      newsim1.lens_focal_length
        = (last_given_float libc ["lens_focal_length %f"] body).getD 16 ∧
      newsim1.pixel_mask_x
        = (last_given_float libc ["pixel_mask_x %f"] body).getD ((13 / 10) / (72 / 10)) ∧
      newsim1.pixel_mask_y
        = (last_given_float libc ["pixel_mask_y %f"] body).getD 0 ∧
      newsim1.pixel_mask_width
        = (last_given_float libc ["pixel_mask_width %f"] body).getD ((46 / 10) / (72 / 10)) ∧
      newsim1.pixel_mask_height
        = (last_given_float libc ["pixel_mask_height %f"] body).getD (1 / 2) ∧
      newsim1.pixel_pitch
        = (last_given_float libc ["pixel_pitch %f"] body).getD 12 ∧
      newsim1.contrast
        = (last_given_float libc ["contrast %f"] body).getD (75 / 100) ∧
      newsim1.exposure_time_samples
        = (last_given_int libc ["exposure_time_samples %d"] body).getD 1 ∧
      newsim1.rendering_method
        = (last_given_int libc ["rendering_method %d"] body).getD 0 ∧
      newsim1.material_model
        = (last_given_int libc ["material_model %d"] body).getD 0 ∧
      newsim1.lightsource_model
        = (last_given_int libc ["lightsource_model %d"] body).getD 0 ∧
      newsim1.sensor_width
        = (last_given_int libc ["sensor_width %d"] body).getD 352 ∧
      newsim1.sensor_height
        = (last_given_int libc ["sensor_height %d"] body).getD 288 ∧
      newsim1.pixel_width
        = (last_given_int libc ["pixel_width %d"] body).getD 7 ∧
      newsim1.pixel_height
        = (last_given_int libc ["pixel_height %d"] body).getD 7 ∧
      newsim1.readout_time
        = (last_given_int libc ["readout_time %d"] body).getD 1000 ∧
      newsim1.modulation_frequency
        = (last_given_int libc ["modulation_frequency %d"] body).getD 10000000 ∧
      newsim1.exposure_time
        = (last_given_int libc ["exposure_time %d"] body).getD 1000 ∧
      newsim1.lightsource_measured_intensities
        = { raw with filename := [], width := 0, height := 0, table := [] } ∧
      (∀ (removed : List Char → Bool) (f1 : File),
        (∀ line, removed line = true →
          is_ignored line = true ∨ unknown_key libc line = true) →
        text_lines f1.content = header :: body.filter (fun line => !removed line) →
        f1.error = false →
        ∀ self2 : Simulator α,
          Simulator.load libc load_table (fun _ => some f1) raw self2 filename
            = (.ok (), newsim1)) := by
  have hlines : f.lines = header :: body := by
    rw [File.lines_eq_text_lines f (by rw [htext]; exact hshort), htext]
  have hh1 : simulator_header libc.sscanf_d f.lines = some 1 := by
    rw [hlines]
    exact hh
  have ht1 : ∀ linebuf ∈ body, ∀ name,
      scan_line libc linebuf = .table name → name = [] := by
    intro linebuf hl name hs
    have h5 := ht linebuf hl
    unfold names_no_table at h5
    rw [scan_line_table_name libc linebuf name hs] at h5
    exact List.isEmpty_iff.1 h5
  obtain ⟨n1, h1, h2, h3, h4⟩ :=
    simulator_body_without_table libc load_table body (Simulator.new raw) ht1
  have hb : simulator_body libc load_table (Simulator.new raw) f.lines.tail = .ok n1 := by
    rw [hlines]
    exact h1
  replace h2 : ∀ key, n1.get_float key
      = (last_given_float libc (float_formats_of branches key) body).getD
          ((Simulator.new raw).get_float key) := by
    intro key
    rw [h2 key, last_float_eq_last_given libc body hx key]
  replace h3 : ∀ key, n1.get_int key
      = (last_given_int libc (int_formats_of branches key) body).getD
          ((Simulator.new raw : Simulator α).get_int key) := by
    intro key
    rw [h3 key, last_int_eq_last_given libc body hx key]
  refine ⟨hlines, n1, ?_, ?_,
    h2 .aperture_angle,
    h2 .near_plane,
    h2 .far_plane,
    h2 .material_lambertian_reflectivity,
    h2 .lightsource_simple_power,
    h2 .lightsource_simple_aperture_angle,
    h2 .lens_aperture_diameter,
    h2 .lens_focal_length,
    h2 .pixel_mask_x,
    h2 .pixel_mask_y,
    h2 .pixel_mask_width,
    h2 .pixel_mask_height,
    h2 .pixel_pitch,
    h2 .contrast,
    h3 .exposure_time_samples,
    h3 .rendering_method,
    h3 .material_model,
    h3 .lightsource_model,
    h3 .sensor_width,
    h3 .sensor_height,
    h3 .pixel_width,
    h3 .pixel_height,
    h3 .readout_time,
    h3 .modulation_frequency,
    h3 .exposure_time,
    h4, ?_⟩
  · rw [simulator_load_of_body_ok libc load_table fopen raw self filename f 1 n1 hf hh1 hb, he]
    rfl
  · intro self2
    rw [simulator_load_of_body_ok libc load_table fopen raw self2 filename f 1 n1 hf hh1 hb, he]
    rfl
  · intro removed f1 hremoved htext1 he1 self2
    have hshort1 : ∀ line ∈ text_lines f1.content, line.length ≤ 511 := by
      intro line hl
      rw [htext1] at hl
      rcases List.mem_cons.1 hl with h | h
      · rw [h]
        exact hshort header (List.mem_cons_self _ _)
      · exact hshort line (List.mem_cons_of_mem _ (List.mem_of_mem_filter h))
    have hlines1 : f1.lines = header :: body.filter (fun line => !removed line) := by
      rw [File.lines_eq_text_lines f1 hshort1, htext1]
    have hh2 : simulator_header libc.sscanf_d f1.lines = some 1 := by
      rw [hlines1]
      exact hh
    have hnothing : ∀ line, removed line = true → scan_line libc line = .nothing := by
      intro line hr
      rcases hremoved line hr with h | h
      · unfold scan_line
        rw [if_pos h]
      · exact scan_line_unknown_key libc line h
    have hb1 : simulator_body libc load_table (Simulator.new raw) f1.lines.tail = .ok n1 := by
      rw [hlines1]
      show simulator_body libc load_table (Simulator.new raw)
        (body.filter (fun line => !removed line)) = _
      rw [simulator_body_filter libc load_table removed hnothing body (Simulator.new raw)]
      exact h1
    rw [simulator_load_of_body_ok libc load_table (fun _ => some f1) raw self2 filename f1 1 n1
      rfl hh2 hb1, he1]
    rfl
theorem simulator_load_is_function_of_file_witness :
    text_lines planes_sim_file.content
      = "PMDSIM SIMULATOR VERSION 1\n".toList :: (text_lines planes_sim_file.content).tail ∧
    (text_lines planes_sim_file.content).tail
      = ["near_plane 0.5\n".toList, "far_plane 9\n".toList, "# planes\n".toList,
          "lightsource_power 150\n".toList, "sensor_height 100\n".toList,
          "readout_time 500\n".toList, "near_plane 0.25\n".toList, "colour 3\n".toList] ∧
    (∀ line ∈ (text_lines planes_sim_file.content).tail,
      names_no_table line = true ∧ exclusive planes_sim_libc line = true) ∧
    ∃ newsim1 : Simulator ℚ,
      Simulator.load planes_sim_libc (fun _ => none) (fun _ => some planes_sim_file)
          sample_table ((Simulator.new sample_table).set_int .sensor_width 9) "simulator.txt"
        = (.ok (), newsim1) ∧
      newsim1.aperture_angle = 70 ∧
      newsim1.near_plane = 1 / 4 ∧
      newsim1.far_plane = 9 ∧
      newsim1.material_lambertian_reflectivity = 7 / 10 ∧
      newsim1.lightsource_simple_power = 150 ∧
      newsim1.lightsource_simple_aperture_angle = 90 ∧
      newsim1.lens_aperture_diameter = 889 / 100 ∧
      newsim1.lens_focal_length = 16 ∧
      newsim1.pixel_mask_x = (13 / 10) / (72 / 10) ∧
      newsim1.pixel_mask_y = 0 ∧
      newsim1.pixel_mask_width = (46 / 10) / (72 / 10) ∧
      newsim1.pixel_mask_height = 1 / 2 ∧
      newsim1.pixel_pitch = 12 ∧
      newsim1.contrast = 75 / 100 ∧
      newsim1.exposure_time_samples = 1 ∧
      newsim1.rendering_method = 0 ∧
      newsim1.material_model = 0 ∧
      newsim1.lightsource_model = 0 ∧
      newsim1.sensor_width = 352 ∧
      newsim1.sensor_height = 100 ∧
      newsim1.pixel_width = 7 ∧
      newsim1.pixel_height = 7 ∧
      newsim1.readout_time = 500 ∧
      newsim1.modulation_frequency = 10000000 ∧
      newsim1.exposure_time = 1000 ∧
      newsim1.lightsource_measured_intensities = sample_table :=
  have h := (simulator_load_is_function_of_file planes_sim_libc (fun _ => none)
    (fun _ => some planes_sim_file) sample_table
    ((Simulator.new sample_table).set_int .sensor_width 9) "simulator.txt"
    planes_sim_file "PMDSIM SIMULATOR VERSION 1\n".toList
    (text_lines planes_sim_file.content).tail rfl (by decide) (by decide) (by decide) rfl
    (by decide) (by decide)).2
  match h with
  | ⟨newsim1, h1, _, a0, a1, a2, a3, a4, a5, a6, a7, a8, a9, a10, a11, a12, a13, a14, a15, a16, a17, a18, a19, a20, a21, a22, a23, a24, a25, _⟩ =>
    ⟨by decide, by decide, by decide, newsim1, h1, a0.trans rfl, a1.trans rfl, a2.trans rfl, a3.trans rfl, a4.trans rfl, a5.trans rfl, a6.trans rfl, a7.trans rfl, a8.trans rfl, a9.trans rfl, a10.trans rfl, a11.trans rfl, a12.trans rfl, a13.trans rfl, a14.trans rfl, a15.trans rfl, a16.trans rfl, a17.trans rfl, a18.trans rfl, a19.trans rfl, a20.trans rfl, a21.trans rfl, a22.trans rfl, a23.trans rfl, a24.trans rfl, a25.trans rfl⟩

set_option maxRecDepth 100000 in
/-- C18 as stated fails: the second line of `long_comment_sim_file` starts
with `#` and has 525 characters, so the file has no line that gives the key
`pixel_width`, whose default is 7. `fgets` returns the first 511 characters
of the line, which are skipped, and then its last 14 characters
`pixel_width 4`, which are read as a line of the key, and the simulator is
left with `pixel_width = 4`. -/
theorem simulator_load_is_function_of_file_counterexample :
    text_lines long_comment_sim_file.content
      = ["PMDSIM SIMULATOR VERSION 1\n".toList,
          '#' :: List.replicate 510 'x' ++ "pixel_width 4\n".toList] ∧
    is_ignored ('#' :: List.replicate 510 'x' ++ "pixel_width 4\n".toList) = true ∧
    last_given_int sample_sim_libc ["pixel_width %d"]
      ['#' :: List.replicate 510 'x' ++ "pixel_width 4\n".toList] = none ∧
    (Simulator.new sample_table : Simulator ℚ).pixel_width = 7 ∧
    long_comment_sim_file.lines
      = ["PMDSIM SIMULATOR VERSION 1\n".toList, '#' :: List.replicate 510 'x',
          "pixel_width 4\n".toList] ∧
    (Simulator.load sample_sim_libc (fun _ => none) (fun _ => some long_comment_sim_file)
      sample_table (Simulator.new sample_table) "simulator.txt").1 = .ok () ∧
    (Simulator.load sample_sim_libc (fun _ => none) (fun _ => some long_comment_sim_file)
      sample_table (Simulator.new sample_table) "simulator.txt").2.pixel_width = 4 := by
  refine ⟨by decide, by decide, by decide, by decide, by decide, by decide, by decide⟩

/-! ## The pixel map -/

/-- The positive part of the overlap of two intervals is a difference of
clamped end points. -/
theorem overlap_eq_clamp_sub {α : Type} [LinearOrderedField α] (a b u1 u2 : α)
    (hab : a ≤ b) (hu : u1 ≤ u2) :
    max 0 (min u2 b - max u1 a) = max a (min u2 b) - max a (min u1 b) := by
  rcases le_total u2 b with h2 | h2 <;> rcases le_total u1 a with h1 | h1 <;>
    rcases le_total u2 a with h3 | h3 <;> rcases le_total u1 b with h4 | h4 <;>
    simp only [min_eq_left, min_eq_right, max_eq_left, max_eq_right, h1, h2, h3, h4, hab] <;>
    first
      | (rw [max_eq_left (by linarith)]; linarith)
      | rw [max_eq_right (by linarith)]

theorem subarea_eq_mul {α : Type} [LinearOrderedField α] (sw sh : α) :
    (if sw > 0 ∧ sh > 0 then sw * sh else 0) = max 0 sw * max 0 sh := by
  by_cases h1 : sw > 0
  · by_cases h2 : sh > 0
    · rw [if_pos ⟨h1, h2⟩, max_eq_right (le_of_lt h1), max_eq_right (le_of_lt h2)]
    · rw [if_neg (fun h => h2 h.2), max_eq_left (a := 0) (b := sh) (le_of_not_lt h2), mul_zero]
  · rw [if_neg (fun h => h1 h.1), max_eq_left (a := 0) (b := sw) (le_of_not_lt h1), zero_mul]

theorem pixel_map_entry_eq {α : Type} [LinearOrderedField α] (W H : Int)
    (mx my mw mh : α) (x y : Int) :
    pixel_map_entry W H mx my mw mh x y
      = max 0 (min ((x : α) * (1 / (W : α)) + 1 / (W : α)) (mx + mw)
            - max ((x : α) * (1 / (W : α))) mx)
        * max 0 (min ((y : α) * (1 / (H : α)) + 1 / (H : α)) (my + mh)
            - max ((y : α) * (1 / (H : α))) my)
        * ((wrap_int (W * H) : Int) : α) := by
  unfold pixel_map_entry
  dsimp only
  rw [subarea_eq_mul]

theorem sum_map_mul_const {α : Type} [LinearOrderedField α] (xs : List Nat) (g : Nat → α)
    (c d : α) : (xs.map (fun x => g x * c * d)).sum = (xs.map g).sum * c * d := by
  induction xs with
  | nil => simp
  | cons x rest ih =>
    rw [List.map_cons, List.sum_cons, ih, List.map_cons, List.sum_cons]
    ring

theorem sum_flatMap_mul {α : Type} [LinearOrderedField α] (ys xs : List Nat)
    (g h : Nat → α) (c : α) :
    (ys.flatMap (fun y => xs.map (fun x => g x * h y * c))).sum
      = (xs.map g).sum * (ys.map h).sum * c := by
  induction ys with
  | nil => simp
  | cons y rest ih =>
    rw [List.flatMap_cons, List.sum_append, ih, sum_map_mul_const, List.map_cons,
      List.sum_cons]
    ring

theorem sum_range_telescope {α : Type} [LinearOrderedField α] (F : α → α) (W : α) (n : Nat) :
    ((List.range n).map (fun x : Nat => F (((x : α) + 1) / W) - F ((x : α) / W))).sum
      = F ((n : α) / W) - F 0 := by
  induction n with
  | zero => simp
  | succ n ih =>
    rw [List.range_succ, List.map_append, List.sum_append, ih]
    simp only [List.map_cons, List.map_nil, List.sum_cons, List.sum_nil, add_zero,
      Nat.cast_succ]
    ring

/-- The overlaps of the `n` cells of width `1 / n` with an interval inside
`[0, 1]` add up to the length of the interval. -/
theorem sum_axis_overlap {α : Type} [LinearOrderedField α] (W : Int) (a w : α)
    (hW : 1 ≤ W) (ha : 0 ≤ a) (hw : 0 ≤ w) (haw : a + w ≤ 1) :
    ((List.range W.toNat).map (fun x : Nat =>
      max 0 (min ((((Int.ofNat x : Int) : α)) * (1 / (W : α)) + 1 / (W : α)) (a + w)
        - max (((Int.ofNat x : Int) : α) * (1 / (W : α))) a))).sum = w := by
  have hWpos : (0 : α) < (W : α) := by
    have : (0 : Int) < W := by omega
    exact_mod_cast this
  have hterm : ∀ x : Nat,
      max 0 (min ((((Int.ofNat x : Int) : α)) * (1 / (W : α)) + 1 / (W : α)) (a + w)
        - max (((Int.ofNat x : Int) : α) * (1 / (W : α))) a)
      = (fun u => max a (min u (a + w))) (((x : α) + 1) / (W : α))
        - (fun u => max a (min u (a + w))) ((x : α) / (W : α)) := by
    intro x
    have h1 : ((Int.ofNat x : Int) : α) * (1 / (W : α)) + 1 / (W : α)
        = ((x : α) + 1) / (W : α) := by
      simp only [Int.ofNat_eq_coe, Int.cast_natCast]
      ring
    have h2 : ((Int.ofNat x : Int) : α) * (1 / (W : α)) = (x : α) / (W : α) := by
      simp only [Int.ofNat_eq_coe, Int.cast_natCast]
      ring
    rw [h1, h2]
    exact overlap_eq_clamp_sub a (a + w) _ _ (by linarith)
      (div_le_div_of_nonneg_right (by linarith) (le_of_lt hWpos))
  rw [List.map_congr_left (fun x _ => hterm x),
    sum_range_telescope (fun u => max a (min u (a + w))) (W : α) W.toNat]
  have hcast : ((W.toNat : Nat) : α) = (W : α) := by
    have h : ((W.toNat : Nat) : Int) = W := Int.toNat_of_nonneg (by omega)
    exact_mod_cast congrArg (fun z : Int => (z : α)) h
  rw [hcast, div_self (ne_of_gt hWpos), min_eq_right haw, max_eq_right (by linarith),
    min_eq_left (by linarith), max_eq_left ha]
  ring


theorem wrap_int_of_range (z : Int) (h1 : -2147483648 ≤ z) (h2 : z < 2147483648) :
    wrap_int z = z := by
  unfold wrap_int
  omega

theorem getElem?_flatMap_rows {β : Type} (f : Nat → List β) (n : Nat)
    (hf : ∀ y, (f y).length = n) (ys : List Nat) (j i : Nat) (hi : i < n) :
    (ys.flatMap f)[j * n + i]? = (ys[j]?).bind (fun y => (f y)[i]?) := by
  induction ys generalizing j with
  | nil => simp
  | cons y rest ih =>
    rw [List.flatMap_cons]
    cases j with
    | zero =>
      rw [Nat.zero_mul, Nat.zero_add, List.getElem?_append_left (by rw [hf]; exact hi)]
      simp
    | succ j =>
      have hge : (f y).length ≤ (j + 1) * n + i := by
        rw [hf, Nat.add_mul, Nat.one_mul]
        omega
      rw [List.getElem?_append_right hge]
      have hidx : (j + 1) * n + i - (f y).length = j * n + i := by
        rw [hf, Nat.add_mul, Nat.one_mul]
        omega
      rw [hidx, ih j]
      simp

theorem length_flatMap_rows {β : Type} (f : Nat → List β) (n : Nat)
    (hf : ∀ y, (f y).length = n) (ys : List Nat) :
    (ys.flatMap f).length = ys.length * n := by
  induction ys with
  | nil => simp
  | cons y rest ih =>
    rw [List.flatMap_cons, List.length_append, ih, hf, List.length_cons, Nat.add_mul,
      Nat.one_mul, Nat.add_comm]

theorem pixel_map_entry_eq_overlap {α : Type} [LinearOrderedField α] (W H : Int)
    (mx my mw mh : α) (hW : 1 ≤ W) (hH : 1 ≤ H) (hWH : W * H < 2147483648) (x y : Int) :
    pixel_map_entry W H mx my mw mh x y = normalized_overlap W H mx my mw mh x y := by
  have hWpos : (0 : α) < (W : α) := by
    have : (0 : Int) < W := by omega
    exact_mod_cast this
  have hHpos : (0 : α) < (H : α) := by
    have : (0 : Int) < H := by omega
    exact_mod_cast this
  have hprod : 0 ≤ W * H := mul_nonneg (by omega) (by omega)
  rw [pixel_map_entry_eq, wrap_int_of_range (W * H) (by omega) hWH]
  unfold normalized_overlap overlap_area
  have h1 : (x : α) * (1 / (W : α)) + 1 / (W : α) = ((x : α) + 1) / (W : α) := by ring
  have h2 : (x : α) * (1 / (W : α)) = (x : α) / (W : α) := by ring
  have h3 : (y : α) * (1 / (H : α)) + 1 / (H : α) = ((y : α) + 1) / (H : α) := by ring
  have h4 : (y : α) * (1 / (H : α)) = (y : α) / (H : α) := by ring
  rw [h1, h2, h3, h4, Int.cast_mul]
  field_simp

theorem pixel_map_sum_eq {α : Type} [LinearOrderedField α] (W H : Int)
    (mx my mw mh : α) :
    (pixel_map W H mx my mw mh).sum
      = ((List.range W.toNat).map (fun x : Nat =>
          max 0 (min ((((Int.ofNat x : Int) : α)) * (1 / (W : α)) + 1 / (W : α)) (mx + mw)
            - max (((Int.ofNat x : Int) : α) * (1 / (W : α))) mx))).sum
        * ((List.range H.toNat).map (fun y : Nat =>
          max 0 (min ((((Int.ofNat y : Int) : α)) * (1 / (H : α)) + 1 / (H : α)) (my + mh)
            - max (((Int.ofNat y : Int) : α) * (1 / (H : α))) my))).sum
        * ((wrap_int (W * H) : Int) : α) := by
  unfold pixel_map
  simp only [pixel_map_entry_eq]
  exact sum_flatMap_mul (List.range H.toNat) (List.range W.toNat) _ _ _


theorem pixel_map_sum_zero {α : Type} [LinearOrderedField α] (W H : Int)
    (mx my mw mh : α) (h : wrap_int (W * H) = 0) :
    (pixel_map W H mx my mw mh).sum = 0 := by
  rw [pixel_map_sum_eq, h, Int.cast_zero, mul_zero]

/-- C19, amended. For subdivisions `pixel_width >= 1`, `pixel_height >= 1` whose
product is below `2^31` and every mask rectangle `(x, y, w, h)` with
`w, h >= 0` inside the unit square, the weights that `render_map` stores sum to
`w * h * pixel_width * pixel_height`; there are `pixel_width * pixel_height` of
them, the one of the subpixel `(i, j)` at the index `j * pixel_width + i`; and
each is the overlap area of its cell with the mask rectangle divided by the
area of the cell. -/
theorem pixel_map_sum {α : Type} [LinearOrderedField α] (pixel_width pixel_height : Int)
    (x y w h : α) (hW : 1 ≤ pixel_width) (hH : 1 ≤ pixel_height)
    (hWH : pixel_width * pixel_height < 2147483648)
    (hx : 0 ≤ x) (hy : 0 ≤ y) (hw : 0 ≤ w) (hh : 0 ≤ h) (hxw : x + w ≤ 1) (hyh : y + h ≤ 1) :
    (pixel_map pixel_width pixel_height x y w h).sum
      = w * h * (pixel_width : α) * (pixel_height : α) ∧
    (pixel_map pixel_width pixel_height x y w h).length
      = pixel_height.toNat * pixel_width.toNat ∧
    (∀ i j : Nat, i < pixel_width.toNat → j < pixel_height.toNat →
      (pixel_map pixel_width pixel_height x y w h)[j * pixel_width.toNat + i]?
        = some (pixel_map_entry pixel_width pixel_height x y w h (Int.ofNat i)
            (Int.ofNat j))) ∧
    (∀ i j : Int, pixel_map_entry pixel_width pixel_height x y w h i j
      = normalized_overlap pixel_width pixel_height x y w h i j) := by
  have hprod : 0 ≤ pixel_width * pixel_height := mul_nonneg (by omega) (by omega)
  refine ⟨?_, ?_, ?_, ?_⟩
  · rw [pixel_map_sum_eq, sum_axis_overlap pixel_width x w hW hx hw hxw,
      sum_axis_overlap pixel_height y h hH hy hh hyh,
      wrap_int_of_range _ (by omega) hWH, Int.cast_mul]
    ring
  · unfold pixel_map
    rw [length_flatMap_rows _ pixel_width.toNat (fun _ => by simp), List.length_range]
  · intro i j hi hj
    unfold pixel_map
    rw [getElem?_flatMap_rows _ pixel_width.toNat (fun _ => by simp) _ j i hi,
      List.getElem?_range hj]
    simp [List.getElem?_range hi]
  · intro i j
    exact pixel_map_entry_eq_overlap pixel_width pixel_height x y w h hW hH hWH i j

theorem pixel_map_sum_witness :
    (pixel_map 7 7 (13 / 72 : ℚ) 0 (46 / 72) (1 / 2)).sum
      = 46 / 72 * (1 / 2) * ((7 : Int) : ℚ) * ((7 : Int) : ℚ) :=
  (pixel_map_sum 7 7 (13 / 72 : ℚ) 0 (46 / 72) (1 / 2) (by decide) (by decide) (by decide)
    (by norm_num) (by norm_num) (by norm_num) (by norm_num) (by norm_num) (by norm_num)).1

/-- C19 as stated fails: for `pixel_width = pixel_height = 65536` and the mask
`(0, 0, 1, 1)` the `int` product `_pixel_map_w * _pixel_map_h` is 0, so the
weight of the subpixel `(0, 0)` is 0, while its cell lies inside the mask and
the overlap divided by the cell area is 1; and the weights sum to 0, not to
`1 * 1 * 65536 * 65536`. -/
theorem pixel_map_sum_counterexample :
    (1 : Int) ≤ 65536 ∧ (0 : ℚ) + 1 ≤ 1 ∧
    pixel_map_entry 65536 65536 (0 : ℚ) 0 1 1 0 0 = 0 ∧
    normalized_overlap 65536 65536 (0 : ℚ) 0 1 1 0 0 = 1 ∧
    (pixel_map 65536 65536 (0 : ℚ) 0 1 1).sum = 0 ∧
    (1 : ℚ) * 1 * ((65536 : Int) : ℚ) * ((65536 : Int) : ℚ) ≠ 0 := by
  refine ⟨by decide, by norm_num, ?_, ?_, ?_, by norm_num⟩
  · rw [pixel_map_entry_eq]
    have h : wrap_int (65536 * 65536) = 0 := by decide
    rw [h, Int.cast_zero, mul_zero]
  · norm_num [normalized_overlap, overlap_area]
  · exact pixel_map_sum_zero 65536 65536 0 0 1 1 (by decide)


/-! ## The phase images -/

theorem pp_cur_ne (p : Int) : pp_cur p ≠ p := by
  unfold pp_cur
  by_cases h : p = 1
  · rw [if_pos h, h]
    decide
  · rw [if_neg h]
    exact fun h1 => h h1.symm

/-- What a call of `simulate_phase_img` that returns has done. -/
theorem simulate_phase_img_ok {T : Type} [Add T] (blank : T) (s s1 : SimWidget T)
    (i j : Int) (h : simulate_phase_img blank s i j = .ok s1) :
    (0 ≤ i ∧ i < 4) ∧ 0 ≤ j ∧ (0 ≤ pp_prv s i j ∧ pp_prv s i j < 2) ∧
    s1.phase_texs_index i = pp_cur (pp_prv s i j) ∧
    (∀ k, k ≠ i → s1.phase_texs_index k = s.phase_texs_index k) ∧
    s1.sensor_width = s.sensor_width ∧ s1.sensor_height = s.sensor_height ∧
    s1.phase_w = s.sensor_width ∧ s1.phase_h = s.sensor_height ∧
    s1.map_tex = s.map_tex ∧
    (s.phase_w = s.sensor_width → s.phase_h = s.sensor_height →
      s1.phase_texs i (pp_cur (pp_prv s i j))
          = phase_add (have_phase_tex_0 j) (s.phase_texs i (pp_prv s i j)) s.map_tex ∧
        ∀ k l, ¬ (k = i ∧ l = pp_cur (pp_prv s i j)) → s1.phase_texs k l = s.phase_texs k l) ∧
    (j = 0 → s1.phase_texs i 0 = s.map_tex) := by
  unfold simulate_phase_img at h
  dsimp only at h
  split_ifs at h with h1 h2 h3 h4 h5
  · have hb : 0 ≤ pp_prv s i j ∧ pp_prv s i j < 2 := h4
    injection h with h
    subst h
    refine ⟨h1, h2, hb, ?_, ?_, rfl, rfl, rfl, rfl, rfl, ?_, ?_⟩
    · simp [pp_prv]
    · intro k hk
      simp [hk]
    · intro e1 e2
      rcases h3 with h3 | h3
      · exact absurd e1 h3
      · exact absurd e2 h3
    · intro hj0
      simp [pp_prv, pp_cur, have_phase_tex_0, phase_add, hj0]
  · injection h with h
    subst h
    have hr1 : s.phase_w = s.sensor_width := by
      by_contra hc
      exact h3 (Or.inl hc)
    have hr2 : s.phase_h = s.sensor_height := by
      by_contra hc
      exact h3 (Or.inr hc)
    refine ⟨h1, h2, h5, ?_, ?_, rfl, rfl, hr1, hr2, rfl, ?_, ?_⟩
    · simp
    · intro k hk
      simp [hk]
    · intro _ _
      refine ⟨by simp, ?_⟩
      intro k l hkl
      simp [hkl]
    · intro hj0
      simp [pp_prv, pp_cur, have_phase_tex_0, phase_add, hj0]

/-- A call of `simulate_phase_img` returns when the assertions hold and
`pp_prv` is 0 or 1. -/
theorem simulate_phase_img_returns {T : Type} [Add T] (blank : T) (s : SimWidget T)
    (i j : Int) (hi : 0 ≤ i ∧ i < 4) (hj : 0 ≤ j)
    (hb : 0 ≤ pp_prv s i j ∧ pp_prv s i j < 2) :
    ∃ s1, simulate_phase_img blank s i j = .ok s1 := by
  unfold simulate_phase_img
  dsimp only
  rw [if_neg (not_not.2 (show i ≥ 0 ∧ i < 4 from hi)), if_neg (not_not.2 (show j ≥ 0 from hj))]
  split_ifs with h3 h4
  · exact ⟨_, rfl⟩
  · exact absurd hb h4
  · exact ⟨_, rfl⟩


theorem simulate_phase_cons {T : Type} [Add T] (blank : T) (s s1 : SimWidget T) (i : Int)
    (map : T) (rest : List T) (j : Int)
    (h : simulate_phase_img blank { s with map_tex := map } i j = .ok s1) :
    simulate_phase blank s i (map :: rest) j = simulate_phase blank s1 i rest (j + 1) := by
  rw [simulate_phase]
  simp only [h]

/-- The loop from a sample `j > 0` on, when the textures have the sensor size
and the index of the phase is 0 or 1. -/
theorem simulate_phase_from {T : Type} [AddMonoid T] (blank : T) (i : Int)
    (hi : 0 ≤ i ∧ i < 4) (maps : List T) :
    ∀ (s : SimWidget T) (j : Int), 0 < j → s.phase_w = s.sensor_width →
      s.phase_h = s.sensor_height →
      (s.phase_texs_index i = 0 ∨ s.phase_texs_index i = 1) →
      ∃ s1, simulate_phase blank s i maps j = .ok s1 ∧
        s1.phase_texs_index i = (s.phase_texs_index i + (maps.length : Int)) % 2 ∧
        s1.phase_texs i (s1.phase_texs_index i)
          = s.phase_texs i (s.phase_texs_index i) + maps.sum ∧
        (∀ k, k ≠ i → s1.phase_texs_index k = s.phase_texs_index k) := by
  induction maps with
  | nil =>
    intro s j _ _ _ hidx
    refine ⟨s, rfl, ?_, ?_, fun _ _ => rfl⟩
    · rcases hidx with h | h <;> rw [h] <;> rfl
    · rw [List.sum_nil, add_zero]
  | cons map rest ih =>
    intro s j hj hw hh hidx
    have hprv : pp_prv { s with map_tex := map } i j = s.phase_texs_index i := by
      unfold pp_prv
      rw [if_neg (by omega)]
    have hb : 0 ≤ pp_prv { s with map_tex := map } i j
        ∧ pp_prv { s with map_tex := map } i j < 2 := by
      rw [hprv]
      omega
    obtain ⟨s2, hs2⟩ := simulate_phase_img_returns blank { s with map_tex := map } i j hi
      (by omega) hb
    obtain ⟨_, _, _, h4, h5, h6, h7, h8, h9, _, h11, _⟩ :=
      simulate_phase_img_ok blank { s with map_tex := map } s2 i j hs2
    obtain ⟨h11a, _⟩ := h11 hw hh
    rw [hprv] at h4 h11a
    have hcur : pp_cur (s.phase_texs_index i) = 0 ∨ pp_cur (s.phase_texs_index i) = 1 := by
      unfold pp_cur
      rcases hidx with h | h <;> rw [h] <;> simp
    have hidx2 : s2.phase_texs_index i = 0 ∨ s2.phase_texs_index i = 1 := by
      rw [h4]
      exact hcur
    obtain ⟨s1, hs1, hi1, hc1, ho1⟩ := ih s2 (j + 1) (by omega) (h8.trans h6.symm)
      (h9.trans h7.symm) hidx2
    refine ⟨s1, ?_, ?_, ?_, ?_⟩
    · rw [simulate_phase_cons blank s s2 i map rest j hs2]
      exact hs1
    · rw [hi1, h4, List.length_cons]
      unfold pp_cur
      rcases hidx with h | h <;> rw [h] <;> simp <;> omega
    · rw [hc1, h4, h11a, List.sum_cons]
      have hne : have_phase_tex_0 j ≠ 0 := by
        unfold have_phase_tex_0
        rw [if_neg (by omega)]
        decide
      unfold phase_add
      rw [if_neg hne, add_assoc]
    · intro k hk
      rw [ho1 k hk, h5 k hk]


/-- C20. For a phase `i` in `0..3` and `N >= 1` reduced maps, the calls
`simulate_phase_img(i, j)` for `j = 0 .. N-1`, each after its map is rendered,
all return; every call writes the slot `pp_cur`, which differs from the slot
`pp_prv` that it reads, and leaves the other slots and the indices of the other
phases as they are; a call at `j > 0` reads the slot that the call before it
wrote; the prior contribution is enabled exactly when `j > 0`; and in the end
`_phase_texs_index[i]` is `(N - 1) mod 2` and designates the slot with the sum
of the `N` maps, which `get_phase(i)` returns. The sum is that of the shader
as the spec describes it. -/
theorem ping_pong_accumulates {T : Type} [AddMonoid T] (blank : T) (self : SimWidget T)
    (i : Int) (maps : List T) (hi : 0 ≤ i ∧ i < 4) (hN : maps ≠ []) :
    (∀ (s : SimWidget T) (j : Int), pp_cur (pp_prv s i j) ≠ pp_prv s i j) ∧
    (∀ (s s1 : SimWidget T) (j : Int), simulate_phase_img blank s i j = .ok s1 →
      s1.phase_texs_index i = pp_cur (pp_prv s i j) ∧
      (∀ (map : T) (j1 : Int), j1 ≠ 0 →
        pp_prv { s1 with map_tex := map } i j1 = pp_cur (pp_prv s i j)) ∧
      (∀ k, k ≠ i → s1.phase_texs_index k = s.phase_texs_index k) ∧
      (s.phase_w = s.sensor_width → s.phase_h = s.sensor_height →
        s1.phase_texs i (pp_cur (pp_prv s i j))
            = phase_add (have_phase_tex_0 j) (s.phase_texs i (pp_prv s i j)) s.map_tex ∧
          ∀ k l, ¬ (k = i ∧ l = pp_cur (pp_prv s i j)) →
            s1.phase_texs k l = s.phase_texs k l)) ∧
    (∀ j : Int, 0 ≤ j → (have_phase_tex_0 j ≠ 0 ↔ j > 0)) ∧
    ∃ s1, simulate_phase blank self i maps 0 = .ok s1 ∧
      s1.phase_texs_index i = ((maps.length : Int) - 1) % 2 ∧
      s1.phase_texs i (s1.phase_texs_index i) = maps.sum ∧
      get_phase s1 i = .ok maps.sum ∧
      (∀ k, k ≠ i → s1.phase_texs_index k = self.phase_texs_index k) := by
  refine ⟨fun s j => pp_cur_ne _, ?_, ?_, ?_⟩
  · intro s s1 j h
    obtain ⟨_, _, _, h4, h5, _, _, _, _, _, h11, _⟩ := simulate_phase_img_ok blank s s1 i j h
    refine ⟨h4, ?_, h5, h11⟩
    intro map j1 hj1
    unfold pp_prv
    rw [if_neg hj1]
    exact h4
  · intro j hj
    unfold have_phase_tex_0
    by_cases h0 : j = 0
    · rw [if_pos h0, h0]
      decide
    · rw [if_neg h0]
      constructor
      · intro _
        omega
      · intro _
        decide
  · cases maps with
    | nil => exact absurd rfl hN
    | cons map rest =>
      have hb : 0 ≤ pp_prv { self with map_tex := map } i 0
          ∧ pp_prv { self with map_tex := map } i 0 < 2 := by
        unfold pp_prv
        rw [if_pos rfl]
        decide
      obtain ⟨s2, hs2⟩ := simulate_phase_img_returns blank { self with map_tex := map } i 0
        hi (le_refl 0) hb
      obtain ⟨_, _, _, h4, h5, h6, h7, h8, h9, _, _, h12⟩ :=
        simulate_phase_img_ok blank { self with map_tex := map } s2 i 0 hs2
      have hidx : s2.phase_texs_index i = 0 := by
        rw [h4]
        rfl
      obtain ⟨s1, hs1, hi1, hc1, ho1⟩ := simulate_phase_from blank i hi rest s2 1 (by decide)
        (h8.trans h6.symm) (h9.trans h7.symm) (Or.inl hidx)
      have hfin : s1.phase_texs_index i = ((((map :: rest).length : Nat) : Int) - 1) % 2 := by
        rw [hi1, hidx, List.length_cons]
        push_cast
        congr 1
        ring
      have hsum : s1.phase_texs i (s1.phase_texs_index i) = (map :: rest).sum := by
        rw [hc1, hidx, h12 rfl, List.sum_cons]
      have hrange : s1.phase_texs_index i = 0 ∨ s1.phase_texs_index i = 1 := by
        rw [hfin]
        omega
      refine ⟨s1, ?_, hfin, hsum, ?_, ?_⟩
      · rw [simulate_phase_cons blank self s2 i map rest 0 hs2]
        exact hs1
      · unfold get_phase
        rw [if_neg (not_not.2 ⟨hi.1, le_of_lt hi.2⟩), if_neg (not_not.2 hi.2),
          if_neg (not_not.2 (by rcases hrange with h | h <;> rw [h] <;> decide)), hsum]
      · intro k hk
        rw [ho1 k hk, h5 k hk]

theorem ping_pong_accumulates_witness :
    ∃ s1, simulate_phase (0 : Int) (SimWidget.new 0 352 288) 2 [1, 2, 3] 0 = .ok s1 ∧
      s1.phase_texs_index 2 = 0 ∧ get_phase s1 2 = .ok 6 ∧ s1.phase_texs_index 1 = -1 :=
  match (ping_pong_accumulates (0 : Int) (SimWidget.new 0 352 288) 2 [1, 2, 3] (by decide)
    (by decide)).2.2.2 with
  | ⟨s1, h1, h2, _, h4, h5⟩ =>
    ⟨s1, h1, h2.trans (by decide), h4.trans (by decide), (h5 1 (by decide)).trans rfl⟩


/-! ## The frame step -/

theorem phase_step_times_get (anim_time exposure_time readout_time exposure_time_samples : Int)
    (i j : Nat) (hi : i < 4) (hj : (j : Int) < exposure_time_samples) :
    ((phase_step_times anim_time exposure_time readout_time exposure_time_samples)[i]?).bind
        (fun row => row[j]?)
      = some (phase_step_time
          (phase_start_time anim_time (Int.ofNat i) exposure_time readout_time)
          (Int.ofNat j) exposure_time exposure_time_samples) := by
  have hj1 : j < exposure_time_samples.toNat := by omega
  unfold phase_step_times
  rw [List.getElem?_map, List.getElem?_range hi]
  simp only [Option.map_some', Option.some_bind]
  rw [List.getElem?_map, List.getElem?_range hj1]
  rfl

theorem phase_start_time_eq (anim_time exposure_time readout_time i : Int)
    (hi0 : 0 ≤ i) (hi : i < 4) (hE : 0 ≤ exposure_time) (hR : 0 ≤ readout_time)
    (hER : 3 * (exposure_time + readout_time) < 2147483648)
    (ht0 : -9223372036854775808 ≤ anim_time)
    (ht1 : anim_time + 3 * (exposure_time + readout_time) < 9223372036854775808) :
    phase_start_time anim_time i exposure_time readout_time
      = anim_time + i * (exposure_time + readout_time) := by
  unfold phase_start_time
  have h0 : 0 ≤ i * (exposure_time + readout_time) := mul_nonneg hi0 (by omega)
  have h1 : i * (exposure_time + readout_time) ≤ 3 * (exposure_time + readout_time) :=
    Int.mul_le_mul_of_nonneg_right (by omega) (by omega)
  rw [wrap_int_eq (exposure_time + readout_time) (by omega) (by omega),
    wrap_int_eq _ (by omega) (by omega), wrap_long_long_eq _ (by omega) (by omega)]

theorem step_quotient_bounds (j exposure_time exposure_time_samples : Int)
    (hj0 : 0 ≤ j) (hj : j < exposure_time_samples) (hE : 0 ≤ exposure_time) :
    0 ≤ j * exposure_time ∧
    j * exposure_time ≤ (exposure_time_samples - 1) * exposure_time ∧
    Int.tdiv (j * exposure_time) exposure_time_samples
      = j * exposure_time / exposure_time_samples ∧
    0 ≤ j * exposure_time / exposure_time_samples ∧
    j * exposure_time / exposure_time_samples ≤ exposure_time := by
  have h0 : 0 ≤ j * exposure_time := mul_nonneg hj0 hE
  have hN : 0 < exposure_time_samples := by omega
  refine ⟨h0, Int.mul_le_mul_of_nonneg_right (by omega) hE,
    Int.tdiv_eq_ediv h0 (le_of_lt hN), Int.ediv_nonneg h0 (le_of_lt hN), ?_⟩
  have h2 : j * exposure_time ≤ exposure_time * exposure_time_samples := by
    rw [mul_comm]
    exact Int.mul_le_mul_of_nonneg_left (le_of_lt hj) hE
  exact Int.ediv_le_of_le_mul hN h2


/-- C21, amended. For every phase `i` in `0..3` and every sample `j` in
`0..N-1`, with non-negative `exposure_time` and `readout_time` small enough
for the `int` and `long long` expressions of the loop, the time of the
sub-step is `frame_time + i * (exposure_time + readout_time) +
(j * exposure_time) / N`, the integer quotient of the product. It equals
`frame_time + i * (exposure_time + readout_time) + j * (exposure_time / N)`
when `N` divides `exposure_time`; `exposure_time / N` is the quotient that
`render_oversampled_map` passes as the exposure time. -/
theorem phase_step_time_value (frame_time exposure_time readout_time N : Int) (i j : Nat)
    (hi : i < 4) (hj : (j : Int) < N) (hE : 0 ≤ exposure_time) (hR : 0 ≤ readout_time)
    (hER : 3 * (exposure_time + readout_time) < 2147483648)
    (hNE : (N - 1) * exposure_time < 2147483648)
    (ht0 : -9223372036854775808 ≤ frame_time)
    (ht1 : frame_time + 3 * (exposure_time + readout_time) + exposure_time
      < 9223372036854775808) :
    ((phase_step_times frame_time exposure_time readout_time N)[i]?).bind
        (fun row => row[j]?)
      = some (frame_time + (i : Int) * (exposure_time + readout_time)
          + ((j : Int) * exposure_time) / N) ∧
    (N ∣ exposure_time →
      ((phase_step_times frame_time exposure_time readout_time N)[i]?).bind
          (fun row => row[j]?)
        = some (frame_time + (i : Int) * (exposure_time + readout_time)
            + (j : Int) * exposure_time_uniform exposure_time N)) ∧
    exposure_time_uniform exposure_time N = exposure_time / N := by
  have hj0 : (0 : Int) ≤ (j : Int) := Int.ofNat_nonneg j
  have hi0 : (0 : Int) ≤ (i : Int) := Int.ofNat_nonneg i
  have hi4 : (i : Int) < 4 := by omega
  have hN : 0 < N := by omega
  obtain ⟨b0, b1, b2, b3, b4⟩ := step_quotient_bounds (j : Int) exposure_time N hj0 hj hE
  have hs := phase_start_time_eq frame_time exposure_time readout_time (i : Int) hi0 hi4 hE hR
    hER ht0 (by omega)
  have hle : (i : Int) * (exposure_time + readout_time) ≤ 3 * (exposure_time + readout_time) :=
    Int.mul_le_mul_of_nonneg_right (by omega) (by omega)
  have hge : 0 ≤ (i : Int) * (exposure_time + readout_time) := mul_nonneg hi0 (by omega)
  have hu : exposure_time_uniform exposure_time N = exposure_time / N :=
    Int.tdiv_eq_ediv hE (le_of_lt hN)
  have hmain : ((phase_step_times frame_time exposure_time readout_time N)[i]?).bind
        (fun row => row[j]?)
      = some (frame_time + (i : Int) * (exposure_time + readout_time)
          + ((j : Int) * exposure_time) / N) := by
    rw [phase_step_times_get frame_time exposure_time readout_time N i j hi hj]
    unfold phase_step_time
    simp only [Int.ofNat_eq_coe]
    rw [hs, wrap_int_eq _ (by omega) (by omega), b2, wrap_long_long_eq _ (by omega) (by omega)]
  refine ⟨hmain, ?_, hu⟩
  intro hdvd
  rw [hmain, hu, Int.mul_ediv_assoc _ hdvd]

theorem phase_step_time_value_witness :
    ((phase_step_times 5000 1000 1000 3)[2]?).bind (fun row => row[2]?)
      = some (5000 + ((2 : Nat) : Int) * (1000 + 1000) + (((2 : Nat) : Int) * 1000) / 3) :=
  (phase_step_time_value 5000 1000 1000 3 2 2 (by decide) (by decide) (by decide) (by decide)
    (by decide) (by decide) (by decide) (by decide)).1

/-- C21 as stated fails: with `exposure_time = 10`, `readout_time = 0`,
`N = 4` and the frame time 0, the sub-step `i = 0`, `j = 2` has the time
`(2 * 10) / 4 = 5`, not `2 * (10 / 4) = 4`. And with
`exposure_time = readout_time = 1073741824` and `N = 1` the `int` sum wraps:
the sub-step `i = 1`, `j = 0` has the time `-2147483648`, not `2147483648`. -/
theorem phase_step_time_value_counterexample :
    ((phase_step_times 0 10 0 4)[0]?).bind (fun row => row[2]?) = some 5 ∧
    (0 : Int) + 0 * (10 + 0) + 2 * exposure_time_uniform 10 4 = 4 ∧
    (0 : Int) + 0 * (10 + 0) + 2 * (10 / 4) = 4 ∧
    ((phase_step_times 0 1073741824 1073741824 1)[1]?).bind (fun row => row[0]?)
      = some (-2147483648) ∧
    (0 : Int) + 1 * (1073741824 + 1073741824) + 0 * (1073741824 / 1) = 2147483648 := by
  decide


/-- The product `(a / d) * d` of the truncating quotient lies between 0 and `a`. -/
theorem tdiv_mul_between (a d : Int) (hd : 0 < d) :
    (0 ≤ a → 0 ≤ Int.tdiv a d * d ∧ Int.tdiv a d * d ≤ a) ∧
    (a ≤ 0 → a ≤ Int.tdiv a d * d ∧ Int.tdiv a d * d ≤ 0) := by
  have hpos : ∀ b : Int, 0 ≤ b → 0 ≤ Int.tdiv b d * d ∧ Int.tdiv b d * d ≤ b := by
    intro b hb
    rw [Int.tdiv_eq_ediv hb (le_of_lt hd)]
    exact ⟨mul_nonneg (Int.ediv_nonneg hb (le_of_lt hd)) (le_of_lt hd),
      Int.ediv_mul_le b (ne_of_gt hd)⟩
  refine ⟨hpos a, ?_⟩
  intro ha
  have h := hpos (-a) (by omega)
  rw [Int.neg_tdiv, Int.neg_mul] at h
  omega

theorem align_to_frame_eq (t start_time d : Int) (hd0 : 0 < d)
    (hs0 : -9223372036854775808 ≤ start_time) (hs1 : start_time < 9223372036854775808)
    (hr0 : -9223372036854775808 ≤ t) (hr1 : t < 9223372036854775808)
    (ht0 : -9223372036854775808 ≤ t - start_time) (ht1 : t - start_time < 9223372036854775808) :
    align_to_frame t start_time d = some (Int.tdiv (t - start_time) d * d + start_time) ∧
    d ∣ (Int.tdiv (t - start_time) d * d + start_time) - start_time ∧
    (start_time ≤ t → start_time ≤ Int.tdiv (t - start_time) d * d + start_time
      ∧ Int.tdiv (t - start_time) d * d + start_time ≤ t) ∧
    (t ≤ start_time → t ≤ Int.tdiv (t - start_time) d * d + start_time
      ∧ Int.tdiv (t - start_time) d * d + start_time ≤ start_time) := by
  obtain ⟨hp, hn⟩ := tdiv_mul_between (t - start_time) d hd0
  have hq : -9223372036854775808 ≤ Int.tdiv (t - start_time) d * d
      ∧ Int.tdiv (t - start_time) d * d < 9223372036854775808 := by
    rcases le_total 0 (t - start_time) with h | h
    · have := hp h
      omega
    · have := hn h
      omega
  have hquot : -9223372036854775808 ≤ Int.tdiv (t - start_time) d
      ∧ Int.tdiv (t - start_time) d < 9223372036854775808 := by
    have h1 : 1 ≤ d := hd0
    rcases le_total 0 (t - start_time) with h | h
    · have hx := hp h
      have h0 : 0 ≤ Int.tdiv (t - start_time) d := Int.tdiv_nonneg h (le_of_lt hd0)
      have : Int.tdiv (t - start_time) d * 1 ≤ Int.tdiv (t - start_time) d * d :=
        Int.mul_le_mul_of_nonneg_left h1 h0
      omega
    · have hx := hn h
      have h0 : Int.tdiv (t - start_time) d ≤ 0 := by
        have := Int.tdiv_nonneg (show 0 ≤ -(t - start_time) by omega) (le_of_lt hd0)
        rw [Int.neg_tdiv] at this
        omega
      have : Int.tdiv (t - start_time) d * d ≤ Int.tdiv (t - start_time) d * 1 :=
        Int.mul_le_mul_of_nonpos_left h0 h1
      omega
  refine ⟨?_, ?_, ?_, ?_⟩
  · unfold align_to_frame div_long_long
    rw [wrap_long_long_eq _ ht0 ht1, if_neg (ne_of_gt hd0)]
    simp only []
    rw [wrap_long_long_eq _ hquot.1 hquot.2, wrap_long_long_eq _ hq.1 hq.2]
    rcases le_total 0 (t - start_time) with h | h
    · have := hp h
      rw [wrap_long_long_eq _ (by omega) (by omega)]
    · have := hn h
      rw [wrap_long_long_eq _ (by omega) (by omega)]
  · rw [Int.add_sub_cancel]
    exact Dvd.intro_left _ rfl
  · intro h
    have := hp (by omega)
    omega
  · intro h
    have := hn (by omega)
    omega

theorem total_frame_duration_eq (exposure_time readout_time : Int)
    (h0 : 0 < 4 * (exposure_time + readout_time))
    (h1 : 4 * (exposure_time + readout_time) < 2147483648) :
    total_frame_duration exposure_time readout_time = 4 * (exposure_time + readout_time) := by
  unfold total_frame_duration
  rw [wrap_int_eq (exposure_time + readout_time) (by omega) (by omega),
    wrap_int_eq _ (by omega) (by omega)]


/-- The second half of lines 375-402: the test against the end time. -/
theorem step_after_candidate {α : Type} (animation : Animation α)
    (exposure_time readout_time : Int) (loop : Bool) (start_time end_time : Int)
    (hstart : animation.start_time = some start_time)
    (hend : animation.end_time = some end_time)
    (hse : start_time ≤ end_time)
    (hD0 : 0 < 4 * (exposure_time + readout_time))
    (hD1 : 4 * (exposure_time + readout_time) < 2147483648)
    (hs0 : -9223372036854775808 ≤ start_time) (he1 : end_time < 9223372036854775808)
    (hes : end_time - start_time < 9223372036854775808)
    (candidate : Int) (request : Int)
    (hc : 4 * (exposure_time + readout_time) ∣ candidate - start_time) :
    ∃ t,
      (match animation.end_time with
        | none => none
        | some end_time =>
          if candidate > end_time then
            match animation.start_time with
            | none => none
            | some start_time =>
              if loop then
                some (start_time, (⟨start_time, false, request⟩ : MainWindow))
              else
                match align_to_frame end_time start_time
                    (total_frame_duration exposure_time readout_time) with
                | none => none
                | some anim_time1 => some (anim_time1, ⟨anim_time1, false, request⟩)
          else some (candidate, ⟨candidate, false, request⟩))
        = some (t, ⟨t, false, request⟩) ∧
      t ≤ end_time ∧ 4 * (exposure_time + readout_time) ∣ t - start_time ∧
      t = (if candidate > end_time then
            (if loop then start_time
              else Int.tdiv (end_time - start_time) (4 * (exposure_time + readout_time))
                * (4 * (exposure_time + readout_time)) + start_time)
          else candidate) := by
  rw [total_frame_duration_eq exposure_time readout_time hD0 hD1]
  obtain ⟨ha, hdvd, hge, _⟩ := align_to_frame_eq end_time start_time
    (4 * (exposure_time + readout_time)) hD0 hs0 (by omega) (by omega) he1 (by omega) hes
  simp only [hend, hstart]
  by_cases hgt : candidate > end_time
  · simp only [if_pos hgt]
    cases loop with
    | true =>
      refine ⟨start_time, by simp, hse, ?_, by simp⟩
      rw [sub_self]
      exact dvd_zero _
    | false =>
      refine ⟨_, by simp [ha], (hge hse).2, hdvd, by simp⟩
  · simp only [if_neg hgt]
    exact ⟨candidate, rfl, not_lt.1 hgt, hc, rfl⟩


/-- C30, amended. In the states active and paused, for a track with start time
at most its end time and parameters with
`0 < D = 4 * (exposure_time + readout_time) < 2^31`, when the `long long`
differences and sums of the step stay in range: the step returns a frame time
that is stored in `_last_anim_time`, is at most the end time and differs from
the start time by a multiple of `D`, provided that without a pending request
the last frame time did. The frame time is the requested time rounded to the
grid, or the last frame time plus `D` (active) or unchanged (paused); beyond
the end time it is the start time when looping and else the end time rounded
to the grid. -/
theorem frame_time_invariant {α : Type} (animation : Animation α)
    (exposure_time readout_time : Int) (anim_state : state_t) (loop : Bool)
    (self : MainWindow) (start_time end_time : Int)
    (hstate : anim_state = .state_active ∨ anim_state = .state_paused)
    (hstart : animation.start_time = some start_time)
    (hend : animation.end_time = some end_time)
    (hse : start_time ≤ end_time)
    (hD0 : 0 < 4 * (exposure_time + readout_time))
    (hD1 : 4 * (exposure_time + readout_time) < 2147483648)
    (hs0 : -9223372036854775808 ≤ start_time) (he1 : end_time < 9223372036854775808)
    (hes : end_time - start_time < 9223372036854775808)
    (hq0 : -9223372036854775808 ≤ self.anim_time_request)
    (hq1 : self.anim_time_request < 9223372036854775808)
    (hq : self.anim_time_requested = true →
      -9223372036854775808 ≤ self.anim_time_request - start_time
        ∧ self.anim_time_request - start_time < 9223372036854775808)
    (hl : self.anim_time_requested = false →
      -9223372036854775808 ≤ self.last_anim_time
        ∧ self.last_anim_time + 4 * (exposure_time + readout_time) < 9223372036854775808
        ∧ self.last_anim_time ≤ end_time
        ∧ 4 * (exposure_time + readout_time) ∣ self.last_anim_time - start_time) :
    ∃ t, simulation_step_time animation exposure_time readout_time anim_state loop self
        = some (t, ⟨t, false, self.anim_time_request⟩) ∧
      t ≤ end_time ∧ 4 * (exposure_time + readout_time) ∣ t - start_time ∧
      ∀ candidate : Int,
        candidate = (if self.anim_time_requested then
            Int.tdiv (self.anim_time_request - start_time)
                (4 * (exposure_time + readout_time))
              * (4 * (exposure_time + readout_time)) + start_time
          else if anim_state = .state_active then
            self.last_anim_time + 4 * (exposure_time + readout_time)
          else self.last_anim_time) →
        t = (if candidate > end_time then
            (if loop then start_time
              else Int.tdiv (end_time - start_time) (4 * (exposure_time + readout_time))
                * (4 * (exposure_time + readout_time)) + start_time)
          else candidate) := by
  obtain ⟨last, requested, request⟩ := self
  have hdur := total_frame_duration_eq exposure_time readout_time hD0 hD1
  cases requested with
  | true =>
    obtain ⟨hq2, hq3⟩ := hq rfl
    obtain ⟨ha, hdvd, _, _⟩ := align_to_frame_eq request start_time
      (4 * (exposure_time + readout_time)) hD0 hs0 (by omega) hq0 hq1 hq2 hq3
    obtain ⟨t, h1, h2, h3, h4⟩ := step_after_candidate animation exposure_time readout_time
      loop start_time end_time hstart hend hse hD0 hD1 hs0 he1 hes
      (Int.tdiv (request - start_time) (4 * (exposure_time + readout_time))
        * (4 * (exposure_time + readout_time)) + start_time) request hdvd
    refine ⟨t, ?_, h2, h3, ?_⟩
    · rw [← h1]
      rcases hstate with h | h <;> subst h <;> unfold simulation_step_time <;>
        simp only [hstart, hdur, ha, if_true]
    · intro candidate hc
      rw [hc]
      exact h4
  | false =>
    obtain ⟨hl0, hl1, hl2, hl3⟩ := hl rfl
    dsimp only at hl0 hl1 hl2 hl3
    rcases hstate with h | h
    · subst h
      have hdvd : 4 * (exposure_time + readout_time)
          ∣ (last + 4 * (exposure_time + readout_time)) - start_time := by
        have : last + 4 * (exposure_time + readout_time) - start_time
            = (last - start_time) + 4 * (exposure_time + readout_time) := by ring
        rw [this]
        exact dvd_add hl3 (dvd_refl _)
      obtain ⟨t, h1, h2, h3, h4⟩ := step_after_candidate animation exposure_time
        readout_time loop start_time end_time hstart hend hse hD0 hD1 hs0 he1 hes
        (last + 4 * (exposure_time + readout_time)) request hdvd
      refine ⟨t, ?_, h2, h3, ?_⟩
      · rw [← h1]
        unfold simulation_step_time
        simp only [hdur, Bool.false_eq_true, if_false, ne_eq, reduceCtorEq, not_false_eq_true,
          if_true, wrap_long_long_eq _ (show -9223372036854775808 ≤
            last + 4 * (exposure_time + readout_time) by omega) hl1]
      · intro candidate hc
        rw [hc]
        exact h4
    · subst h
      obtain ⟨t, h1, h2, h3, h4⟩ := step_after_candidate animation exposure_time
        readout_time loop start_time end_time hstart hend hse hD0 hD1 hs0 he1 hes
        last request hl3
      refine ⟨t, ?_, h2, h3, ?_⟩
      · rw [← h1]
        unfold simulation_step_time
        simp only [Bool.false_eq_true, if_false, ne_eq, not_true_eq_false]
      · intro candidate hc
        rw [hc]
        exact h4

theorem frame_time_invariant_witness :
    ∃ t, simulation_step_time long_track 1000 1000 .state_active false ⟨8000, false, 0⟩
        = some (t, ⟨t, false, 0⟩) ∧
      t ≤ 10000000000 ∧ 4 * (1000 + 1000) ∣ t - 0 :=
  match frame_time_invariant long_track 1000 1000 .state_active false ⟨8000, false, 0⟩ 0
    10000000000 (Or.inl rfl) (by decide) (by decide) (by decide) (by decide) (by decide)
    (by decide) (by decide) (by decide) (by decide) (by decide)
    (fun h => absurd h (by decide))
    (fun _ => ⟨by decide, by decide, by decide, by decide⟩) with
  | ⟨t, h1, h2, h3, _⟩ => ⟨t, h1, h2, h3⟩

/-- C30 as stated fails: with `exposure_time = 536870913` and
`readout_time = 0`, `D = 4 * (exposure_time + readout_time) = 2147483652 > 0`,
but the `int` product wraps to `-2147483644`. On a track from 0 to
10000000000, in the state active with the last frame time 0 (which satisfies
the invariant) and no request, the step returns the frame time `-2147483644`,
which does not differ from the start time by a multiple of `D`. And with
`exposure_time = 2`, `readout_time = 1` (`D = 12`) on a track from 0 to
`2^63 - 1`, from the last frame time `2^63 - 8` (a multiple of 12 that is not
beyond the end) the `long long` sum wraps: the step returns `-2^63 + 4`,
which is not a multiple of 12. -/
theorem frame_time_invariant_counterexample :
    long_track.start_time = some 0 ∧ long_track.end_time = some 10000000000 ∧
    (0 : Int) < 4 * (536870913 + 0) ∧
    (0 : Int) ≤ 10000000000 ∧ (4 * (536870913 + 0) : Int) ∣ 0 - 0 ∧
    simulation_step_time long_track 536870913 0 .state_active false ⟨0, false, 0⟩
      = some (-2147483644, ⟨-2147483644, false, 0⟩) ∧
    ¬ ((4 * (536870913 + 0) : Int) ∣ -2147483644 - 0) ∧
    edge_track.start_time = some 0 ∧ edge_track.end_time = some 9223372036854775807 ∧
    (9223372036854775800 : Int) ≤ 9223372036854775807 ∧
    (4 * (2 + 1) : Int) ∣ 9223372036854775800 - 0 ∧
    simulation_step_time edge_track 2 1 .state_active false ⟨9223372036854775800, false, 0⟩
      = some (-9223372036854775804, ⟨-9223372036854775804, false, 0⟩) ∧
    ¬ ((4 * (2 + 1) : Int) ∣ -9223372036854775804 - 0) := by
  decide


/-- C23, amended. The upper bound of the amplitude range is
`max_energy * pi / (1 / sqrt 2)`, which is `2 * maxEnergy * pi / sqrt 2`
(and `maxEnergy * pi * sqrt 2`), where `maxEnergy` is
`lightsource_simple_power * 1e4`. -/
theorem max_pmd_amp_value (lightsource_simple_power : ℝ) :
    max_pmd_amp Real.pi (1 / Real.sqrt 2) lightsource_simple_power
      = 2 * max_energy lightsource_simple_power * Real.pi / Real.sqrt 2 ∧
    max_pmd_amp Real.pi (1 / Real.sqrt 2) lightsource_simple_power
      = max_energy lightsource_simple_power * Real.pi * Real.sqrt 2 ∧
    max_energy lightsource_simple_power = lightsource_simple_power * 10000 := by
  have h2 : Real.sqrt 2 * Real.sqrt 2 = 2 := Real.mul_self_sqrt (by norm_num)
  have hpos : 0 < Real.sqrt 2 := Real.sqrt_pos.2 (by norm_num)
  have hne : Real.sqrt 2 ≠ 0 := ne_of_gt hpos
  refine ⟨?_, ?_, rfl⟩
  · unfold max_pmd_amp
    field_simp
    rw [mul_assoc, mul_assoc, h2]
    ring
  · unfold max_pmd_amp
    field_simp

/-- C23 as stated fails: for the default power 200 the bound in the code is
not `4 * maxEnergy * pi / sqrt 2`. -/
theorem max_pmd_amp_value_counterexample :
    max_pmd_amp Real.pi (1 / Real.sqrt 2) 200
      ≠ 4 * max_energy (200 : ℝ) * Real.pi / Real.sqrt 2 := by
  have h2 : Real.sqrt 2 * Real.sqrt 2 = 2 := Real.mul_self_sqrt (by norm_num)
  have hpos : 0 < Real.sqrt 2 := Real.sqrt_pos.2 (by norm_num)
  have hpi := Real.pi_pos
  intro h
  unfold max_pmd_amp max_energy at h
  field_simp at h
  have h3 : (200 * 10000 * Real.pi) * (Real.sqrt 2 * Real.sqrt 2)
      = 4 * (200 * 10000) * Real.pi := by linarith
  rw [h2] at h3
  nlinarith

theorem cache_condition_iff {α : Type} [LinearOrderedField α] (self : PixelMapCache α)
    (simulator : Simulator α) :
    (self.pixel_map_w ≠ simulator.pixel_width ∨ self.pixel_map_h ≠ simulator.pixel_height
      ∨ self.pixel_mask_x < simulator.pixel_mask_x ∨ self.pixel_mask_x > simulator.pixel_mask_x
      ∨ self.pixel_mask_y < simulator.pixel_mask_y ∨ self.pixel_mask_y > simulator.pixel_mask_y
      ∨ self.pixel_mask_w < simulator.pixel_mask_width
      ∨ self.pixel_mask_w > simulator.pixel_mask_width
      ∨ self.pixel_mask_h < simulator.pixel_mask_height
      ∨ self.pixel_mask_h > simulator.pixel_mask_height)
    ↔ self.key ≠ simulator.pixel_map_key := by
  unfold PixelMapCache.key Simulator.pixel_map_key
  simp only [ne_eq, Prod.mk.injEq, not_and_or, gt_iff_lt, ← lt_or_lt_iff_ne]
  tauto

theorem render_map_of_key_eq {α : Type} [LinearOrderedField α] (self : PixelMapCache α)
    (simulator : Simulator α) (h : self.key = simulator.pixel_map_key) :
    render_map_pixel_map self simulator = (false, self) := by
  unfold render_map_pixel_map
  rw [if_neg ((not_congr (cache_condition_iff self simulator)).2 (not_not.2 h))]

/-- C25. `render_map` creates the pixel map again exactly when one of
`pixel_width`, `pixel_height`, `pixel_mask_x`, `pixel_mask_y`,
`pixel_mask_width`, `pixel_mask_height` differs from the cached key; after
the call the cached key is the current parameters; a second call with the
same parameters creates nothing and changes nothing; a call that does not
create the map leaves the members as they are, and one that does stores the
map of the current parameters. -/
theorem pixel_map_cache_coherent {α : Type} [LinearOrderedField α] (self : PixelMapCache α)
    (simulator : Simulator α) :
    ((render_map_pixel_map self simulator).1 = true ↔ self.key ≠ simulator.pixel_map_key) ∧
    (render_map_pixel_map self simulator).2.key = simulator.pixel_map_key ∧
    render_map_pixel_map (render_map_pixel_map self simulator).2 simulator
      = (false, (render_map_pixel_map self simulator).2) ∧
    ((render_map_pixel_map self simulator).1 = false →
      (render_map_pixel_map self simulator).2 = self) ∧
    ((render_map_pixel_map self simulator).1 = true →
      (render_map_pixel_map self simulator).2.pixel_map_tex
        = pixel_map simulator.pixel_width simulator.pixel_height simulator.pixel_mask_x
            simulator.pixel_mask_y simulator.pixel_mask_width simulator.pixel_mask_height) := by
  have hc := cache_condition_iff self simulator
  have hkey : (render_map_pixel_map self simulator).2.key = simulator.pixel_map_key := by
    unfold render_map_pixel_map
    split
    · rfl
    · rename_i h
      have := (not_congr hc).1 h
      exact not_not.1 this
  refine ⟨?_, hkey, ?_, ?_, ?_⟩
  · unfold render_map_pixel_map
    split
    · rename_i h
      simp [hc.1 h]
    · rename_i h
      have := (not_congr hc).1 h
      simp [not_not.1 this]
  · exact render_map_of_key_eq _ simulator hkey
  · unfold render_map_pixel_map
    split
    · intro h
      cases h
    · intro _
      rfl
  · unfold render_map_pixel_map
    split
    · intro _
      rfl
    · intro h
      cases h


/-- C27. The first assertion of `get_phase` admits the index 4, which is not
in `0..3`: for every widget `get_phase(4)` passes that assertion and then
indexes the four-element arrays at 4. An index above 4 or below 0 fails the
assertion, and whenever `get_phase` returns a texture the index is in `0..3`
and the slot is 0 or 1. -/
theorem get_phase_admits_index_four {T : Type} (self : SimWidget T) :
    ((4 : Int) ≥ 0 ∧ (4 : Int) ≤ 4) ∧ ¬ ((4 : Int) < 4) ∧
    get_phase self 4 = .error (.index 4) ∧
    get_phase self 5 = .error .assertion ∧
    get_phase self (-1) = .error .assertion ∧
    (∀ (index : Int) (t : T), get_phase self index = .ok t →
      (0 ≤ index ∧ index < 4) ∧
      (self.phase_texs_index index = 0 ∨ self.phase_texs_index index = 1) ∧
      t = self.phase_texs index (self.phase_texs_index index)) := by
  refine ⟨by decide, by decide, ?_, ?_, ?_, ?_⟩
  · unfold get_phase
    rw [if_neg (by decide), if_pos (by decide)]
  · unfold get_phase
    rw [if_pos (by decide)]
  · unfold get_phase
    rw [if_pos (by decide)]
  · intro index t h
    unfold get_phase at h
    split_ifs at h with h1 h2 h3
    injection h with h
    exact ⟨⟨h1.1, h2⟩, by omega, h.symm⟩

/-- C29. For the unit quaternion `q = (0, 0, 0, -1)`, line 44 of `slerp`
computes `cos_w = -2` from `q` and `q`, whose dot product is 1; `slerp`
negates the second copy and blends `q` with `-q`: `slerp(q, q, 1/2)` is
`(0, 0, 0, 0)`, not `q`. With the dot product as `cos_w` the weights would be
`(alpha, 1 - alpha)`, which sum to 1. -/
theorem slerp_same_not_constant {α : Type} [LinearOrderedField α] (acos sin : α → α) :
    quat_norm_sq (⟨0, 0, 0, -1⟩ : Quat α) = 1 ∧
    quat_dot (⟨0, 0, 0, -1⟩ : Quat α) ⟨0, 0, 0, -1⟩ = 1 ∧
    slerp_cos_w (⟨0, 0, 0, -1⟩ : Quat α) ⟨0, 0, 0, -1⟩ = -2 ∧
    slerp_sign (⟨0, 0, 0, -1⟩ : Quat α) ⟨0, 0, 0, -1⟩ = (2, ⟨0, 0, 0, 1⟩) ∧
    slerp acos sin (⟨0, 0, 0, -1⟩ : Quat α) ⟨0, 0, 0, -1⟩ (1 / 2) = ⟨0, 0, 0, 0⟩ ∧
    slerp acos sin (⟨0, 0, 0, -1⟩ : Quat α) ⟨0, 0, 0, -1⟩ (1 / 2) ≠ ⟨0, 0, 0, -1⟩ ∧
    slerp_weights acos sin (quat_dot (⟨0, 0, 0, -1⟩ : Quat α) ⟨0, 0, 0, -1⟩) (1 / 2)
      = (1 / 2, 1 - 1 / 2) := by
  have hsign : slerp_sign (⟨0, 0, 0, -1⟩ : Quat α) ⟨0, 0, 0, -1⟩ = (2, ⟨0, 0, 0, 1⟩) := by
    norm_num [slerp_sign, slerp_cos_w]
  have hw : slerp_weights acos sin (2 : α) (1 / 2) = (1 / 2, 1 - 1 / 2) := by
    unfold slerp_weights
    rw [if_neg]
    unfold epsilon
    norm_num
  have hs : slerp acos sin (⟨0, 0, 0, -1⟩ : Quat α) ⟨0, 0, 0, -1⟩ (1 / 2) = ⟨0, 0, 0, 0⟩ := by
    unfold slerp
    simp only [hsign, hw]
    norm_num
  refine ⟨?_, ?_, ?_, hsign, hs, ?_, ?_⟩
  · norm_num [quat_norm_sq, quat_dot]
  · norm_num [quat_dot]
  · norm_num [slerp_cos_w]
  · rw [hs]
    intro h
    injection h with _ _ _ h3
    norm_num at h3
  · have hd : quat_dot (⟨0, 0, 0, -1⟩ : Quat α) ⟨0, 0, 0, -1⟩ = 1 := by
      norm_num [quat_dot]
    rw [hd]
    unfold slerp_weights
    rw [if_neg]
    unfold epsilon
    norm_num


/-! ## The result step -/

theorem forward_phase_sub (f : Int) (depth0 amplitude0 offset : ℝ) :
    forward_phase Real.cos Real.pi f depth0 amplitude0 offset 0
        - forward_phase Real.cos Real.pi f depth0 amplitude0 offset 2
      = 2 * amplitude0
          * Real.cos (2 * Real.pi * (f : ℝ) * 2 * depth0 / (Simulator.c : ℝ)) ∧
    forward_phase Real.cos Real.pi f depth0 amplitude0 offset 1
        - forward_phase Real.cos Real.pi f depth0 amplitude0 offset 3
      = 2 * amplitude0
          * Real.sin (2 * Real.pi * (f : ℝ) * 2 * depth0 / (Simulator.c : ℝ)) := by
  unfold forward_phase
  generalize 2 * Real.pi * (f : ℝ) * 2 * depth0 / (Simulator.c : ℝ) = phi
  have h0 : phi - ((0 : Int) : ℝ) * Real.pi / 2 = phi := by simp
  have h1 : phi - ((1 : Int) : ℝ) * Real.pi / 2 = phi - Real.pi / 2 := by simp
  have h2 : phi - ((2 : Int) : ℝ) * Real.pi / 2 = phi - Real.pi := by
    push_cast
    ring
  have h3 : phi - ((3 : Int) : ℝ) * Real.pi / 2 = phi - Real.pi / 2 - Real.pi := by
    push_cast
    ring
  rw [h0, h1, h2, h3, Real.cos_sub_pi, Real.cos_sub_pi, Real.cos_sub_pi_div_two]
  constructor <;> ring

theorem arg_of_polar (r phi : ℝ) (hr : 0 < r) (h0 : 0 ≤ phi) (h1 : phi < 2 * Real.pi) :
    (if Complex.arg ⟨r * Real.cos phi, r * Real.sin phi⟩ < 0 then
        Complex.arg ⟨r * Real.cos phi, r * Real.sin phi⟩ + 2 * Real.pi
      else Complex.arg ⟨r * Real.cos phi, r * Real.sin phi⟩) = phi := by
  have hpi := Real.pi_pos
  have key : ∀ theta : ℝ, (⟨r * Real.cos theta, r * Real.sin theta⟩ : ℂ)
      = (r : ℂ) * (Complex.cos theta + Complex.sin theta * Complex.I) := by
    intro theta
    apply Complex.ext
    · simp [← Complex.ofReal_cos, ← Complex.ofReal_sin]
    · simp [← Complex.ofReal_cos, ← Complex.ofReal_sin]
  by_cases hle : phi ≤ Real.pi
  · have ha : Complex.arg ⟨r * Real.cos phi, r * Real.sin phi⟩ = phi := by
      rw [key phi]
      exact Complex.arg_mul_cos_add_sin_mul_I hr ⟨by linarith, hle⟩
    rw [ha, if_neg (not_lt.2 h0)]
  · have hgt : Real.pi < phi := not_le.1 hle
    have hc : Real.cos phi = Real.cos (phi - 2 * Real.pi) := (Real.cos_sub_two_pi phi).symm
    have hs : Real.sin phi = Real.sin (phi - 2 * Real.pi) := (Real.sin_sub_two_pi phi).symm
    have ha : Complex.arg ⟨r * Real.cos phi, r * Real.sin phi⟩ = phi - 2 * Real.pi := by
      rw [hc, hs, key (phi - 2 * Real.pi)]
      exact Complex.arg_mul_cos_add_sin_mul_I hr ⟨by linarith, by linarith⟩
    rw [ha, if_pos (by linarith)]
    ring

/-- The result step on the four phase images of the forward model. -/
theorem simulate_result_forward (f : Int) (depth0 amplitude0 offset : ℝ)
    (hf : 0 < f) (hd0 : 0 ≤ depth0)
    (hd1 : depth0 < (Simulator.c : ℝ) / (2 * (f : ℝ))) (hA : 0 < amplitude0) :
    simulate_result (fun y x => Complex.arg ⟨x, y⟩) Real.sqrt Real.pi f
        (forward_phase Real.cos Real.pi f depth0 amplitude0 offset 0)
        (forward_phase Real.cos Real.pi f depth0 amplitude0 offset 1)
        (forward_phase Real.cos Real.pi f depth0 amplitude0 offset 2)
        (forward_phase Real.cos Real.pi f depth0 amplitude0 offset 3)
      = (depth0, amplitude0 * 2 * (Real.pi / Real.sqrt 2)) := by
  have hpi := Real.pi_pos
  have hfpos : (0 : ℝ) < (f : ℝ) := by exact_mod_cast hf
  have hc : (0 : ℝ) < (Simulator.c : ℝ) := by
    unfold Simulator.c
    norm_num
  obtain ⟨hI, hQ⟩ := forward_phase_sub f depth0 amplitude0 offset
  have hphi0 : 0 ≤ 2 * Real.pi * (f : ℝ) * 2 * depth0 / (Simulator.c : ℝ) := by positivity
  have hphi1 : 2 * Real.pi * (f : ℝ) * 2 * depth0 / (Simulator.c : ℝ) < 2 * Real.pi := by
    rw [div_lt_iff₀ hc]
    rw [lt_div_iff₀ (by positivity)] at hd1
    nlinarith
  have hsq : (2 * amplitude0
        * Real.cos (2 * Real.pi * (f : ℝ) * 2 * depth0 / (Simulator.c : ℝ))) ^ 2
      + (2 * amplitude0
        * Real.sin (2 * Real.pi * (f : ℝ) * 2 * depth0 / (Simulator.c : ℝ))) ^ 2
      = (2 * amplitude0) ^ 2 := by
    have := Real.cos_sq_add_sin_sq (2 * Real.pi * (f : ℝ) * 2 * depth0 / (Simulator.c : ℝ))
    nlinarith
  unfold simulate_result demodulate frac_c_modfreq
  simp only [hI, hQ]
  rw [arg_of_polar (2 * amplitude0) _ (by linarith) hphi0 hphi1, hsq,
    Real.sqrt_sq (by linarith)]
  refine Prod.ext ?_ ?_
  · show 2 * Real.pi * (f : ℝ) * 2 * depth0 / (Simulator.c : ℝ) / (2 * Real.pi)
      * ((Simulator.c : ℝ) / (f : ℝ) / 2) = depth0
    field_simp
    ring
  · show 2 * amplitude0 * (Real.pi / Real.sqrt 2) = amplitude0 * 2 * (Real.pi / Real.sqrt 2)
    ring

/-- C24, amended. With the real four-quadrant arc tangent, square root and
cosine, and the demodulation as the spec describes it: for every modulation
frequency `f_mod > 0`, every `depth0` in `[0, c / (2 f_mod))`, every
`amplitude0 > 0` and every offset, the four phase images
`P_i = amplitude0 * cos(2 pi f_mod 2 depth0 / c - i pi / 2) + offset` are
demodulated to `depth = depth0` and
`amplitude = amplitude0 * 2 * (pi / sqrt 2)`. -/
theorem quadrature_round_trip (f_mod : Int) (depth0 amplitude0 offset : ℝ)
    (hf : 0 < f_mod) (hd0 : 0 ≤ depth0)
    (hd1 : depth0 < (Simulator.c : ℝ) / (2 * (f_mod : ℝ))) (hA : 0 < amplitude0) :
    (simulate_result (fun y x => Complex.arg ⟨x, y⟩) Real.sqrt Real.pi f_mod
        (forward_phase Real.cos Real.pi f_mod depth0 amplitude0 offset 0)
        (forward_phase Real.cos Real.pi f_mod depth0 amplitude0 offset 1)
        (forward_phase Real.cos Real.pi f_mod depth0 amplitude0 offset 2)
        (forward_phase Real.cos Real.pi f_mod depth0 amplitude0 offset 3)).1 = depth0 ∧
    (simulate_result (fun y x => Complex.arg ⟨x, y⟩) Real.sqrt Real.pi f_mod
        (forward_phase Real.cos Real.pi f_mod depth0 amplitude0 offset 0)
        (forward_phase Real.cos Real.pi f_mod depth0 amplitude0 offset 1)
        (forward_phase Real.cos Real.pi f_mod depth0 amplitude0 offset 2)
        (forward_phase Real.cos Real.pi f_mod depth0 amplitude0 offset 3)).2
      = amplitude0 * 2 * (Real.pi / Real.sqrt 2) := by
  rw [simulate_result_forward f_mod depth0 amplitude0 offset hf hd0 hd1 hA]
  exact ⟨rfl, rfl⟩

theorem quadrature_round_trip_witness :
    (simulate_result (fun y x => Complex.arg ⟨x, y⟩) Real.sqrt Real.pi 10000000
        (forward_phase Real.cos Real.pi 10000000 1 3 5 0)
        (forward_phase Real.cos Real.pi 10000000 1 3 5 1)
        (forward_phase Real.cos Real.pi 10000000 1 3 5 2)
        (forward_phase Real.cos Real.pi 10000000 1 3 5 3)).1 = 1 :=
  (quadrature_round_trip 10000000 1 3 5 (by decide)
    (by norm_num) (by norm_num [Simulator.c]) (by norm_num)).1

/-- C24 as stated fails for the amplitude: for `f_mod = 10000000`,
`depth0 = 1`, `amplitude0 = 1` and the offset 0 the demodulated amplitude is
`2 * (pi / sqrt 2)`, which is above 4, not 1. -/
theorem quadrature_round_trip_counterexample :
    (simulate_result (fun y x => Complex.arg ⟨x, y⟩) Real.sqrt Real.pi 10000000
        (forward_phase Real.cos Real.pi 10000000 1 1 0 0)
        (forward_phase Real.cos Real.pi 10000000 1 1 0 1)
        (forward_phase Real.cos Real.pi 10000000 1 1 0 2)
        (forward_phase Real.cos Real.pi 10000000 1 1 0 3)).2 ≠ 1 := by
  rw [simulate_result_forward 10000000 1 1 0 (by decide) (by norm_num)
    (by norm_num [Simulator.c]) (by norm_num)]
  have h2 : Real.sqrt 2 * Real.sqrt 2 = 2 := Real.mul_self_sqrt (by norm_num)
  have hpos : 0 < Real.sqrt 2 := Real.sqrt_pos.2 (by norm_num)
  have hpi := Real.pi_gt_three
  intro h
  have h3 : (1 : ℝ) * 2 * (Real.pi / Real.sqrt 2) = 1 := h
  field_simp at h3
  nlinarith


/-! ## The tokenizer of version-2 lines -/

end Pmdsim
